import Mathlib

/-!
# configurer: directive tags and field binding

A shallow embedding of the Go package `configurer` (tag_parser.go, tags.go,
load.go, unmarshallers.go) together with theorems about it.

Conventions of the embedding:

* a Go `string` is its sequence of bytes, `GoString := List Nat` (every byte
  is a number below 256); `ascii` turns an ASCII literal into its bytes;
* a Go `error` is represented by its message (`err.Error()`);
* a Go function that may return an error or panic returns a `Result`;
* a Go `map[string]T` is an association list with pairwise distinct keys, read
  with `mapGet` and written with `mapSet`;
* `processTags` works on values through package reflect: a value is a tree `GoValue`,
  the function returns the value after the call together with the returned error, and
  its loop body is split into `fieldPrelude` (lines 37 to 82 of tags.go) and `bindDeref`
  (lines 84 to 123), which `bindField` puts together again;
* library functions (`strings.ToLower`, `os.LookupEnv`, `yaml.Unmarshal`, the decoders
  behind `Unmarshaller`) are parameters of the model.

The definitions come first, the theorems follow them.
-/

namespace Configurer

/-! ## Strings, results, maps -/

/-- A Go string: the list of its bytes. -/
abbrev GoString := List Nat

/-- The bytes of an ASCII literal (one byte per character). -/
def ascii (s : String) : GoString := s.data.map Char.toNat

/-- Outcome of a Go call: a value, a returned error (its message) or a panic. -/
inductive Result (α : Type) where
  | ok (a : α)
  | error (msg : GoString)
  | panic (msg : GoString)
  deriving DecidableEq

/-- Go map read `m[k]` in its two-valued form: `some v` when the key is present. -/
def mapGet {β : Type} : List (GoString × β) → GoString → Option β
  | [], _ => none
  | (k, v) :: rest, key => if k = key then some v else mapGet rest key

/-- Go map write `m[k] = v`: overwrite the entry of an existing key, else add one. -/
def mapSet {β : Type} : List (GoString × β) → GoString → β → List (GoString × β)
  | [], key, val => [(key, val)]
  | (k, v) :: rest, key, val =>
    if k = key then (k, val) :: rest else (k, v) :: mapSet rest key val

/-- `errors.Wrap(err, msg)` of github.com/pkg/errors: the message is `msg: err`. -/
def wrap (err msg : GoString) : GoString := msg ++ ascii ": " ++ err

/-! ## tag_parser.go -/

/-- The Go struct `token`. -/
structure token where
  typ : Nat
  val : GoString
  deriving DecidableEq

def assignToken : Nat := 0
def sepToken : Nat := 1
def charToken : Nat := 2
def eofToken : Nat := 3

/-- Go conversion `string(chr)` of a byte: the UTF-8 encoding of the code point
with that number (one byte below 0x80, two bytes from 0x80 to 0xFF). -/
def byteToString (chr : Nat) : GoString :=
  if chr < 128 then [chr] else [192 + chr / 64, 128 + chr % 64]

/-- The Go struct `tagTokenizer`. -/
structure tagTokenizer where
  escaping : Bool
  deriving DecidableEq

/-- Method `char`: clears the escape flag and yields a one-character literal token. -/
def tagTokenizer.char (_t : tagTokenizer) (chr : Nat) : tagTokenizer × Option token :=
  ({ escaping := false }, some { typ := charToken, val := byteToString chr })

/-- Method `assign`. -/
def tagTokenizer.assign (t : tagTokenizer) : tagTokenizer × Option token :=
  if t.escaping then t.char 61 else (t, some { typ := assignToken, val := [] })

/-- Method `sep`. -/
def tagTokenizer.sep (t : tagTokenizer) : tagTokenizer × Option token :=
  if t.escaping then t.char 44 else (t, some { typ := sepToken, val := [] })

/-- Method `escape`: returns no token (`nil`) when it starts an escape. -/
def tagTokenizer.escape (t : tagTokenizer) : tagTokenizer × Option token :=
  if t.escaping then t.char 92 else ({ escaping := true }, none)

/-- Method `end`. -/
def tagTokenizer.end (_t : tagTokenizer) : token :=
  { typ := eofToken, val := [] }

/-- The `switch chr` of `Tokenize`: '=' is 61, ',' is 44, '\\' is 92. -/
def tagTokenizer.step (t : tagTokenizer) (chr : Nat) : tagTokenizer × Option token :=
  if chr = 61 then t.assign
  else if chr = 44 then t.sep
  else if chr = 92 then t.escape
  else t.char chr

/-- The part of the loop body of `Tokenize` after the switch: a literal token is
merged into a literal token that ends `tokens`, any other token is appended. -/
def pushToken (tokens : List token) (tok : token) : List token :=
  match tokens.getLast? with
  | some lastToken =>
    if lastToken.typ = charToken ∧ tok.typ = charToken then
      tokens.dropLast ++ [{ lastToken with val := lastToken.val ++ tok.val }]
    else tokens ++ [tok]
  | none => tokens ++ [tok]

/-- The `for` loop of `Tokenize` from position `i` on, `rest` being `in[i:]`. -/
def tokenizeLoop (t : tagTokenizer) (tokens : List token) : GoString → List token
  | [] => tokens ++ [t.end]
  | chr :: rest =>
    match t.step chr with
    | (t1, none) => tokenizeLoop t1 tokens rest
    | (t1, some tok) => tokenizeLoop t1 (pushToken tokens tok) rest

/-- Method `Tokenize`. -/
def tagTokenizer.Tokenize (t : tagTokenizer) (s : GoString) : List token :=
  tokenizeLoop t [] s

/-- The statement `tuples[len(tuples)-1][1] = val`; `none` when the index is out of range. -/
def setLastValue (tuples : List (GoString × GoString)) (val : GoString) :
    Option (List (GoString × GoString)) :=
  match tuples.getLast? with
  | some last => some (tuples.dropLast ++ [(last.1, val)])
  | none => none

/-- The token loop of `parseTag`, from parser state `state` and the pairs
collected so far; it yields the collected pairs when the tokens are used up. -/
def parseLoop (state : Int) (tuples : List (GoString × GoString)) :
    List token → Result (List (GoString × GoString))
  | [] => .ok tuples
  | tok :: rest =>
    if state = 0 then
      if tok.typ ≠ charToken then .error (ascii "expected a label")
      else parseLoop 1 (tuples ++ [(tok.val, [])]) rest
    else if state = 1 then
      if tok.typ = sepToken then parseLoop 0 tuples rest
      else if tok.typ = assignToken then parseLoop 2 tuples rest
      else if tok.typ = eofToken then parseLoop (-1) tuples rest
      else .error (ascii "expected an assignment or a separator")
    else if state = 2 then
      if tok.typ = charToken then
        match setLastValue tuples tok.val with
        | some tuples1 => parseLoop 3 tuples1 rest
        | none => .panic (ascii "runtime error: index out of range [-1]")
      else .error (ascii "expected a label")
    else if state = 3 then
      if tok.typ = eofToken then parseLoop (-1) tuples rest
      else if tok.typ = sepToken then parseLoop 0 tuples rest
      else .error (ascii "expected EOF or a separator")
    else .panic (ascii "unknown parse state")

/-- The final loop of `parseTag`: `out[tuple[0]] = tuple[1]` for every pair in order. -/
def tuplesToMap (tuples : List (GoString × GoString)) : List (GoString × GoString) :=
  tuples.foldl (fun out tuple => mapSet out tuple.1 tuple.2) []

/-- Function `parseTag`; the result `none` is the nil map. -/
def parseTag (s : GoString) : Result (Option (List (GoString × GoString))) :=
  if s.length = 0 then .ok none
  else
    match parseLoop 0 [] ((tagTokenizer.mk false).Tokenize s) with
    | .ok tuples => .ok (some (tuplesToMap tuples))
    | .error e => .error e
    | .panic p => .panic p

/-! ## The directive grammar (specification side) -/

/-- The assignment token as the tokenizer emits it. -/
def tAssign : token := { typ := assignToken, val := [] }

/-- The separator token as the tokenizer emits it. -/
def tSep : token := { typ := sepToken, val := [] }

/-- A literal-run token with text `v`. -/
def tChar (v : GoString) : token := { typ := charToken, val := v }

/-- The end token as the tokenizer emits it. -/
def tEof : token := { typ := eofToken, val := [] }

/-- An item of the directive grammar: a label, optionally with an assigned value. -/
abbrev Item := GoString × Option GoString

/-- Tokens of one item: a literal-run, optionally followed by an assignment
and a literal-run. -/
def renderItem : Item → List token
  | (l, none) => [tChar l]
  | (l, some v) => [tChar l, tAssign, tChar v]

/-- Token streams of the form `item (separator item)* end`, for a non-empty list of items. -/
def renderItems : List Item → List token
  | [] => []
  | [it] => renderItem it ++ [tEof]
  | it :: rest => renderItem it ++ tSep :: renderItems rest

/-- The pair an item stands for: the value is empty when there is no assignment. -/
def itemTuple (it : Item) : GoString × GoString := (it.1, it.2.getD [])

/-- The value of the last item with label `l`, if any item has that label. -/
def lastValue (items : List Item) (l : GoString) : Option GoString :=
  (items.reverse.find? (fun it => decide (it.1 = l))).map (fun it => it.2.getD [])

/-- What the tokenizer emits: assignment, separator and literal-run tokens. -/
def WfTok (tk : token) : Prop := tk = tAssign ∨ tk = tSep ∨ ∃ v, tk = tChar v

/-- What may follow a complete item: the end, or a separator and more items. -/
def StreamTail (ts : List token) (tuples out : List (GoString × GoString)) : Prop :=
  (ts = [tEof] ∧ out = tuples) ∨
  ∃ items : List Item, items ≠ [] ∧ ts = tSep :: renderItems items ∧
    out = tuples ++ items.map itemTuple

/-- Re-escaping of a label or value: a backslash (92) before every '=' (61),
',' (44) and backslash. -/
def esc : GoString → GoString
  | [] => []
  | b :: rest =>
    if b = 61 ∨ b = 44 ∨ b = 92 then 92 :: b :: esc rest else b :: esc rest

/-- All bytes are ASCII (below 0x80). -/
def IsAscii (s : GoString) : Prop := ∀ b ∈ s, b < 128

instance (s : GoString) : Decidable (IsAscii s) := by
  unfold IsAscii; infer_instance

/-- Serialization of pairs as `label=value` joined by commas, labels and values re-escaped. -/
def serializeTag : List (GoString × GoString) → GoString
  | [] => []
  | [p] => esc p.1 ++ 61 :: esc p.2
  | p :: rest => esc p.1 ++ 61 :: esc p.2 ++ 44 :: serializeTag rest

/-- Token texts are ASCII, and a literal-run token has a non-empty text. -/
def AsciiTok (tk : token) : Prop := IsAscii tk.val ∧ (tk.typ = charToken → tk.val ≠ [])

/-- Tokens of complete items each followed by a separator: the part of a stream
before a position at which a label is required. -/
def itemsPrefix : List Item → List token
  | [] => []
  | it :: rest => renderItem it ++ tSep :: itemsPrefix rest

/-! ## Go values seen through package reflect -/

/-- The kinds of `reflect.Kind`. -/
inductive Kind where
  | Invalid | Bool | Int | Int8 | Int16 | Int32 | Int64
  | Uint | Uint8 | Uint16 | Uint32 | Uint64 | Uintptr
  | Float32 | Float64 | Complex64 | Complex128
  | Array | Chan | Func | Interface | Map | Ptr | Slice | String | Struct | UnsafePointer
  deriving DecidableEq

/-- Method `Kind.String` of package reflect (the constructor `Kind.String` is the kind of strings). -/
def kindString : Kind → GoString
  | .Invalid => ascii "invalid" | .Bool => ascii "bool" | .Int => ascii "int"
  | .Int8 => ascii "int8" | .Int16 => ascii "int16" | .Int32 => ascii "int32"
  | .Int64 => ascii "int64" | .Uint => ascii "uint" | .Uint8 => ascii "uint8"
  | .Uint16 => ascii "uint16" | .Uint32 => ascii "uint32" | .Uint64 => ascii "uint64"
  | .Uintptr => ascii "uintptr" | .Float32 => ascii "float32" | .Float64 => ascii "float64"
  | .Complex64 => ascii "complex64" | .Complex128 => ascii "complex128"
  | .Array => ascii "array" | .Chan => ascii "chan" | .Func => ascii "func"
  | .Interface => ascii "interface" | .Map => ascii "map" | .Ptr => ascii "ptr"
  | .Slice => ascii "slice" | .String => ascii "string" | .Struct => ascii "struct"
  | .UnsafePointer => ascii "unsafe.Pointer"

/-- A `reflect.StructField`: the declared name and the struct tag, the tag given as
its key/value pairs in order. Fields are exported (package reflect refuses
`Interface()` on values reached through unexported fields). -/
structure StructField where
  Name : GoString
  Tag : List (GoString × GoString)
  deriving DecidableEq

/-- Method `StructTag.Get`: the value of the first pair with that key, else "". -/
def StructField.TagGet (f : StructField) (key : GoString) : GoString :=
  (mapGet f.Tag key).getD []

/-- A typed Go value as package reflect presents it. Pointers hold their pointee
(values are trees, without sharing); a nil pointer and a slice carry the kind of their
element type. `nilIface` and `iface` are storage of interface type. Kinds other than
the ones listed (sized integers, arrays, maps, channels, functions) are not modelled. -/
inductive GoValue where
  | bool (b : Bool)
  | int (i : Int)
  | uint (n : Nat)
  | float (bits : Nat)
  | str (s : GoString)
  | nilPtr (elem : Kind)
  | ptr (pointee : GoValue)
  | slice (elem : Kind) (elems : List GoValue)
  | struct (fields : List (StructField × GoValue))
  | nilIface
  | iface (dyn : GoValue)

/-- Method `Value.Kind`. -/
def GoValue.Kind : GoValue → Kind
  | .bool _ => .Bool
  | .int _ => .Int
  | .uint _ => .Uint
  | .float _ => .Float64
  | .str _ => .String
  | .nilPtr _ => .Ptr
  | .ptr _ => .Ptr
  | .slice _ _ => .Slice
  | .struct _ => .Struct
  | .nilIface => .Interface
  | .iface _ => .Interface

/-- The loop `for derefFieldVal.Kind() == reflect.Ptr { derefFieldVal = derefFieldVal.Elem() }`;
`none` is the zero `reflect.Value`, which `Elem` returns on a nil pointer. -/
def derefValue : GoValue → Option GoValue
  | .ptr p => derefValue p
  | .nilPtr _ => none
  | v => some v

/-- Method `Value.Kind` on a possibly zero `reflect.Value`. -/
def kindOf : Option GoValue → Kind
  | none => .Invalid
  | some v => v.Kind

/-- Method `Value.Len`; it panics on values that have no length. -/
def valueLen : Option GoValue → Result Nat
  | some (.str s) => .ok s.length
  | some (.slice _ elems) => .ok elems.length
  | v => .panic (ascii "reflect: call of reflect.Value.Len on " ++ kindString (kindOf v)
      ++ ascii " Value")

/-- The expression `derefFieldVal.Type().Elem().Kind()` of a slice value. -/
def elemKindOf : Option GoValue → Kind
  | some (.slice k _) => k
  | _ => .Invalid

/-- A value of the generic decoded tree: `interface{}` holding nil, a scalar, a
`map[string]interface{}`, a `[]interface{}`, or a `[]map[string]interface{}` (the
typed slice that `toml.Decode` produces for an array of tables). -/
inductive Generic where
  | null
  | bool (b : Bool)
  | num (n : Int)
  | str (s : GoString)
  | map (entries : List (GoString × Generic))
  | seq (elems : List Generic)
  | mapSlice (tables : List (List (GoString × Generic)))

/-- A key map: `map[string]interface{}`. -/
abbrev KeyMap := List (GoString × Generic)

/-- The test `rawFieldVal == nil` on the first result of `keyMap[fieldName]`
(nil both for an absent key and for a key holding null). -/
def rawIsNil : Option Generic → Bool
  | none => true
  | some .null => true
  | some _ => false

/-! ## External collaborators -/

/-- Library functions the package calls: `strings.ToLower`, `os.LookupEnv` and
`yaml.Unmarshal(data, &field)`, the last as a function from the literal and the
current value of the field to its new value and an optional error. -/
structure Externals where
  ToLower : GoString → GoString
  LookupEnv : GoString → Option GoString
  yamlUnmarshal : GoString → GoValue → GoValue × Option GoString

/-- The Go interface `Unmarshaller`. Its method `Unmarshal(data, v)` appears twice: for a
typed destination, and for a destination `*map[string]interface{}` that holds an empty
map; each gives the new content of the destination and an optional error. -/
structure Unmarshaller where
  Extensions : List GoString
  ExtractFieldName : StructField → GoString
  Unmarshal : GoString → Option GoValue → Option GoValue × Option GoString
  UnmarshalKeyMap : GoString → KeyMap × Option GoString

/-! ## load.go: key-map normalization -/

mutual
/-- Method `Loader.handleMapValue`: the type switch has the cases
`map[string]interface{}` and `[]interface{}`; every other value, a
`[]map[string]interface{}` included, is returned as it is by `default`. -/
def handleMapValue (ext : Externals) : Generic → Generic
  | .map m => .map (handleMap ext [] m)
  | .seq s => .seq (handleSlice ext s)
  | v => v
/-- Method `Loader.handleMap`: the loop `res[strings.ToLower(k)] = l.handleMapValue(v)`
over the entries still to visit, `res` being the result so far. -/
def handleMap (ext : Externals) (res : KeyMap) : List (GoString × Generic) → KeyMap
  | [] => res
  | (k, v) :: rest => handleMap ext (mapSet res (ext.ToLower k) (handleMapValue ext v)) rest
/-- Method `Loader.handleSlice`. -/
def handleSlice (ext : Externals) : List Generic → List Generic
  | [] => []
  | v :: rest => handleMapValue ext v :: handleSlice ext rest
end

/-- Method `Loader.lowercaseKeyMap`. -/
def lowercaseKeyMap (ext : Externals) (m : KeyMap) : KeyMap :=
  handleMap ext [] m

/-! ## tags.go -/

def TagName : GoString := ascii "config"

/-- The Go struct `FieldConfig`. -/
structure FieldConfig where
  Required : Bool
  Default : GoString
  Env : GoString
  Defined : Bool
  deriving DecidableEq

/-- Function `parseStructTag`; on an error the returned pointer is nil. -/
def parseStructTag (tag : GoString) : Result FieldConfig :=
  if tag = [] then .ok { Required := false, Default := [], Env := [], Defined := false }
  else
    match parseTag tag with
    | .error e => .error (wrap e (ascii "mal-formed tag"))
    | .panic p => .panic p
    | .ok parsed =>
      .ok { Defined := true
            Required := (mapGet (parsed.getD []) (ascii "required")).isSome
            Default := (mapGet (parsed.getD []) (ascii "default")).getD []
            Env := (mapGet (parsed.getD []) (ascii "env")).getD [] }

/-- The value of `envOverride`: the value of the variable named by the `env` label when
that label is non-empty, else "" (also "" when the variable is not set). -/
def envOverrideOf (ext : Externals) (fieldCfg : FieldConfig) : GoString :=
  if fieldCfg.Env ≠ [] then (ext.LookupEnv fieldCfg.Env).getD [] else []

/-- The lookup `keyMap[fieldName]` with
`fieldName := strings.ToLower(unmarshaller.ExtractFieldName(fieldDef))`; `none` when
`rawFieldIsDefined` is false. -/
def rawLookup (ext : Externals) (u : Unmarshaller) (fieldDef : StructField) (keyMap : KeyMap) :
    Option Generic :=
  mapGet keyMap (ext.ToLower (u.ExtractFieldName fieldDef))

/-- What `derefFieldVal` (computed before the default was applied) refers to after
`yaml.Unmarshal` has turned the field `fv` into `fv1`: the field itself when it is not a
pointer; behind a pointer the storage the decoder wrote through, or the old pointee
unchanged when the decoder replaced the pointer. -/
def derefAfter : GoValue → GoValue → Option GoValue
  | .ptr p, .ptr p1 => derefAfter p p1
  | .ptr p, _ => derefValue p
  | .nilPtr _, _ => none
  | _, fv1 => some fv1

/-- Lines 76 to 110 of tags.go once a default or env literal has been applied: then
`appliedDefault` is true and `rawFieldVal` is nil, so the presence checks are skipped and
`nextKeyMapVal` is the zero `reflect.Value`, on which `Index` panics. The kind
`reflect.Struct` does not occur here (line 57 has returned for it). -/
def afterDefault (fieldDef : StructField) (fieldCfg : FieldConfig) (derefFieldValKind : Kind)
    (derefFieldVal : Option GoValue) : Result Unit :=
  if derefFieldValKind = .String then
    match valueLen derefFieldVal with
    | .ok strLen =>
      if fieldCfg.Required ∧ strLen = 0 then
        .error (ascii "required field " ++ fieldDef.Name ++ ascii " is empty")
      else .ok ()
    | .error e => .error e
    | .panic p => .panic p
  else if derefFieldValKind = .Slice then
    match valueLen derefFieldVal with
    | .ok sliceLen =>
      if fieldCfg.Required ∧ sliceLen = 0 then
        .error (ascii "required field " ++ fieldDef.Name ++ ascii " is empty")
      else if elemKindOf derefFieldVal ≠ .Struct then .ok ()
      else if 0 < sliceLen then
        .panic (ascii "reflect: call of reflect.Value.Index on zero Value")
      else .ok ()
    | .error e => .error e
    | .panic p => .panic p
  else .ok ()

/-- How lines 37 to 82 of the loop body of `processTags` end for one field. -/
inductive FieldStep where
  /-- The iteration is over: the field now holds `fv` and `r` is the error returned or
  the panic (`ok` when the loop goes on with the next field). -/
  | done (fv : GoValue) (r : Result Unit)
  /-- No default was applied and no presence check failed: lines 84 to 123 follow on the
  unchanged field, with `rawFieldVal` as looked up (`none` when the key is absent). -/
  | descend (fieldCfg : FieldConfig) (rawFieldVal : Option Generic)

/-- The call `yaml.Unmarshal([]byte(lit), fieldVal.Addr().Interface())` followed by the
rest of the iteration; `Addr` panics when the struct is not addressable. -/
def applyLiteral (ext : Externals) (addressable : Bool) (fieldDef : StructField)
    (fieldCfg : FieldConfig) (fieldVal : GoValue) (lit context : GoString) : FieldStep :=
  if addressable = false then
    .done fieldVal (.panic (ascii "reflect.Value.Addr of unaddressable value"))
  else
    match ext.yamlUnmarshal lit fieldVal with
    | (fv1, some err) => .done fv1 (.error (wrap err context))
    | (fv1, none) =>
      .done fv1 (afterDefault fieldDef fieldCfg (kindOf (derefValue fieldVal))
        (derefAfter fieldVal fv1))

/-- Lines 37 to 82 of the loop body of `processTags` for the field `fieldDef` holding
`fieldVal`, in a struct that is `addressable` or not. -/
def fieldPrelude (ext : Externals) (u : Unmarshaller) (addressable : Bool)
    (fieldDef : StructField) (fieldVal : GoValue) (keyMap : KeyMap) : FieldStep :=
  match parseStructTag (fieldDef.TagGet TagName) with
  | .error err => .done fieldVal (.error (wrap err (ascii "invalid configure struct tag")))
  | .panic p => .done fieldVal (.panic p)
  | .ok fieldCfg =>
    let envOverride := envOverrideOf ext fieldCfg
    let rawFieldVal := rawLookup ext u fieldDef keyMap
    let rawFieldIsDefined := rawFieldVal.isSome
    let rawFieldIsNil := rawFieldIsDefined && rawIsNil rawFieldVal
    let hasDefault := envOverride ≠ [] ∨ fieldCfg.Default ≠ []
    let derefFieldValKind := kindOf (derefValue fieldVal)
    if hasDefault ∧ derefFieldValKind = .Struct then
      .done fieldVal (.error (ascii "struct field " ++ fieldDef.Name
        ++ ascii " cannot have a default defined"))
    else if rawIsNil rawFieldVal = true ∧ envOverride ≠ [] then
      applyLiteral ext addressable fieldDef fieldCfg fieldVal envOverride
        (ascii "couldn't unmarshal env var " ++ fieldCfg.Env ++ ascii " into field "
          ++ fieldDef.Name)
    else if rawIsNil rawFieldVal = true ∧ fieldCfg.Default ≠ [] then
      applyLiteral ext addressable fieldDef fieldCfg fieldVal fieldCfg.Default
        (ascii "couldn't unmarshal default value for field " ++ fieldDef.Name)
    else if rawFieldIsDefined = false ∧ fieldCfg.Required then
      .done fieldVal (.error (ascii "required field " ++ fieldDef.Name ++ ascii " not found"))
    else if rawFieldIsNil = true ∧ fieldCfg.Required then
      .done fieldVal (.error (ascii "required field " ++ fieldDef.Name ++ ascii " is nil"))
    else .descend fieldCfg rawFieldVal

/-- The expression `nextKeyMapVal.Index(i).Interface().(map[string]interface{})` with
`nextKeyMapVal := reflect.ValueOf(rawFieldVal)`: the map at index `i`, or a panic
(the text of a failed type assertion is abbreviated: it does not name the dynamic type).
An element of a `[]map[string]interface{}` is a map, so the assertion holds for it. -/
def indexRaw (rawFieldVal : Option Generic) (i : Nat) : Result KeyMap :=
  match rawFieldVal with
  | some (.seq elems) =>
    match elems.get? i with
    | some (.map m) => .ok m
    | some _ => .panic (ascii "interface conversion: interface {} is not map[string]interface {}")
    | none => .panic (ascii "reflect: slice index out of range")
  | some (.mapSlice tables) =>
    match tables.get? i with
    | some m => .ok m
    | none => .panic (ascii "reflect: slice index out of range")
  | some (.str s) =>
    if i < s.length then
      .panic (ascii "interface conversion: interface {} is uint8, not map[string]interface {}")
    else .panic (ascii "reflect: string index out of range")
  | some .null => .panic (ascii "reflect: call of reflect.Value.Index on zero Value")
  | none => .panic (ascii "reflect: call of reflect.Value.Index on zero Value")
  | some (.map _) => .panic (ascii "reflect: call of reflect.Value.Index on map Value")
  | some (.bool _) => .panic (ascii "reflect: call of reflect.Value.Index on bool Value")
  | some (.num _) => .panic (ascii "reflect: call of reflect.Value.Index on float64 Value")

mutual
/-- Function `processTags` from line 25 on, for `cfgVal` as `reflect.Indirect` returned
it (`addressable` or not); it yields the value after the call and the returned error. -/
def bindValue (ext : Externals) (u : Unmarshaller) (addressable : Bool) (keyMap : KeyMap) :
    GoValue → GoValue × Result Unit
  | .struct fields =>
    let r := bindFields ext u addressable keyMap fields
    (.struct r.1, r.2)
  | .iface (.struct fields) =>
    let r := bindFields ext u false keyMap fields
    (.iface (.struct r.1), r.2)
  | .iface dyn =>
    (.iface dyn, .error (ascii "can only process structs, but got " ++ kindString dyn.Kind))
  | .nilIface =>
    (.nilIface, .error (ascii "can only process structs, but got " ++ kindString Kind.Invalid))
  | v => (v, .error (ascii "can only process structs, but got " ++ kindString v.Kind))
/-- The loop over the fields of `processTags` (lines 34 to 124), from the field at the
head of the list on. -/
def bindFields (ext : Externals) (u : Unmarshaller) (addressable : Bool) (keyMap : KeyMap) :
    List (StructField × GoValue) → List (StructField × GoValue) × Result Unit
  | [] => ([], .ok ())
  | (fieldDef, fieldVal) :: rest =>
    match fieldPrelude ext u addressable fieldDef fieldVal keyMap with
    | .done fv (.ok ()) =>
      let r := bindFields ext u addressable keyMap rest
      ((fieldDef, fv) :: r.1, r.2)
    | .done fv r => ((fieldDef, fv) :: rest, r)
    | .descend fieldCfg rawFieldVal =>
      match bindDeref ext u fieldDef fieldCfg rawFieldVal addressable fieldVal with
      | (fv, .ok ()) =>
        let r := bindFields ext u addressable keyMap rest
        ((fieldDef, fv) :: r.1, r.2)
      | (fv, r) => ((fieldDef, fv) :: rest, r)
/-- Lines 84 to 123 of the loop body on `derefFieldVal`, which is reached from the field
through its pointers; `addressable` tells whether `derefFieldVal.Addr()` succeeds. -/
def bindDeref (ext : Externals) (u : Unmarshaller) (fieldDef : StructField)
    (fieldCfg : FieldConfig) (rawFieldVal : Option Generic) (addressable : Bool) :
    GoValue → GoValue × Result Unit
  | .ptr p =>
    let r := bindDeref ext u fieldDef fieldCfg rawFieldVal true p
    (.ptr r.1, r.2)
  | .str s =>
    if fieldCfg.Required ∧ s.length = 0 then
      (.str s, .error (ascii "required field " ++ fieldDef.Name ++ ascii " is empty"))
    else (.str s, .ok ())
  | .slice elemKind elems =>
    if fieldCfg.Required ∧ elems.length = 0 then
      (.slice elemKind elems,
        .error (ascii "required field " ++ fieldDef.Name ++ ascii " is empty"))
    else if elemKind ≠ .Struct then (.slice elemKind elems, .ok ())
    else
      let r := bindElems ext u fieldDef rawFieldVal 0 elems
      (.slice elemKind r.1, r.2)
  | .struct fields =>
    if addressable = false then
      (.struct fields, .panic (ascii "reflect.Value.Addr of unaddressable value"))
    else
      match rawFieldVal with
      | none =>
        let r := bindFields ext u true [] fields
        (.struct r.1, match r.2 with
          | .error err => .error (wrap err (ascii "error processing field " ++ fieldDef.Name))
          | other => other)
      | some .null =>
        let r := bindFields ext u true [] fields
        (.struct r.1, match r.2 with
          | .error err => .error (wrap err (ascii "error processing field " ++ fieldDef.Name))
          | other => other)
      | some (.map m) =>
        let r := bindFields ext u true m fields
        (.struct r.1, match r.2 with
          | .error err => .error (wrap err (ascii "error processing field " ++ fieldDef.Name))
          | other => other)
      | some _ =>
        (.struct fields,
          .panic (ascii "interface conversion: interface {} is not map[string]interface {}"))
  | v => (v, .ok ())
/-- The loop over the elements of a slice of structs (lines 103 to 108), from index `i`
on, `elems` being the elements from that index. -/
def bindElems (ext : Externals) (u : Unmarshaller) (fieldDef : StructField)
    (rawFieldVal : Option Generic) (i : Nat) :
    List GoValue → List GoValue × Result Unit
  | [] => ([], .ok ())
  | elem :: rest =>
    match indexRaw rawFieldVal i with
    | .error err => (elem :: rest, .error err)
    | .panic p => (elem :: rest, .panic p)
    | .ok next =>
      match bindValue ext u true next elem with
      | (elem1, .ok ()) =>
        let r := bindElems ext u fieldDef rawFieldVal (i + 1) rest
        (elem1 :: r.1, r.2)
      | (elem1, .error err) =>
        (elem1 :: rest,
          .error (wrap err (ascii "error processing array field " ++ fieldDef.Name)))
      | (elem1, .panic p) => (elem1 :: rest, .panic p)
end

/-- Function `processTags`. The argument `v` is what the `interface{}` parameter holds
(`none` for nil); the result is that value after the call and the returned error.
`reflect.Indirect` follows one pointer, whose pointee is addressable. -/
def processTags (ext : Externals) (u : Unmarshaller) (v : Option GoValue) (keyMap : KeyMap) :
    Option GoValue × Result Unit :=
  match v with
  | none => (none, .error (ascii "can only process structs, but got " ++ kindString Kind.Invalid))
  | some (.nilPtr k) =>
    (some (.nilPtr k),
      .error (ascii "can only process structs, but got " ++ kindString Kind.Invalid))
  | some (.ptr x) =>
    let r := bindValue ext u true keyMap x
    (some (.ptr r.1), r.2)
  | some x =>
    let r := bindValue ext u false keyMap x
    (some r.1, r.2)

/-- The loop body of `processTags` for one field (lines 35 to 123): the new value of
the field and how the iteration ends. -/
def bindField (ext : Externals) (u : Unmarshaller) (addressable : Bool) (keyMap : KeyMap)
    (fieldDef : StructField) (fieldVal : GoValue) : GoValue × Result Unit :=
  match fieldPrelude ext u addressable fieldDef fieldVal keyMap with
  | .done fv r => (fv, r)
  | .descend fieldCfg rawFieldVal =>
    bindDeref ext u fieldDef fieldCfg rawFieldVal addressable fieldVal

/-- Method `Loader.Load` after `ioutil.ReadAll`, whose outcome is `read`, and `r.Close`,
whose outcome is `close`. -/
def Load (ext : Externals) (read : Result GoString) (close : Option GoString)
    (u : Unmarshaller) (v : Option GoValue) : Option GoValue × Result Unit :=
  match read with
  | .error err => (v, .error (wrap err (ascii "error reading config")))
  | .panic p => (v, .panic p)
  | .ok buf =>
    match close with
    | some err => (v, .error (wrap err (ascii "error closing reader")))
    | none =>
      match u.Unmarshal buf v with
      | (v1, some err) => (v1, .error (wrap err (ascii "error unmarshalling config")))
      | (v1, none) =>
        match u.UnmarshalKeyMap buf with
        | (_, some err) => (v1, .error (wrap err (ascii "error unmarshalling config")))
        | (keyMap, none) => processTags ext u v1 (lowercaseKeyMap ext keyMap)

/-! ## unmarshallers.go -/

/-- Method `TOMLUnmarshaller.ExtractFieldName`. -/
def TOMLExtractFieldName (field : StructField) : GoString :=
  let tag := field.TagGet (ascii "toml")
  if tag = [] then field.Name else tag

/-- Method `JSONUnmarshaller.ExtractFieldName`; `strings.Split(tag, ",")[0]` is the part
of the tag before its first comma (44). -/
def JSONExtractFieldName (field : StructField) : GoString :=
  let tag := field.TagGet (ascii "json")
  if tag = [] then field.Name
  else
    let tagFields0 := tag.takeWhile (fun b => b ≠ 44)
    if tagFields0 = [] then field.Name else tagFields0

/-- Method `YAMLUnmarshaller.ExtractFieldName`. -/
def YAMLExtractFieldName (field : StructField) : GoString :=
  let tag := field.TagGet (ascii "yaml")
  if tag = [] then field.Name
  else
    let tagFields0 := tag.takeWhile (fun b => b ≠ 44)
    if tagFields0 = [] then field.Name else tagFields0

/-- The `JSONUnmarshaller`, given what `json.Unmarshal` does on typed destinations and
on the key map. -/
def JSONUnmarshaller (decode : GoString → Option GoValue → Option GoValue × Option GoString)
    (decodeKeyMap : GoString → KeyMap × Option GoString) : Unmarshaller :=
  { Extensions := [ascii "json"]
    ExtractFieldName := JSONExtractFieldName
    Unmarshal := decode
    UnmarshalKeyMap := decodeKeyMap }

/-- The `TOMLUnmarshaller`, given what `toml.Decode` does on typed destinations and on
the key map. -/
def TOMLUnmarshaller (decode : GoString → Option GoValue → Option GoValue × Option GoString)
    (decodeKeyMap : GoString → KeyMap × Option GoString) : Unmarshaller :=
  { Extensions := [ascii "toml"]
    ExtractFieldName := TOMLExtractFieldName
    Unmarshal := decode
    UnmarshalKeyMap := decodeKeyMap }

/-! ## Sample collaborators for concrete runs -/

/-- What `strings.ToLower` does on one ASCII byte. -/
def lowerByte (b : Nat) : Nat := if 65 ≤ b ∧ b ≤ 90 then b + 32 else b

/-- What `strings.ToLower` does on an ASCII string. -/
def asciiToLower (s : GoString) : GoString := s.map lowerByte

/-- What `yaml.Unmarshal` does with a few scalars: `true` and `false` into a bool or a
nil pointer to bool, `9` into an int, a run of lower-case letters into a string (but
`null` gives the empty string), the quoted empty scalar (two double quotes, 34) into the
empty string; into a nil pointer to string the same strings, behind a pointer that the
decoder allocates (`null` leaves the pointer nil); every other call is answered with an
error and leaves the destination as it is. -/
def sampleYaml (lit : GoString) (dst : GoValue) : GoValue × Option GoString :=
  match dst with
  | .bool _ =>
    if lit = ascii "true" then (.bool true, none)
    else if lit = ascii "false" then (.bool false, none)
    else (dst, some (ascii "yaml: unmarshal errors"))
  | .nilPtr .Bool =>
    if lit = ascii "true" then (.ptr (.bool true), none)
    else if lit = ascii "false" then (.ptr (.bool false), none)
    else (dst, some (ascii "yaml: unmarshal errors"))
  | .int _ =>
    if lit = ascii "9" then (.int 9, none) else (dst, some (ascii "yaml: unmarshal errors"))
  | .str _ =>
    if lit = ascii "null" then (.str [], none)
    else if lit ≠ [] ∧ lit.all (fun b => decide (97 ≤ b ∧ b ≤ 122)) = true then (.str lit, none)
    else if lit = [34, 34] then (.str [], none)
    else (dst, some (ascii "yaml: unmarshal errors"))
  | .nilPtr .String =>
    if lit = ascii "null" then (dst, none)
    else if lit ≠ [] ∧ lit.all (fun b => decide (97 ≤ b ∧ b ≤ 122)) = true then
      (.ptr (.str lit), none)
    else if lit = [34, 34] then (.ptr (.str []), none)
    else (dst, some (ascii "yaml: unmarshal errors"))
  | _ => (dst, some (ascii "yaml: unmarshal errors"))

/-- Sample externals: ASCII lower-casing, an environment given as a list of variables,
and the sample YAML decoder. -/
def sampleExt (environ : List (GoString × GoString)) : Externals :=
  { ToLower := asciiToLower
    LookupEnv := fun name => mapGet environ name
    yamlUnmarshal := sampleYaml }

/-- The JSON unmarshaller with decoders that are never called by `processTags`. -/
def sampleJSON : Unmarshaller :=
  JSONUnmarshaller (fun _ v => (v, none)) (fun _ => ([], none))

/-- The TOML unmarshaller with decoders that are never called by `processTags`. -/
def sampleTOML : Unmarshaller :=
  TOMLUnmarshaller (fun _ v => (v, none)) (fun _ => ([], none))

/-! ## Properties of generic trees (specification side) -/

mutual
/-- Every key of every mapping in the tree equals its own lower-case form. -/
def KeysLower (ext : Externals) : Generic → Prop
  | .map m => KeysLowerEntries ext m
  | .seq s => KeysLowerList ext s
  | .mapSlice tables => KeysLowerTables ext tables
  | _ => True
/-- The entries of a mapping have lower-case keys, at every depth. -/
def KeysLowerEntries (ext : Externals) : List (GoString × Generic) → Prop
  | [] => True
  | (k, v) :: rest => ext.ToLower k = k ∧ KeysLower ext v ∧ KeysLowerEntries ext rest
/-- The elements of a sequence have lower-case keys, at every depth. -/
def KeysLowerList (ext : Externals) : List Generic → Prop
  | [] => True
  | v :: rest => KeysLower ext v ∧ KeysLowerList ext rest
/-- The mappings of a typed slice of mappings have lower-case keys, at every depth. -/
def KeysLowerTables (ext : Externals) : List (List (GoString × Generic)) → Prop
  | [] => True
  | m :: rest => KeysLowerEntries ext m ∧ KeysLowerTables ext rest
end

mutual
/-- Two trees differ only in the letter case of the keys of their mappings. -/
def CaseEq (ext : Externals) : Generic → Generic → Prop
  | .map m1, .map m2 => CaseEqEntries ext m1 m2
  | .seq s1, .seq s2 => CaseEqList ext s1 s2
  | .mapSlice t1, .mapSlice t2 => CaseEqTables ext t1 t2
  | .null, .null => True
  | .bool a, .bool b => a = b
  | .num a, .num b => a = b
  | .str a, .str b => a = b
  | _, _ => False
/-- Entry by entry, the keys are equal up to letter case and the values differ only in
the letter case of keys. -/
def CaseEqEntries (ext : Externals) :
    List (GoString × Generic) → List (GoString × Generic) → Prop
  | [], [] => True
  | (k1, v1) :: r1, (k2, v2) :: r2 =>
    ext.ToLower k1 = ext.ToLower k2 ∧ CaseEq ext v1 v2 ∧ CaseEqEntries ext r1 r2
  | _, _ => False
/-- Element by element, the values differ only in the letter case of keys. -/
def CaseEqList (ext : Externals) : List Generic → List Generic → Prop
  | [], [] => True
  | v1 :: r1, v2 :: r2 => CaseEq ext v1 v2 ∧ CaseEqList ext r1 r2
  | _, _ => False
/-- Mapping by mapping, two typed slices of mappings differ only in the letter case of
keys. -/
def CaseEqTables (ext : Externals) :
    List (List (GoString × Generic)) → List (List (GoString × Generic)) → Prop
  | [], [] => True
  | m1 :: r1, m2 :: r2 => CaseEqEntries ext m1 m2 ∧ CaseEqTables ext r1 r2
  | _, _ => False
end

mutual
/-- The tree is built from `map[string]interface{}` and `[]interface{}` only: it has no
typed slice of mappings at any depth (what `json.Unmarshal` and the YAML unmarshaller of
this package produce). -/
def Untyped : Generic → Prop
  | .map m => UntypedEntries m
  | .seq s => UntypedList s
  | .mapSlice _ => False
  | _ => True
/-- The values of the entries have no typed slice of mappings. -/
def UntypedEntries : List (GoString × Generic) → Prop
  | [] => True
  | (_, v) :: rest => Untyped v ∧ UntypedEntries rest
/-- The elements have no typed slice of mappings. -/
def UntypedList : List Generic → Prop
  | [] => True
  | v :: rest => Untyped v ∧ UntypedList rest
end

/-- The literal that is applied when the input lacks the value: the env override when
there is one, else the static default. -/
def effectiveLiteral (ext : Externals) (fieldCfg : FieldConfig) : GoString :=
  if envOverrideOf ext fieldCfg ≠ [] then envOverrideOf ext fieldCfg else fieldCfg.Default

/-! ## Structs of load_test.go -/

/-- A field with the given name and `config` tag. -/
def configField (name tag : String) : StructField :=
  { Name := ascii name, Tag := [(ascii "config", ascii tag)] }

/-- The struct `cfg` of `TestLoad_Required`, holding the given values. -/
def testRequiredCfg (b : Bool) (i : Int) (s : GoString) (nested : Bool) (array : List GoValue) :
    List (StructField × GoValue) :=
  [(configField "Bool" "required", .bool b),
   (configField "Int" "required", .int i),
   (configField "String" "required", .str s),
   (configField "Nested" "required", .struct [(configField "Bool" "required", .bool nested)]),
   (configField "Array" "required", .slice .Int array)]

/-- The struct `nestedConfig` of load_test.go, holding the given values. -/
def testNestedConfig (s : GoString) (b : Bool) : GoValue :=
  .struct [(configField "String" "required,default=nested", .str s),
    ({ Name := ascii "Bool", Tag := [] }, .bool b)]

/-- A struct with the field `ArrayOfStuff []nestedConfig` of `testConfig` in
load_test.go, the slice holding one element with the given string. -/
def testArrayCfg (s : GoString) : GoValue :=
  .struct [({ Name := ascii "ArrayOfStuff", Tag := [] }, .slice .Struct [testNestedConfig s false])]

/-- The key map that `toml.Decode` gives for an array of tables with one table,

    [[ArrayOfStuff]]
    <key> = "what"

the table key spelled as given: the array of tables is a `[]map[string]interface{}`. -/
def tablesKeyMap (key : GoString) : KeyMap :=
  [(ascii "ArrayOfStuff", .mapSlice [[(key, .str (ascii "what"))]])]

/-- The key map that `json.Unmarshal` gives for the same data,
`{"ArrayOfStuff": [{"<key>": "what"}]}`: the array is a `[]interface{}`. -/
def arrayKeyMap (key : GoString) : KeyMap :=
  [(ascii "ArrayOfStuff", .seq [.map [(key, .str (ascii "what"))]])]

/-- The expression `reflect.Indirect(reflect.ValueOf(v))` of line 24: one pointer is
followed; `none` is the zero `reflect.Value` (for nil and behind a nil pointer). -/
def indirectOf : Option GoValue → Option GoValue
  | some (.ptr x) => some x
  | some (.nilPtr _) => none
  | v => v

/-- Lines 25 to 27: `if cfgVal.Kind() == reflect.Interface { cfgVal = cfgVal.Elem() }`. -/
def interfaceElem : Option GoValue → Option GoValue
  | some (.iface dyn) => some dyn
  | some .nilIface => none
  | v => v

/-- The value of `cfgKind` at line 28. -/
def cfgKindOf (v : Option GoValue) : Kind :=
  kindOf (interfaceElem (indirectOf v))

/-- The JSON unmarshaller on input that is not a JSON value, such as a bare word:
`json.Unmarshal` returns a syntax error (its text abbreviated here) and leaves the
destination untouched. -/
def bareWordJSON : Unmarshaller :=
  JSONUnmarshaller
    (fun _ v => (v, some (ascii "invalid character looking for beginning of value")))
    (fun _ => ([], some (ascii "invalid character looking for beginning of value")))


/-! ## The tokenizer in mid-string, and properties of token streams -/

/-- The `for` loop of `Tokenize` stopped after the bytes of `s`: the tokenizer (its
escape flag) and the token list at that point, before the end token is appended. -/
def tokenizeRun (t : tagTokenizer) (tokens : List token) : GoString → tagTokenizer × List token
  | [] => (t, tokens)
  | chr :: rest =>
    match t.step chr with
    | (t1, none) => tokenizeRun t1 tokens rest
    | (t1, some tok) => tokenizeRun t1 (pushToken tokens tok) rest

/-- The number of backslashes (92) that end the string. -/
def trailingBackslashes (s : GoString) : Nat :=
  (s.reverse.takeWhile (fun b => decide (b = 92))).length

/-- The string has an unpaired trailing backslash: the backslashes that end it are
odd in number. -/
def pendingEscape (s : GoString) : Bool :=
  decide (trailingBackslashes s % 2 = 1)

/-- No literal-run token is directly followed by another literal-run token. -/
def NoCharPair (ts : List token) : Prop :=
  List.Chain' (fun a b => ¬ (a.typ = charToken ∧ b.typ = charToken)) ts

instance (ts : List token) : Decidable (NoCharPair ts) := by
  unfold NoCharPair; infer_instance
/-! # Theorems -/

/-! ## Theorems: tokenizer -/

theorem pushToken_nil (tok : token) : pushToken [] tok = [tok] := rfl

theorem pushToken_snoc (pre : List token) (l tok : token) :
    pushToken (pre ++ [l]) tok =
      if l.typ = charToken ∧ tok.typ = charToken then
        pre ++ [{ l with val := l.val ++ tok.val }]
      else pre ++ [l, tok] := by
  simp [pushToken, List.getLast?_append, List.dropLast_concat]

theorem pushToken_snoc_eq (pre : List token) (l tok : token) :
    pushToken (pre ++ [l]) tok = pre ++ pushToken [l] tok := by
  have h := pushToken_snoc [] l tok
  rw [pushToken_snoc]
  simp only [List.nil_append] at h
  rw [h]
  split <;> simp

theorem pushToken_ne_nil (tokens : List token) (tok : token) : pushToken tokens tok ≠ [] := by
  rcases List.eq_nil_or_concat tokens with h | ⟨pre, l, h⟩
  · subst h; simp [pushToken_nil]
  · rw [List.concat_eq_append] at h
    subst h
    rw [pushToken_snoc]
    split <;> simp

/-- A non-empty accumulator is only touched at its last token. -/
theorem tokenizeLoop_prefix (s : GoString) :
    ∀ (t : tagTokenizer) (pre : List token) (l : token),
      tokenizeLoop t (pre ++ [l]) s = pre ++ tokenizeLoop t [l] s := by
  induction s with
  | nil => intro t pre l; simp [tokenizeLoop]
  | cons chr rest ih =>
    intro t pre l
    simp only [tokenizeLoop]
    rcases hstep : t.step chr with ⟨t1, _ | tok⟩
    · simp only []
      exact ih t1 pre l
    · simp only []
      rw [pushToken_snoc_eq]
      rcases List.eq_nil_or_concat (pushToken [l] tok) with h | ⟨pre2, l2, h⟩
      · exact absurd h (pushToken_ne_nil _ _)
      · rw [List.concat_eq_append] at h
        rw [h, ← List.append_assoc, ih t1 (pre ++ pre2) l2, ih t1 pre2 l2, List.append_assoc]

theorem step_ascii_plain (b : Nat) (hb : b < 128) (h : ¬ (b = 61 ∨ b = 44 ∨ b = 92)) :
    (tagTokenizer.mk false).step b = (tagTokenizer.mk false, some (tChar [b])) := by
  simp only [not_or] at h
  simp [tagTokenizer.step, tagTokenizer.char, byteToString, tChar, h.1, h.2.1, h.2.2, hb]

theorem step_backslash : (tagTokenizer.mk false).step 92 = (tagTokenizer.mk true, none) := by
  simp [tagTokenizer.step, tagTokenizer.escape]

theorem step_escaped (b : Nat) (h : b = 61 ∨ b = 44 ∨ b = 92) :
    (tagTokenizer.mk true).step b = (tagTokenizer.mk false, some (tChar [b])) := by
  rcases h with h | h | h <;> subst h <;>
    simp [tagTokenizer.step, tagTokenizer.assign, tagTokenizer.sep, tagTokenizer.escape,
      tagTokenizer.char, byteToString, tChar]

theorem step_assign : (tagTokenizer.mk false).step 61 = (tagTokenizer.mk false, some tAssign) := by
  simp [tagTokenizer.step, tagTokenizer.assign, tAssign]

theorem step_sep : (tagTokenizer.mk false).step 44 = (tagTokenizer.mk false, some tSep) := by
  simp [tagTokenizer.step, tagTokenizer.sep, tSep]

theorem pushToken_char_char (w v : GoString) :
    pushToken [tChar w] (tChar v) = [tChar (w ++ v)] := by
  simp [pushToken, tChar]

theorem pushToken_other (l tok : token) (h : ¬ (l.typ = charToken ∧ tok.typ = charToken)) :
    pushToken [l] tok = [l, tok] := by
  simp [pushToken, h]

/-- An escaped ASCII run extends the literal-run token that ends the accumulator. -/
theorem tokenizeLoop_esc_char (l : GoString) (hl : IsAscii l) :
    ∀ (w rest : GoString),
      tokenizeLoop (tagTokenizer.mk false) [tChar w] (esc l ++ rest) =
        tokenizeLoop (tagTokenizer.mk false) [tChar (w ++ l)] rest := by
  induction l with
  | nil => intro w rest; simp [esc]
  | cons b l ih =>
    intro w rest
    have hb : b < 128 := hl b (List.mem_cons_self _ _)
    have hl2 : IsAscii l := fun c hc => hl c (List.mem_cons_of_mem _ hc)
    by_cases h : b = 61 ∨ b = 44 ∨ b = 92
    · simp only [esc, h, if_true, List.cons_append, tokenizeLoop, step_backslash, step_escaped b h,
        pushToken_char_char]
      rw [ih hl2]; simp
    · simp only [esc, h, if_false, List.cons_append, tokenizeLoop, step_ascii_plain b hb h,
        pushToken_char_char]
      rw [ih hl2]; simp

/-- An escaped non-empty ASCII run after a token that is not a literal starts a new
literal-run token. -/
theorem tokenizeLoop_esc_other (l : GoString) (hl : IsAscii l) (hne : l ≠ []) (tk : token)
    (htk : tk.typ ≠ charToken) (rest : GoString) :
    tokenizeLoop (tagTokenizer.mk false) [tk] (esc l ++ rest) =
      tk :: tokenizeLoop (tagTokenizer.mk false) [tChar l] rest := by
  cases l with
  | nil => exact absurd rfl hne
  | cons b l =>
    have hb : b < 128 := hl b (List.mem_cons_self _ _)
    have hl2 : IsAscii l := fun c hc => hl c (List.mem_cons_of_mem _ hc)
    have hp : pushToken [tk] (tChar [b]) = [tk] ++ [tChar [b]] := by
      rw [pushToken_other]; · rfl
      · exact fun h => htk h.1
    by_cases h : b = 61 ∨ b = 44 ∨ b = 92
    · simp only [esc, h, if_true, List.cons_append, tokenizeLoop, step_backslash, step_escaped b h]
      rw [hp, tokenizeLoop_prefix, tokenizeLoop_esc_char l hl2]; simp
    · simp only [esc, h, if_false, List.cons_append, tokenizeLoop, step_ascii_plain b hb h]
      rw [hp, tokenizeLoop_prefix, tokenizeLoop_esc_char l hl2]; simp

/-- An escaped non-empty ASCII run at the start of the input. -/
theorem tokenizeLoop_esc_nil (l : GoString) (hl : IsAscii l) (hne : l ≠ []) (rest : GoString) :
    tokenizeLoop (tagTokenizer.mk false) [] (esc l ++ rest) =
      tokenizeLoop (tagTokenizer.mk false) [tChar l] rest := by
  cases l with
  | nil => exact absurd rfl hne
  | cons b l =>
    have hb : b < 128 := hl b (List.mem_cons_self _ _)
    have hl2 : IsAscii l := fun c hc => hl c (List.mem_cons_of_mem _ hc)
    by_cases h : b = 61 ∨ b = 44 ∨ b = 92
    · simp only [esc, h, if_true, List.cons_append, tokenizeLoop, step_backslash, step_escaped b h,
        pushToken_nil]
      rw [tokenizeLoop_esc_char l hl2]; simp
    · simp only [esc, h, if_false, List.cons_append, tokenizeLoop, step_ascii_plain b hb h,
        pushToken_nil]
      rw [tokenizeLoop_esc_char l hl2]; simp

theorem tokenizeLoop_assign (tk : token) (rest : GoString) :
    tokenizeLoop (tagTokenizer.mk false) [tk] (61 :: rest) =
      tk :: tokenizeLoop (tagTokenizer.mk false) [tAssign] rest := by
  have hp : pushToken [tk] tAssign = [tk] ++ [tAssign] := by
    rw [pushToken_other]; · rfl
    · exact fun h => absurd h.2 (by decide)
  simp only [tokenizeLoop, step_assign]
  rw [hp, tokenizeLoop_prefix]; simp

theorem tokenizeLoop_sep (tk : token) (rest : GoString) :
    tokenizeLoop (tagTokenizer.mk false) [tk] (44 :: rest) =
      tk :: tokenizeLoop (tagTokenizer.mk false) [tSep] rest := by
  have hp : pushToken [tk] tSep = [tk] ++ [tSep] := by
    rw [pushToken_other]; · rfl
    · exact fun h => absurd h.2 (by decide)
  simp only [tokenizeLoop, step_sep]
  rw [hp, tokenizeLoop_prefix]; simp

theorem tokenizeLoop_end (t : tagTokenizer) (tokens : List token) :
    tokenizeLoop t tokens [] = tokens ++ [tEof] := rfl

/-! ## Theorems: shape of the token stream -/

theorem step_wf (t t1 : tagTokenizer) (chr : Nat) (tok : token)
    (h : t.step chr = (t1, some tok)) : ∃ v, tok = tAssign ∨ tok = tSep ∨ tok = tChar v := by
  refine ⟨byteToString (if t.escaping then chr else chr), ?_⟩
  cases t with
  | mk e =>
    cases e <;>
      simp only [tagTokenizer.step, tagTokenizer.assign, tagTokenizer.sep, tagTokenizer.escape,
        tagTokenizer.char] at h <;>
      split_ifs at h <;>
      simp_all [tAssign, tSep, tChar, Prod.ext_iff]

theorem wfTok_step (t t1 : tagTokenizer) (chr : Nat) (tok : token)
    (h : t.step chr = (t1, some tok)) : WfTok tok := by
  obtain ⟨v, hv | hv | hv⟩ := step_wf t t1 chr tok h
  · exact Or.inl hv
  · exact Or.inr (Or.inl hv)
  · exact Or.inr (Or.inr ⟨v, hv⟩)

theorem wfTok_pushToken (tokens : List token) (tok : token)
    (hts : ∀ tk ∈ tokens, WfTok tk) (htok : WfTok tok) :
    ∀ tk ∈ pushToken tokens tok, WfTok tk := by
  rcases List.eq_nil_or_concat tokens with h | ⟨pre, l, h⟩
  · subst h; intro tk htk; simp [pushToken_nil] at htk; exact htk ▸ htok
  · rw [List.concat_eq_append] at h
    subst h
    rw [pushToken_snoc]
    intro tk htk
    split at htk
    · rename_i hc
      rcases List.mem_append.1 htk with h1 | h1
      · exact hts tk (List.mem_append_left _ h1)
      · simp only [List.mem_singleton] at h1
        subst h1
        refine Or.inr (Or.inr ⟨l.val ++ tok.val, ?_⟩)
        simp [tChar, hc.1]
    · rcases List.mem_append.1 htk with h1 | h1
      · exact hts tk (List.mem_append_left _ h1)
      · simp only [List.mem_cons, List.mem_singleton, List.not_mem_nil, or_false] at h1
        rcases h1 with h1 | h1
        · exact h1 ▸ hts l (by simp)
        · exact h1 ▸ htok

/-- The token list ends with the end token, and before it there are only
assignment, separator and literal-run tokens. -/
theorem tokenizeLoop_shape (s : GoString) :
    ∀ (t : tagTokenizer) (tokens : List token), (∀ tk ∈ tokens, WfTok tk) →
      ∃ body, tokenizeLoop t tokens s = body ++ [tEof] ∧ ∀ tk ∈ body, WfTok tk := by
  induction s with
  | nil => intro t tokens h; exact ⟨tokens, rfl, h⟩
  | cons chr rest ih =>
    intro t tokens h
    simp only [tokenizeLoop]
    rcases hstep : t.step chr with ⟨t1, _ | tok⟩
    · exact ih t1 tokens h
    · exact ih t1 _ (wfTok_pushToken tokens tok h (wfTok_step t t1 chr tok hstep))

theorem Tokenize_shape (s : GoString) :
    ∃ body, (tagTokenizer.mk false).Tokenize s = body ++ [tEof] ∧ ∀ tk ∈ body, WfTok tk :=
  tokenizeLoop_shape s _ [] (by simp)

/-! ## Theorems: the parser state machine -/

theorem parseLoop_0_char (tuples : List (GoString × GoString)) (v : GoString) (rest : List token) :
    parseLoop 0 tuples (tChar v :: rest) = parseLoop 1 (tuples ++ [(v, [])]) rest := by
  simp [parseLoop, tChar]

theorem parseLoop_0_other (tuples : List (GoString × GoString)) (tk : token) (rest : List token)
    (h : tk.typ ≠ charToken) :
    parseLoop 0 tuples (tk :: rest) = .error (ascii "expected a label") := by
  simp [parseLoop, h]

theorem parseLoop_1_sep (tuples : List (GoString × GoString)) (rest : List token) :
    parseLoop 1 tuples (tSep :: rest) = parseLoop 0 tuples rest := by
  simp [parseLoop, tSep]

theorem parseLoop_1_assign (tuples : List (GoString × GoString)) (rest : List token) :
    parseLoop 1 tuples (tAssign :: rest) = parseLoop 2 tuples rest := by
  simp [parseLoop, tAssign, assignToken, sepToken]

theorem parseLoop_1_eof (tuples : List (GoString × GoString)) :
    parseLoop 1 tuples [tEof] = .ok tuples := by
  simp [parseLoop, tEof, assignToken, sepToken, eofToken]

theorem parseLoop_1_char (tuples : List (GoString × GoString)) (v : GoString) (rest : List token) :
    parseLoop 1 tuples (tChar v :: rest) =
      .error (ascii "expected an assignment or a separator") := by
  simp [parseLoop, tChar, assignToken, sepToken, eofToken, charToken]

theorem parseLoop_2_char (tuples : List (GoString × GoString)) (v : GoString) (rest : List token) :
    parseLoop 2 tuples (tChar v :: rest) =
      match setLastValue tuples v with
      | some tuples1 => parseLoop 3 tuples1 rest
      | none => .panic (ascii "runtime error: index out of range [-1]") := by
  simp [parseLoop, tChar]

theorem parseLoop_2_other (tuples : List (GoString × GoString)) (tk : token) (rest : List token)
    (h : tk.typ ≠ charToken) :
    parseLoop 2 tuples (tk :: rest) = .error (ascii "expected a label") := by
  simp [parseLoop, h]

theorem parseLoop_3_eof (tuples : List (GoString × GoString)) :
    parseLoop 3 tuples [tEof] = .ok tuples := by
  simp [parseLoop, tEof]

theorem parseLoop_3_sep (tuples : List (GoString × GoString)) (rest : List token) :
    parseLoop 3 tuples (tSep :: rest) = parseLoop 0 tuples rest := by
  simp [parseLoop, tSep, sepToken, eofToken]

theorem parseLoop_3_assign (tuples : List (GoString × GoString)) (rest : List token) :
    parseLoop 3 tuples (tAssign :: rest) = .error (ascii "expected EOF or a separator") := by
  simp [parseLoop, tAssign, assignToken, sepToken, eofToken]

theorem parseLoop_3_char (tuples : List (GoString × GoString)) (v : GoString) (rest : List token) :
    parseLoop 3 tuples (tChar v :: rest) = .error (ascii "expected EOF or a separator") := by
  simp [parseLoop, tChar, charToken, sepToken, eofToken]

theorem setLastValue_snoc (tuples : List (GoString × GoString)) (l w v : GoString) :
    setLastValue (tuples ++ [(l, w)]) v = some (tuples ++ [(l, v)]) := by
  simp [setLastValue, List.getLast?_append, List.dropLast_concat]

theorem renderItems_cons_cons (it it2 : Item) (rest : List Item) :
    renderItems (it :: it2 :: rest) = renderItem it ++ tSep :: renderItems (it2 :: rest) := rfl

theorem renderItems_cons_of_ne (it : Item) (rest : List Item) (h : rest ≠ []) :
    renderItems (it :: rest) = renderItem it ++ tSep :: renderItems rest := by
  cases rest with
  | nil => exact absurd rfl h
  | cons it2 rest => rfl

/-- A stream of the grammar is accepted, and the parser collects one pair per item. -/
theorem parseLoop_renderItems (items : List Item) :
    items ≠ [] → ∀ tuples, parseLoop 0 tuples (renderItems items) =
      .ok (tuples ++ items.map itemTuple) := by
  induction items with
  | nil => intro h; exact absurd rfl h
  | cons it rest ih =>
    intro _ tuples
    obtain ⟨l, ov⟩ := it
    cases rest with
    | nil =>
      cases ov with
      | none => simp [renderItems, renderItem, parseLoop_0_char, parseLoop_1_eof, itemTuple]
      | some v =>
        simp [renderItems, renderItem, parseLoop_0_char, parseLoop_1_assign, parseLoop_2_char,
          setLastValue_snoc, parseLoop_3_eof, itemTuple]
    | cons it2 rest2 =>
      have ih2 := ih (by simp)
      cases ov with
      | none =>
        simp [renderItems_cons_cons, renderItem, parseLoop_0_char, parseLoop_1_sep, ih2, itemTuple]
      | some v =>
        simp [renderItems_cons_cons, renderItem, parseLoop_0_char, parseLoop_1_assign,
          parseLoop_2_char, setLastValue_snoc, parseLoop_3_sep, ih2, itemTuple]

/-- Converse of `parseLoop_renderItems`, for every parser state: if the parser accepts a
stream that ends with its only end token, the stream continues the grammar from that state. -/
theorem parseLoop_ok_shape (body : List token) :
    (∀ tk ∈ body, WfTok tk) →
    (∀ tuples out, parseLoop 0 tuples (body ++ [tEof]) = .ok out →
      ∃ items : List Item, items ≠ [] ∧ body ++ [tEof] = renderItems items ∧
        out = tuples ++ items.map itemTuple) ∧
    (∀ tuples out, parseLoop 1 tuples (body ++ [tEof]) = .ok out →
      StreamTail (body ++ [tEof]) tuples out ∨
      ∃ v rest tuples1, body ++ [tEof] = tAssign :: tChar v :: rest ∧
        setLastValue tuples v = some tuples1 ∧ StreamTail rest tuples1 out) ∧
    (∀ tuples out, parseLoop 2 tuples (body ++ [tEof]) = .ok out →
      ∃ v rest tuples1, body ++ [tEof] = tChar v :: rest ∧
        setLastValue tuples v = some tuples1 ∧ StreamTail rest tuples1 out) ∧
    (∀ tuples out, parseLoop 3 tuples (body ++ [tEof]) = .ok out →
      StreamTail (body ++ [tEof]) tuples out) := by
  induction body with
  | nil =>
    intro _
    refine ⟨?_, ?_, ?_, ?_⟩
    · intro tuples out h
      rw [List.nil_append, parseLoop_0_other _ _ _ (by decide)] at h
      cases h
    · intro tuples out h
      rw [List.nil_append, parseLoop_1_eof] at h
      injection h with h
      exact Or.inl (Or.inl ⟨rfl, h.symm⟩)
    · intro tuples out h
      rw [List.nil_append, parseLoop_2_other _ _ _ (by decide)] at h
      cases h
    · intro tuples out h
      rw [List.nil_append, parseLoop_3_eof] at h
      injection h with h
      exact Or.inl ⟨rfl, h.symm⟩
  | cons tk body ih =>
    intro hwf
    have hwf2 : ∀ t ∈ body, WfTok t := fun t ht => hwf t (List.mem_cons_of_mem _ ht)
    obtain ⟨ih0, ih1, ih2, ih3⟩ := ih hwf2
    have htk := hwf tk (List.mem_cons_self _ _)
    refine ⟨?_, ?_, ?_, ?_⟩
    · -- state 0: a label is required
      intro tuples out h
      rcases htk with rfl | rfl | ⟨l, rfl⟩
      · rw [List.cons_append, parseLoop_0_other _ _ _ (by decide)] at h; cases h
      · rw [List.cons_append, parseLoop_0_other _ _ _ (by decide)] at h; cases h
      · rw [List.cons_append, parseLoop_0_char] at h
        rcases ih1 _ _ h with ht | ⟨v, rest, tuples1, hrest, hset, ht⟩
        · rcases ht with ⟨hts, hout⟩ | ⟨items, hne, hts, hout⟩
          · refine ⟨[(l, none)], by simp, ?_, ?_⟩
            · simp [renderItems, renderItem, hts]
            · simp [hout, itemTuple]
          · refine ⟨(l, none) :: items, by simp, ?_, ?_⟩
            · rw [renderItems_cons_of_ne _ _ hne]; simp [renderItem, hts]
            · simp [hout, itemTuple]
        · rw [setLastValue_snoc] at hset
          injection hset with hset
          subst hset
          rcases ht with ⟨hts, hout⟩ | ⟨items, hne, hts, hout⟩
          · refine ⟨[(l, some v)], by simp, ?_, ?_⟩
            · simp [renderItems, renderItem, hrest, hts]
            · simp [hout, itemTuple]
          · refine ⟨(l, some v) :: items, by simp, ?_, ?_⟩
            · rw [renderItems_cons_of_ne _ _ hne]; simp [renderItem, hrest, hts]
            · simp [hout, itemTuple]
    · -- state 1: after a label
      intro tuples out h
      rcases htk with rfl | rfl | ⟨l, rfl⟩
      · rw [List.cons_append, parseLoop_1_assign] at h
        obtain ⟨v, rest, tuples1, hrest, hset, ht⟩ := ih2 _ _ h
        exact Or.inr ⟨v, rest, tuples1, by simp [hrest], hset, ht⟩
      · rw [List.cons_append, parseLoop_1_sep] at h
        obtain ⟨items, hne, hts, hout⟩ := ih0 _ _ h
        exact Or.inl (Or.inr ⟨items, hne, by simp [hts], hout⟩)
      · rw [List.cons_append, parseLoop_1_char] at h; cases h
    · -- state 2: a value is required
      intro tuples out h
      rcases htk with rfl | rfl | ⟨v, rfl⟩
      · rw [List.cons_append, parseLoop_2_other _ _ _ (by decide)] at h; cases h
      · rw [List.cons_append, parseLoop_2_other _ _ _ (by decide)] at h; cases h
      · rw [List.cons_append, parseLoop_2_char] at h
        cases hset : setLastValue tuples v with
        | none => rw [hset] at h; cases h
        | some tuples1 =>
          rw [hset] at h
          exact ⟨v, body ++ [tEof], tuples1, rfl, hset, ih3 _ _ h⟩
    · -- state 3: after a value
      intro tuples out h
      rcases htk with rfl | rfl | ⟨l, rfl⟩
      · rw [List.cons_append, parseLoop_3_assign] at h; cases h
      · rw [List.cons_append, parseLoop_3_sep] at h
        obtain ⟨items, hne, hts, hout⟩ := ih0 _ _ h
        exact Or.inr ⟨items, hne, by simp [hts], hout⟩
      · rw [List.cons_append, parseLoop_3_char] at h; cases h

/-! ## Theorems: the final mapping -/

theorem mapGet_mapSet {β : Type} (m : List (GoString × β)) (k l : GoString) (v : β) :
    mapGet (mapSet m k v) l = if k = l then some v else mapGet m l := by
  induction m with
  | nil => simp [mapSet, mapGet]
  | cons p m ih =>
    obtain ⟨k2, v2⟩ := p
    by_cases h : k2 = k
    · subst h
      by_cases h2 : k2 = l <;> simp [mapSet, mapGet, h2]
    · by_cases h2 : k2 = l
      · subst h2
        have h3 : ¬ k = k2 := fun e => h e.symm
        simp [mapSet, mapGet, h, h3]
      · simp [mapSet, mapGet, h, h2, ih]

theorem mapGet_foldl (tuples : List (GoString × GoString)) :
    ∀ (m : List (GoString × GoString)) (l : GoString),
      mapGet (tuples.foldl (fun out tuple => mapSet out tuple.1 tuple.2) m) l =
        match tuples.reverse.find? (fun t => decide (t.1 = l)) with
        | some t => some t.2
        | none => mapGet m l := by
  induction tuples with
  | nil => intro m l; simp
  | cons p tuples ih =>
    intro m l
    simp only [List.foldl_cons, List.reverse_cons, List.find?_append, ih]
    cases hfind : tuples.reverse.find? (fun t => decide (t.1 = l)) with
    | some t => simp
    | none =>
      by_cases h : p.1 = l <;> simp [mapGet_mapSet, h]

/-- The mapping built from the items sends a label to the value of its last occurrence. -/
theorem mapGet_tuplesToMap_items (items : List Item) (l : GoString) :
    mapGet (tuplesToMap (items.map itemTuple)) l = lastValue items l := by
  unfold tuplesToMap lastValue
  rw [mapGet_foldl]
  rw [← List.map_reverse]
  induction items.reverse with
  | nil => simp [mapGet]
  | cons it rest ih =>
    by_cases h : it.1 = l
    · simp [List.find?, itemTuple, h]
    · simpa [List.find?, itemTuple, h] using ih

/-! ## Theorems: parseTag -/

theorem parseTag_nil : parseTag [] = .ok none := rfl

theorem parseTag_of_ne (s : GoString) (hs : s ≠ []) :
    parseTag s =
      match parseLoop 0 [] ((tagTokenizer.mk false).Tokenize s) with
      | .ok tuples => .ok (some (tuplesToMap tuples))
      | .error e => .error e
      | .panic p => .panic p := by
  have : s.length ≠ 0 := by simpa using hs
  simp [parseTag, this]

/-- On a stream of the grammar parseTag returns the mapping of the items. -/
theorem parseTag_of_items (s : GoString) (hs : s ≠ []) (items : List Item) (hne : items ≠ [])
    (h : (tagTokenizer.mk false).Tokenize s = renderItems items) :
    parseTag s = .ok (some (tuplesToMap (items.map itemTuple))) := by
  rw [parseTag_of_ne s hs, h, parseLoop_renderItems items hne]
  simp

/-- When parseTag accepts a non-empty string, its token stream is a stream of the grammar
and the result is the mapping of the items. -/
theorem parseTag_ok_items (s : GoString) (hs : s ≠ []) (m : Option (List (GoString × GoString)))
    (h : parseTag s = .ok m) :
    ∃ items : List Item, items ≠ [] ∧ (tagTokenizer.mk false).Tokenize s = renderItems items ∧
      m = some (tuplesToMap (items.map itemTuple)) := by
  rw [parseTag_of_ne s hs] at h
  obtain ⟨body, hbody, hwf⟩ := Tokenize_shape s
  cases hp : parseLoop 0 [] ((tagTokenizer.mk false).Tokenize s) with
  | error e => rw [hp] at h; cases h
  | panic p => rw [hp] at h; cases h
  | ok tuples =>
    rw [hp] at h
    rw [hbody] at hp
    obtain ⟨items, hne, hitems, hout⟩ := (parseLoop_ok_shape body hwf).1 [] tuples hp
    refine ⟨items, hne, by rw [hbody, hitems], ?_⟩
    simp only [List.nil_append] at hout
    injection h with h
    rw [← h, hout]

/-- C1: parseTag against the directive grammar. The empty string gives the nil mapping
and no error; a non-empty string is accepted exactly when its token stream has the form
item (separator item)* end; and then the returned mapping sends each label that occurs to
the value of its last occurrence (empty when that occurrence has no assignment) and
holds no other label. -/
theorem parseTag_grammar (s : GoString) (hs : s ≠ []) :
    parseTag [] = .ok none ∧
    ((∃ m, parseTag s = .ok m) ↔
      ∃ items : List Item, items ≠ [] ∧
        (tagTokenizer.mk false).Tokenize s = renderItems items) ∧
    (∀ items : List Item, items ≠ [] →
      (tagTokenizer.mk false).Tokenize s = renderItems items →
      ∃ m, parseTag s = .ok (some m) ∧ ∀ l, mapGet m l = lastValue items l) ∧
    parseTag (ascii "a=1,a=2") = .ok (some [(ascii "a", ascii "2")]) ∧
    parseTag (ascii "a=1,a") = .ok (some [(ascii "a", [])]) := by
  refine ⟨rfl, ⟨?_, ?_⟩, ?_, by decide, by decide⟩
  · rintro ⟨m, hm⟩
    obtain ⟨items, hne, hitems, _⟩ := parseTag_ok_items s hs m hm
    exact ⟨items, hne, hitems⟩
  · rintro ⟨items, hne, hitems⟩
    exact ⟨_, parseTag_of_items s hs items hne hitems⟩
  · intro items hne hitems
    exact ⟨_, parseTag_of_items s hs items hne hitems, mapGet_tuplesToMap_items items⟩

theorem parseTag_grammar_witness :
    ascii "a=1,a=2" ≠ [] ∧
    (parseTag [] = .ok none ∧
    ((∃ m, parseTag (ascii "a=1,a=2") = .ok m) ↔
      ∃ items : List Item, items ≠ [] ∧
        (tagTokenizer.mk false).Tokenize (ascii "a=1,a=2") = renderItems items) ∧
    (∀ items : List Item, items ≠ [] →
      (tagTokenizer.mk false).Tokenize (ascii "a=1,a=2") = renderItems items →
      ∃ m, parseTag (ascii "a=1,a=2") = .ok (some m) ∧ ∀ l, mapGet m l = lastValue items l) ∧
    parseTag (ascii "a=1,a=2") = .ok (some [(ascii "a", ascii "2")]) ∧
    parseTag (ascii "a=1,a") = .ok (some [(ascii "a", [])])) :=
  ⟨by decide, parseTag_grammar (ascii "a=1,a=2") (by decide)⟩

/-! ## Theorems: escapes and serialization -/

/-- Tokens of one serialized pair `esc l = esc v`, at the start of the input. -/
theorem tokenizeLoop_pair_nil (l v : GoString) (hl : IsAscii l) (hv : IsAscii v)
    (hln : l ≠ []) (hvn : v ≠ []) (rest : GoString) :
    tokenizeLoop (tagTokenizer.mk false) [] (esc l ++ 61 :: esc v ++ rest) =
      tChar l :: tAssign :: tokenizeLoop (tagTokenizer.mk false) [tChar v] rest := by
  have h1 : esc l ++ 61 :: esc v ++ rest = esc l ++ (61 :: (esc v ++ rest)) := by simp
  rw [h1, tokenizeLoop_esc_nil l hl hln, tokenizeLoop_assign,
    tokenizeLoop_esc_other v hv hvn tAssign (by decide)]

/-- Tokens of one serialized pair after a separator. -/
theorem tokenizeLoop_pair_sep (l v : GoString) (hl : IsAscii l) (hv : IsAscii v)
    (hln : l ≠ []) (hvn : v ≠ []) (rest : GoString) :
    tokenizeLoop (tagTokenizer.mk false) [tSep] (esc l ++ 61 :: esc v ++ rest) =
      tSep :: tChar l :: tAssign :: tokenizeLoop (tagTokenizer.mk false) [tChar v] rest := by
  have h1 : esc l ++ 61 :: esc v ++ rest = esc l ++ (61 :: (esc v ++ rest)) := by simp
  rw [h1, tokenizeLoop_esc_other l hl hln tSep (by decide), tokenizeLoop_assign,
    tokenizeLoop_esc_other v hv hvn tAssign (by decide)]

theorem serializeTag_cons_cons (p p2 : GoString × GoString) (rest : List (GoString × GoString)) :
    serializeTag (p :: p2 :: rest) = esc p.1 ++ 61 :: esc p.2 ++ 44 :: serializeTag (p2 :: rest) :=
  rfl

/-- The item a serialized pair is read back as. -/
theorem tokenizeLoop_serializeTag (ps : List (GoString × GoString)) :
    ps ≠ [] → (∀ p ∈ ps, IsAscii p.1 ∧ IsAscii p.2 ∧ p.1 ≠ [] ∧ p.2 ≠ []) →
    tokenizeLoop (tagTokenizer.mk false) [] (serializeTag ps) =
        renderItems (ps.map (fun p => (p.1, some p.2))) ∧
    tokenizeLoop (tagTokenizer.mk false) [tSep] (serializeTag ps) =
        tSep :: renderItems (ps.map (fun p => (p.1, some p.2))) := by
  induction ps with
  | nil => intro h; exact absurd rfl h
  | cons p rest ih =>
    intro _ hall
    obtain ⟨hl, hv, hln, hvn⟩ := hall p (List.mem_cons_self _ _)
    cases rest with
    | nil =>
      have h1 : serializeTag [p] = esc p.1 ++ 61 :: esc p.2 ++ [] := by simp [serializeTag]
      rw [h1, tokenizeLoop_pair_nil p.1 p.2 hl hv hln hvn,
        tokenizeLoop_pair_sep p.1 p.2 hl hv hln hvn, tokenizeLoop_end]
      simp [renderItems, renderItem]
    | cons p2 rest2 =>
      have ih2 := (ih (by simp) (fun q hq => hall q (List.mem_cons_of_mem _ hq))).2
      rw [serializeTag_cons_cons, tokenizeLoop_pair_nil p.1 p.2 hl hv hln hvn,
        tokenizeLoop_pair_sep p.1 p.2 hl hv hln hvn, tokenizeLoop_sep, ih2]
      simp [renderItems, renderItem]

theorem esc_ne_nil (l : GoString) (h : l ≠ []) : esc l ≠ [] := by
  cases l with
  | nil => exact absurd rfl h
  | cons b l => simp only [esc]; split <;> simp

theorem serializeTag_ne_nil (ps : List (GoString × GoString)) (h : ps ≠ []) :
    serializeTag ps ≠ [] := by
  cases ps with
  | nil => exact absurd rfl h
  | cons p rest =>
    cases rest with
    | nil => simp [serializeTag]
    | cons p2 rest2 => simp [serializeTag]

theorem map_itemTuple_some (ps : List (GoString × GoString)) :
    (ps.map (fun p => ((p.1, some p.2) : Item))).map itemTuple = ps := by
  induction ps with
  | nil => rfl
  | cons p rest ih => simp [itemTuple, ih]

/-- Parsing a serialization of pairs with non-empty ASCII labels and values gives the
mapping built from these pairs. -/
theorem parseTag_serializeTag (ps : List (GoString × GoString)) (hne : ps ≠ [])
    (hall : ∀ p ∈ ps, IsAscii p.1 ∧ IsAscii p.2 ∧ p.1 ≠ [] ∧ p.2 ≠ []) :
    parseTag (serializeTag ps) = .ok (some (tuplesToMap ps)) := by
  have h : (tagTokenizer.mk false).Tokenize (serializeTag ps) =
      renderItems (ps.map (fun p => ((p.1, some p.2) : Item))) :=
    (tokenizeLoop_serializeTag ps hne hall).1
  have h2 := parseTag_of_items (serializeTag ps) (serializeTag_ne_nil ps hne)
    (ps.map (fun p => ((p.1, some p.2) : Item))) (by simpa using hne) h
  rw [h2, map_itemTuple_some]

/-- C2: escapes are decoded. For a non-empty ASCII label l and a non-empty ASCII value v
(which may contain '=', ',' and backslash), parseTag on esc(l) ++ "=" ++ esc(v) returns
exactly the one-entry mapping from l to v; and "foo,bar=baz\=\,baz" gives bar the value
"baz=,baz". -/
theorem parseTag_esc_pair (l v : GoString) (hl : l ≠ []) (hv : v ≠ [])
    (hla : IsAscii l) (hva : IsAscii v) :
    parseTag (esc l ++ ascii "=" ++ esc v) = .ok (some [(l, v)]) ∧
    parseTag (ascii "foo,bar=baz\\=\\,baz") =
      .ok (some [(ascii "foo", []), (ascii "bar", ascii "baz=,baz")]) := by
  refine ⟨?_, by decide⟩
  have h := parseTag_serializeTag [(l, v)] (by simp)
    (by intro p hp; simp only [List.mem_singleton] at hp; subst hp; exact ⟨hla, hva, hl, hv⟩)
  have e : esc l ++ ascii "=" ++ esc v = serializeTag [(l, v)] := by
    simp [serializeTag, ascii]
  rw [e, h]
  simp [tuplesToMap, mapSet]

theorem parseTag_esc_pair_witness :
    ascii "a=b" ≠ [] ∧ ascii "c,\\d" ≠ [] ∧ IsAscii (ascii "a=b") ∧ IsAscii (ascii "c,\\d") ∧
    (parseTag (esc (ascii "a=b") ++ ascii "=" ++ esc (ascii "c,\\d")) =
        .ok (some [(ascii "a=b", ascii "c,\\d")]) ∧
      parseTag (ascii "foo,bar=baz\\=\\,baz") =
        .ok (some [(ascii "foo", []), (ascii "bar", ascii "baz=,baz")])) :=
  ⟨by decide, by decide, by decide, by decide,
    parseTag_esc_pair (ascii "a=b") (ascii "c,\\d") (by decide) (by decide) (by decide)
      (by decide)⟩

/-! ## Theorems: texts of the tokens of an ASCII string -/

theorem asciiTok_step (t t1 : tagTokenizer) (chr : Nat) (tok : token) (hc : chr < 128)
    (h : t.step chr = (t1, some tok)) : AsciiTok tok := by
  cases t with
  | mk e =>
    cases e <;>
      simp only [tagTokenizer.step, tagTokenizer.assign, tagTokenizer.sep, tagTokenizer.escape,
        tagTokenizer.char] at h <;>
      split_ifs at h <;>
      simp only [Prod.mk.injEq, Option.some.injEq, reduceCtorEq, and_false] at h <;>
      first
        | exact absurd h id
        | (obtain ⟨_, h⟩ := h
           subst h
           simp [AsciiTok, IsAscii, byteToString, assignToken, sepToken, charToken, hc])

theorem asciiTok_pushToken (tokens : List token) (tok : token)
    (hts : ∀ tk ∈ tokens, AsciiTok tk) (htok : AsciiTok tok) :
    ∀ tk ∈ pushToken tokens tok, AsciiTok tk := by
  rcases List.eq_nil_or_concat tokens with h | ⟨pre, l, h⟩
  · subst h; intro tk htk; simp [pushToken_nil] at htk; exact htk ▸ htok
  · rw [List.concat_eq_append] at h
    subst h
    rw [pushToken_snoc]
    intro tk htk
    split at htk
    · rename_i hc
      rcases List.mem_append.1 htk with h1 | h1
      · exact hts tk (List.mem_append_left _ h1)
      · simp only [List.mem_singleton] at h1
        subst h1
        have hl := hts l (by simp)
        refine ⟨?_, ?_⟩
        · intro b hb
          rcases List.mem_append.1 hb with hb | hb
          · exact hl.1 b hb
          · exact htok.1 b hb
        · intro _ hnil
          exact hl.2 hc.1 (List.append_eq_nil.1 hnil).1
    · rcases List.mem_append.1 htk with h1 | h1
      · exact hts tk (List.mem_append_left _ h1)
      · simp only [List.mem_cons, List.mem_singleton, List.not_mem_nil, or_false] at h1
        rcases h1 with h1 | h1
        · exact h1 ▸ hts l (by simp)
        · exact h1 ▸ htok

theorem tokenizeLoop_ascii (s : GoString) :
    IsAscii s → ∀ (t : tagTokenizer) (tokens : List token), (∀ tk ∈ tokens, AsciiTok tk) →
      ∀ tk ∈ tokenizeLoop t tokens s, AsciiTok tk := by
  induction s with
  | nil =>
    intro _ t tokens h tk htk
    simp only [tokenizeLoop, List.mem_append, List.mem_singleton] at htk
    rcases htk with htk | htk
    · exact h tk htk
    · subst htk
      exact ⟨by simp [tagTokenizer.end, IsAscii], by simp [tagTokenizer.end, eofToken, charToken]⟩
  | cons chr rest ih =>
    intro hs t tokens h
    have hc : chr < 128 := hs chr (List.mem_cons_self _ _)
    have hs2 : IsAscii rest := fun c hc => hs c (List.mem_cons_of_mem _ hc)
    simp only [tokenizeLoop]
    rcases hstep : t.step chr with ⟨t1, _ | tok⟩
    · exact ih hs2 t1 tokens h
    · exact ih hs2 t1 _ (asciiTok_pushToken tokens tok h (asciiTok_step t t1 chr tok hc hstep))

theorem Tokenize_ascii (s : GoString) (hs : IsAscii s) :
    ∀ tk ∈ (tagTokenizer.mk false).Tokenize s, AsciiTok tk :=
  tokenizeLoop_ascii s hs _ [] (by simp)

theorem mem_renderItems (items : List Item) (it : Item) (h : it ∈ items) :
    tChar it.1 ∈ renderItems items ∧ ∀ v, it.2 = some v → tChar v ∈ renderItems items := by
  induction items with
  | nil => cases h
  | cons it2 rest ih =>
    have hhead : ∀ (tl : List token), tChar it2.1 ∈ renderItem it2 ++ tl ∧
        ∀ v, it2.2 = some v → tChar v ∈ renderItem it2 ++ tl := by
      intro tl
      obtain ⟨l, ov⟩ := it2
      cases ov with
      | none => simp [renderItem]
      | some w => simp [renderItem]
    rcases List.mem_cons.1 h with h1 | h1
    · subst h1
      cases rest with
      | nil => exact hhead _
      | cons it3 rest3 => exact hhead _
    · cases rest with
      | nil => cases h1
      | cons it3 rest3 =>
        obtain ⟨ha, hb⟩ := ih h1
        rw [renderItems_cons_cons]
        refine ⟨?_, ?_⟩
        · exact List.mem_append_right _ (List.mem_cons_of_mem _ ha)
        · intro v hv
          exact List.mem_append_right _ (List.mem_cons_of_mem _ (hb v hv))

/-- Labels and values read from an ASCII string are ASCII, and labels are non-empty. -/
theorem items_ascii (s : GoString) (hs : IsAscii s) (items : List Item)
    (h : (tagTokenizer.mk false).Tokenize s = renderItems items) :
    ∀ it ∈ items, IsAscii it.1 ∧ it.1 ≠ [] ∧ IsAscii (it.2.getD []) := by
  intro it hit
  obtain ⟨ha, hb⟩ := mem_renderItems items it hit
  have h1 := Tokenize_ascii s hs (tChar it.1) (h ▸ ha)
  refine ⟨h1.1, h1.2 rfl, ?_⟩
  cases hv : it.2 with
  | none => simp [IsAscii]
  | some v => exact (Tokenize_ascii s hs (tChar v) (h ▸ hb v hv)).1

/-! ## Theorems: association lists as maps -/

theorem mem_mapSet {β : Type} (m : List (GoString × β)) (k : GoString) (v : β)
    (p : GoString × β) (h : p ∈ mapSet m k v) : p = (k, v) ∨ p ∈ m := by
  induction m with
  | nil => simp [mapSet] at h; exact Or.inl h
  | cons q m ih =>
    obtain ⟨k2, v2⟩ := q
    by_cases hk : k2 = k
    · simp only [mapSet, hk, if_true, List.mem_cons] at h
      rcases h with h | h
      · exact Or.inl h
      · exact Or.inr (List.mem_cons_of_mem _ h)
    · simp only [mapSet, hk, if_false, List.mem_cons] at h
      rcases h with h | h
      · exact Or.inr (h ▸ List.mem_cons_self _ _)
      · rcases ih h with h | h
        · exact Or.inl h
        · exact Or.inr (List.mem_cons_of_mem _ h)

theorem keys_mapSet {β : Type} (m : List (GoString × β)) (k : GoString) (v : β) :
    (mapSet m k v).map Prod.fst = if k ∈ m.map Prod.fst then m.map Prod.fst
      else m.map Prod.fst ++ [k] := by
  induction m with
  | nil => simp [mapSet]
  | cons q m ih =>
    obtain ⟨k2, v2⟩ := q
    by_cases hk : k2 = k
    · subst hk; simp [mapSet]
    · have hk2 : ¬ k = k2 := fun e => hk e.symm
      simp only [mapSet, hk, if_false, List.map_cons, ih, List.mem_cons, hk2, false_or]
      split <;> simp

theorem nodup_keys_mapSet {β : Type} (m : List (GoString × β)) (k : GoString) (v : β)
    (h : (m.map Prod.fst).Nodup) : ((mapSet m k v).map Prod.fst).Nodup := by
  rw [keys_mapSet]
  split
  · exact h
  · rename_i hk
    exact List.Nodup.append h (by simp) (by simpa using hk)

theorem foldl_mapSet_inv (P : List (GoString × GoString) → Prop)
    (hP : ∀ m k v, P m → P (mapSet m k v)) (tuples : List (GoString × GoString)) :
    ∀ m, P m → P (tuples.foldl (fun out tuple => mapSet out tuple.1 tuple.2) m) := by
  induction tuples with
  | nil => intro m h; exact h
  | cons p rest ih => intro m h; exact ih _ (hP _ _ _ h)

theorem nodup_keys_tuplesToMap (tuples : List (GoString × GoString)) :
    ((tuplesToMap tuples).map Prod.fst).Nodup :=
  foldl_mapSet_inv (fun m => (m.map Prod.fst).Nodup)
    (fun m k v h => nodup_keys_mapSet m k v h) tuples [] (by simp)

theorem mem_foldl_mapSet (tuples : List (GoString × GoString)) :
    ∀ (m : List (GoString × GoString)) (p : GoString × GoString),
      p ∈ tuples.foldl (fun out tuple => mapSet out tuple.1 tuple.2) m → p ∈ m ∨ p ∈ tuples := by
  induction tuples with
  | nil => intro m p h; exact Or.inl h
  | cons q rest ih =>
    intro m p h
    rcases ih _ p h with h1 | h1
    · rcases mem_mapSet m q.1 q.2 p h1 with h2 | h2
      · exact Or.inr (h2 ▸ List.mem_cons_self _ _)
      · exact Or.inl h2
    · exact Or.inr (List.mem_cons_of_mem _ h1)

theorem mem_tuplesToMap (tuples : List (GoString × GoString)) (p : GoString × GoString)
    (h : p ∈ tuplesToMap tuples) : p ∈ tuples := by
  rcases mem_foldl_mapSet tuples [] p h with h1 | h1
  · cases h1
  · exact h1

theorem mapSet_of_not_mem {β : Type} (m : List (GoString × β)) (k : GoString) (v : β)
    (h : k ∉ m.map Prod.fst) : mapSet m k v = m ++ [(k, v)] := by
  induction m with
  | nil => rfl
  | cons q m ih =>
    obtain ⟨k2, v2⟩ := q
    simp only [List.map_cons, List.mem_cons, not_or] at h
    have hk : ¬ k2 = k := fun e => h.1 e.symm
    simp [mapSet, hk, ih h.2]

theorem foldl_mapSet_nodup (tuples : List (GoString × GoString)) :
    ∀ m : List (GoString × GoString), ((m ++ tuples).map Prod.fst).Nodup →
      tuples.foldl (fun out tuple => mapSet out tuple.1 tuple.2) m = m ++ tuples := by
  induction tuples with
  | nil => intro m _; simp
  | cons p rest ih =>
    intro m h
    have hp : p.1 ∉ m.map Prod.fst := by
      intro hmem
      simp only [List.map_append, List.map_cons] at h
      exact (List.nodup_append.1 h).2.2 hmem (List.mem_cons_self _ _)
    simp only [List.foldl_cons]
    rw [mapSet_of_not_mem m p.1 p.2 hp, ih _ (by simpa using h)]
    simp

/-- A mapping with pairwise distinct keys is rebuilt unchanged from its own entries. -/
theorem tuplesToMap_of_nodup (m : List (GoString × GoString)) (h : (m.map Prod.fst).Nodup) :
    tuplesToMap m = m := by
  have := foldl_mapSet_nodup m [] (by simpa using h)
  simpa [tuplesToMap] using this

theorem mapSet_ne_nil {β : Type} (m : List (GoString × β)) (k : GoString) (v : β) :
    mapSet m k v ≠ [] := by
  cases m with
  | nil => simp [mapSet]
  | cons q m => simp only [mapSet]; split <;> simp

theorem tuplesToMap_ne_nil (tuples : List (GoString × GoString)) (h : tuples ≠ []) :
    tuplesToMap tuples ≠ [] := by
  cases tuples with
  | nil => exact absurd rfl h
  | cons p rest =>
    exact foldl_mapSet_inv (fun m => m ≠ []) (fun m k v _ => mapSet_ne_nil m k v) rest _
      (mapSet_ne_nil _ _ _)

/-- C3 (as stated, refuted): "foo" is accepted with the pair (foo, ""), whose
serialization "foo=" is rejected. -/
theorem parseTag_roundtrip_counterexample :
    parseTag (ascii "foo") = .ok (some [(ascii "foo", [])]) ∧
    serializeTag [(ascii "foo", [])] = ascii "foo=" ∧
    parseTag (serializeTag [(ascii "foo", [])]) = .error (ascii "expected a label") := by
  decide

/-- C3 (amended): parse/serialize round trip. For every ASCII directive string that
parseTag accepts and in whose result every label carries a non-empty value, serializing
the resulting pairs as label=value joined by commas (re-escaped) and parsing again
succeeds and yields the same pairs. -/
theorem parseTag_roundtrip (s : GoString) (m : Option (List (GoString × GoString)))
    (hs : IsAscii s) (h : parseTag s = .ok m) (hv : ∀ p ∈ m.getD [], p.2 ≠ []) :
    parseTag (serializeTag (m.getD [])) = .ok m := by
  by_cases hnil : s = []
  · subst hnil
    rw [parseTag_nil] at h
    injection h with h
    subst h
    rfl
  · obtain ⟨items, hne, hitems, hm⟩ := parseTag_ok_items s hnil m h
    subst hm
    have hmem : ∀ p ∈ tuplesToMap (items.map itemTuple),
        IsAscii p.1 ∧ IsAscii p.2 ∧ p.1 ≠ [] ∧ p.2 ≠ [] := by
      intro p hp
      have h1 := mem_tuplesToMap _ p hp
      obtain ⟨it, hit, rfl⟩ := List.mem_map.1 h1
      obtain ⟨ha, hb, hc⟩ := items_ascii s hs items hitems it hit
      exact ⟨ha, hc, hb, hv _ hp⟩
    have hne2 : tuplesToMap (items.map itemTuple) ≠ [] :=
      tuplesToMap_ne_nil _ (by simpa using hne)
    simp only [Option.getD_some]
    rw [parseTag_serializeTag _ hne2 hmem, tuplesToMap_of_nodup _ (nodup_keys_tuplesToMap _)]

theorem parseTag_roundtrip_witness :
    IsAscii (ascii "foo=a\\,b,bar=baz,foo=c") ∧
    parseTag (ascii "foo=a\\,b,bar=baz,foo=c") =
      .ok (some [(ascii "foo", ascii "c"), (ascii "bar", ascii "baz")]) ∧
    (∀ p ∈ (some [(ascii "foo", ascii "c"), (ascii "bar", ascii "baz")]).getD [], p.2 ≠ []) ∧
    parseTag (serializeTag
        ((some [(ascii "foo", ascii "c"), (ascii "bar", ascii "baz")]).getD [])) =
      .ok (some [(ascii "foo", ascii "c"), (ascii "bar", ascii "baz")]) :=
  ⟨by decide, by decide, by decide,
    parseTag_roundtrip (ascii "foo=a\\,b,bar=baz,foo=c")
      (some [(ascii "foo", ascii "c"), (ascii "bar", ascii "baz")]) (by decide) (by decide)
      (by decide)⟩

/-! ## Theorems: parse errors -/

theorem parseLoop_3_other (tuples : List (GoString × GoString)) (tk : token) (rest : List token)
    (h1 : tk.typ ≠ eofToken) (h2 : tk.typ ≠ sepToken) :
    parseLoop 3 tuples (tk :: rest) = .error (ascii "expected EOF or a separator") := by
  simp [parseLoop, h1, h2]

/-- Complete items followed by separators bring the parser back to the label state. -/
theorem parseLoop_itemsPrefix (items : List Item) :
    ∀ (tuples : List (GoString × GoString)) (ts : List token),
      parseLoop 0 tuples (itemsPrefix items ++ ts) =
        parseLoop 0 (tuples ++ items.map itemTuple) ts := by
  induction items with
  | nil => intro tuples ts; simp [itemsPrefix]
  | cons it rest ih =>
    intro tuples ts
    obtain ⟨l, ov⟩ := it
    cases ov with
    | none =>
      simp [itemsPrefix, renderItem, parseLoop_0_char, parseLoop_1_sep, ih, itemTuple]
    | some v =>
      simp [itemsPrefix, renderItem, parseLoop_0_char, parseLoop_1_assign, parseLoop_2_char,
        setLastValue_snoc, parseLoop_3_sep, ih, itemTuple]

theorem parseTag_error_of_loop (s : GoString) (hs : s ≠ []) (e : GoString)
    (h : parseLoop 0 [] ((tagTokenizer.mk false).Tokenize s) = .error e) :
    parseTag s = .error e := by
  rw [parseTag_of_ne s hs, h]

/-- C4 (as stated, refuted): the token stream of the empty string has the end token at
the start, where a label is required, yet parseTag returns the nil mapping and no error. -/
theorem parseTag_error_class_counterexample :
    (tagTokenizer.mk false).Tokenize [] = [tEof] ∧ tEof.typ ≠ charToken ∧
    parseTag [] = .ok none ∧ parseTag [] ≠ .error (ascii "expected a label") := by
  decide

/-- C4 (amended): parse errors of a non-empty directive string are classified by the first
offending token. After any number of complete items each followed by a separator:
a non-literal token where a label is required, or where a value is required (right
after label and assignment), gives "expected a label"; an assignment token right after
a value gives "expected EOF or a separator". The listed examples fail accordingly. -/
theorem parseTag_error_class (s : GoString) (hs : s ≠ []) (items : List Item) (l v : GoString)
    (tk : token) (rest : List token) :
    ((tagTokenizer.mk false).Tokenize s = itemsPrefix items ++ tk :: rest →
      tk.typ ≠ charToken → parseTag s = .error (ascii "expected a label")) ∧
    ((tagTokenizer.mk false).Tokenize s = itemsPrefix items ++ tChar l :: tAssign :: tk :: rest →
      tk.typ ≠ charToken → parseTag s = .error (ascii "expected a label")) ∧
    ((tagTokenizer.mk false).Tokenize s =
        itemsPrefix items ++ tChar l :: tAssign :: tChar v :: tk :: rest →
      tk.typ = assignToken → parseTag s = .error (ascii "expected EOF or a separator")) ∧
    parseTag (ascii "=") = .error (ascii "expected a label") ∧
    parseTag (ascii ",") = .error (ascii "expected a label") ∧
    parseTag (ascii "foo=") = .error (ascii "expected a label") ∧
    parseTag (ascii "foo=,") = .error (ascii "expected a label") ∧
    parseTag (ascii "foo,") = .error (ascii "expected a label") ∧
    parseTag (ascii ",,") = .error (ascii "expected a label") ∧
    parseTag (ascii "foo,,") = .error (ascii "expected a label") ∧
    parseTag (ascii "foo=bar=") = .error (ascii "expected EOF or a separator") := by
  refine ⟨?_, ?_, ?_, by decide, by decide, by decide, by decide, by decide, by decide,
    by decide, by decide⟩
  · intro h htk
    apply parseTag_error_of_loop s hs
    rw [h, parseLoop_itemsPrefix, parseLoop_0_other _ _ _ htk]
  · intro h htk
    apply parseTag_error_of_loop s hs
    rw [h, parseLoop_itemsPrefix, parseLoop_0_char, parseLoop_1_assign,
      parseLoop_2_other _ _ _ htk]
  · intro h htk
    apply parseTag_error_of_loop s hs
    rw [h, parseLoop_itemsPrefix, parseLoop_0_char, parseLoop_1_assign, parseLoop_2_char,
      setLastValue_snoc]
    simp only []
    rw [parseLoop_3_other _ _ _ (by rw [htk]; decide) (by rw [htk]; decide)]

theorem parseTag_error_class_witness :
    parseTag (ascii "a,b=c,,d") = .error (ascii "expected a label") ∧
    parseTag (ascii "a,b=c,d=,") = .error (ascii "expected a label") ∧
    parseTag (ascii "a,b=c,d=e=f") = .error (ascii "expected EOF or a separator") :=
  ⟨(parseTag_error_class (ascii "a,b=c,,d") (by decide)
      [(ascii "a", none), (ascii "b", some (ascii "c"))] [] [] tSep
      [tChar (ascii "d"), tEof]).1 (by decide) (by decide),
   (parseTag_error_class (ascii "a,b=c,d=,") (by decide)
      [(ascii "a", none), (ascii "b", some (ascii "c"))] (ascii "d") [] tSep
      [tEof]).2.1 (by decide) (by decide),
   (parseTag_error_class (ascii "a,b=c,d=e=f") (by decide)
      [(ascii "a", none), (ascii "b", some (ascii "c"))] (ascii "d") (ascii "e") tAssign
      [tChar (ascii "f"), tEof]).2.2.1 (by decide) (by decide)⟩

/-! ## Theorems: parseStructTag -/

theorem find_isSome_eq_any {α : Type} (p : α → Bool) (xs : List α) :
    (xs.find? p).isSome = xs.any p := by
  induction xs with
  | nil => rfl
  | cons x xs ih =>
    cases hp : p x <;> simp [List.find?, hp, ih]

theorem lastValue_isSome (items : List Item) (l : GoString) :
    (lastValue items l).isSome = items.any (fun it => decide (it.1 = l)) := by
  unfold lastValue
  rw [Option.isSome_map', find_isSome_eq_any, List.any_reverse]

theorem parseStructTag_of_ok (tag : GoString) (hne : tag ≠ [])
    (parsed : Option (List (GoString × GoString))) (h : parseTag tag = .ok parsed) :
    parseStructTag tag = .ok
      { Defined := true
        Required := (mapGet (parsed.getD []) (ascii "required")).isSome
        Default := (mapGet (parsed.getD []) (ascii "default")).getD []
        Env := (mapGet (parsed.getD []) (ascii "env")).getD [] } := by
  simp [parseStructTag, hne, h]

/-- C5: parseStructTag resolves the field policy. The empty tag gives the zero policy and
no error; for a non-empty tag that parses (its tokens are the items of the grammar),
Required is true exactly when some item has the label "required", whatever its value,
Default and Env are the values of the last items labelled "default" and "env", or ""
when there is none; a tag that parseTag rejects gives no policy and the parse error
wrapped with "mal-formed tag". -/
theorem parseStructTag_policy (tag : GoString) (hne : tag ≠ []) :
    parseStructTag [] = .ok { Required := false, Default := [], Env := [], Defined := false } ∧
    (∀ items : List Item, items ≠ [] →
      (tagTokenizer.mk false).Tokenize tag = renderItems items →
      parseStructTag tag = .ok
        { Required := items.any (fun it => decide (it.1 = ascii "required"))
          Default := (lastValue items (ascii "default")).getD []
          Env := (lastValue items (ascii "env")).getD []
          Defined := true }) ∧
    (∀ e, parseTag tag = .error e →
      parseStructTag tag = .error (ascii "mal-formed tag" ++ ascii ": " ++ e)) ∧
    parseStructTag (ascii "required=false") =
      .ok { Required := true, Default := [], Env := [], Defined := true } := by
  refine ⟨rfl, ?_, ?_, by decide⟩
  · intro items hitems hstream
    rw [parseStructTag_of_ok tag hne _ (parseTag_of_items tag hne items hitems hstream)]
    simp only [Option.getD_some, mapGet_tuplesToMap_items, lastValue_isSome]
  · intro e he
    simp [parseStructTag, hne, he, wrap]

theorem parseStructTag_policy_witness :
    ascii "required,default=a,env=HOME" ≠ [] ∧
    (parseStructTag [] = .ok { Required := false, Default := [], Env := [], Defined := false } ∧
    (∀ items : List Item, items ≠ [] →
      (tagTokenizer.mk false).Tokenize (ascii "required,default=a,env=HOME") =
        renderItems items →
      parseStructTag (ascii "required,default=a,env=HOME") = .ok
        { Required := items.any (fun it => decide (it.1 = ascii "required"))
          Default := (lastValue items (ascii "default")).getD []
          Env := (lastValue items (ascii "env")).getD []
          Defined := true }) ∧
    (∀ e, parseTag (ascii "required,default=a,env=HOME") = .error e →
      parseStructTag (ascii "required,default=a,env=HOME") =
        .error (ascii "mal-formed tag" ++ ascii ": " ++ e)) ∧
    parseStructTag (ascii "required=false") =
      .ok { Required := true, Default := [], Env := [], Defined := true }) :=
  ⟨by decide, parseStructTag_policy (ascii "required,default=a,env=HOME") (by decide)⟩

/-! ## Theorems: key-map normalization -/

theorem keysLowerEntries_mapSet (ext : Externals) (res : KeyMap) (k : GoString) (v : Generic)
    (hres : KeysLowerEntries ext res) (hk : ext.ToLower k = k) (hv : KeysLower ext v) :
    KeysLowerEntries ext (mapSet res k v) := by
  induction res with
  | nil => simp [mapSet, KeysLowerEntries, hk, hv]
  | cons p res ih =>
    obtain ⟨k2, v2⟩ := p
    simp only [KeysLowerEntries] at hres
    by_cases h : k2 = k
    · simp only [mapSet, h, if_true, KeysLowerEntries]
      exact ⟨hk, hv, hres.2.2⟩
    · simp only [mapSet, h, if_false, KeysLowerEntries]
      exact ⟨hres.1, hres.2.1, ih hres.2.2⟩

mutual
theorem keysLower_handleMapValue (ext : Externals)
    (hidem : ∀ s, ext.ToLower (ext.ToLower s) = ext.ToLower s) :
    ∀ v : Generic, Untyped v → KeysLower ext (handleMapValue ext v)
  | .map m, h => by
    simp only [Untyped] at h
    simp only [handleMapValue, KeysLower]
    exact keysLower_handleMap ext hidem m [] h (by simp [KeysLowerEntries])
  | .seq s, h => by
    simp only [Untyped] at h
    simp only [handleMapValue, KeysLower]
    exact keysLower_handleSlice ext hidem s h
  | .mapSlice _, h => by simp [Untyped] at h
  | .null, _ => by simp [handleMapValue, KeysLower]
  | .bool _, _ => by simp [handleMapValue, KeysLower]
  | .num _, _ => by simp [handleMapValue, KeysLower]
  | .str _, _ => by simp [handleMapValue, KeysLower]
theorem keysLower_handleMap (ext : Externals)
    (hidem : ∀ s, ext.ToLower (ext.ToLower s) = ext.ToLower s) :
    ∀ (m : List (GoString × Generic)) (res : KeyMap), UntypedEntries m →
      KeysLowerEntries ext res → KeysLowerEntries ext (handleMap ext res m)
  | [], res, _, hres => by simpa [handleMap] using hres
  | (k, v) :: rest, res, h, hres => by
    simp only [UntypedEntries] at h
    simp only [handleMap]
    exact keysLower_handleMap ext hidem rest _ h.2
      (keysLowerEntries_mapSet ext res _ _ hres (hidem k)
        (keysLower_handleMapValue ext hidem v h.1))
theorem keysLower_handleSlice (ext : Externals)
    (hidem : ∀ s, ext.ToLower (ext.ToLower s) = ext.ToLower s) :
    ∀ s : List Generic, UntypedList s → KeysLowerList ext (handleSlice ext s)
  | [], _ => by simp [handleSlice, KeysLowerList]
  | v :: rest, h => by
    simp only [UntypedList] at h
    simp only [handleSlice, KeysLowerList]
    exact ⟨keysLower_handleMapValue ext hidem v h.1, keysLower_handleSlice ext hidem rest h.2⟩
end

theorem handleSlice_eq_map (ext : Externals) (s : List Generic) :
    handleSlice ext s = s.map (handleMapValue ext) := by
  induction s with
  | nil => simp [handleSlice]
  | cons v rest ih => simp [handleSlice, ih]

theorem lowerByte_idem (b : Nat) : lowerByte (lowerByte b) = lowerByte b := by
  unfold lowerByte
  split_ifs <;> omega

theorem asciiToLower_idem (s : GoString) : asciiToLower (asciiToLower s) = asciiToLower s := by
  simp [asciiToLower, lowerByte_idem]

/-- What the normalization does reach. On a tree built from `map[string]interface{}` and
`[]interface{}` only, and given that lower-casing a lower-cased string changes nothing,
every key of every mapping in the result of handleMapValue and of lowercaseKeyMap equals
its own lower-case form, at every depth; on every tree a `[]interface{}` is mapped
element by element (same length, same order), and null and scalars are returned
unchanged. -/
theorem keys_lower_of_untyped (ext : Externals)
    (hidem : ∀ s, ext.ToLower (ext.ToLower s) = ext.ToLower s) (v : Generic) (m : KeyMap)
    (hv : Untyped v) (hm : UntypedEntries m) :
    KeysLower ext (handleMapValue ext v) ∧
    KeysLowerEntries ext (lowercaseKeyMap ext m) ∧
    (∀ s : List Generic, handleMapValue ext (.seq s) = .seq (s.map (handleMapValue ext)) ∧
      (s.map (handleMapValue ext)).length = s.length) ∧
    handleMapValue ext .null = .null ∧
    (∀ b, handleMapValue ext (.bool b) = .bool b) ∧
    (∀ n, handleMapValue ext (.num n) = .num n) ∧
    (∀ t, handleMapValue ext (.str t) = .str t) := by
  refine ⟨keysLower_handleMapValue ext hidem v hv,
    keysLower_handleMap ext hidem m [] hm (by simp [KeysLowerEntries]), ?_, ?_, ?_, ?_, ?_⟩
  · intro s
    exact ⟨by simp [handleMapValue, handleSlice_eq_map], by simp⟩
  · simp [handleMapValue]
  · intro b; simp [handleMapValue]
  · intro n; simp [handleMapValue]
  · intro t; simp [handleMapValue]

theorem keys_lower_of_untyped_witness :
    (∀ s, (sampleExt []).ToLower ((sampleExt []).ToLower s) = (sampleExt []).ToLower s) ∧
    Untyped (.seq [.map [(ascii "Foo", .map [(ascii "BAR", .null)])], .str (ascii "Baz")]) ∧
    UntypedEntries [(ascii "Key", .seq [.map [(ascii "SUB", .num 1)]])] ∧
    (KeysLower (sampleExt [])
      (handleMapValue (sampleExt [])
        (.seq [.map [(ascii "Foo", .map [(ascii "BAR", .null)])], .str (ascii "Baz")])) ∧
    KeysLowerEntries (sampleExt [])
      (lowercaseKeyMap (sampleExt []) [(ascii "Key", .seq [.map [(ascii "SUB", .num 1)]])]) ∧
    (∀ s : List Generic,
      handleMapValue (sampleExt []) (.seq s) = .seq (s.map (handleMapValue (sampleExt []))) ∧
      (s.map (handleMapValue (sampleExt []))).length = s.length) ∧
    handleMapValue (sampleExt []) .null = .null ∧
    (∀ b, handleMapValue (sampleExt []) (.bool b) = .bool b) ∧
    (∀ n, handleMapValue (sampleExt []) (.num n) = .num n) ∧
    (∀ t, handleMapValue (sampleExt []) (.str t) = .str t)) :=
  ⟨asciiToLower_idem,
    by simp [Untyped, UntypedList, UntypedEntries],
    by simp [Untyped, UntypedList, UntypedEntries],
    keys_lower_of_untyped (sampleExt []) asciiToLower_idem
      (.seq [.map [(ascii "Foo", .map [(ascii "BAR", .null)])], .str (ascii "Baz")])
      [(ascii "Key", .seq [.map [(ascii "SUB", .num 1)]])]
      (by simp [Untyped, UntypedList, UntypedEntries])
      (by simp [Untyped, UntypedList, UntypedEntries])⟩

/-- C6: key-map normalization does not lowercase everywhere. The type switch of
handleMapValue has no case for `[]map[string]interface{}`, so such a slice is returned
as it is, for every ToLower. On the key map that `toml.Decode` gives for the array of
tables `[[ArrayOfStuff]]` holding `String = "what"`, lowercaseKeyMap lowercases the outer
key and leaves the key `String` of the table, which is not its own lower-case form; on
the same data as a `[]interface{}` (the sibling case of the switch) the key becomes
`string`. -/
theorem typed_slice_not_normalized :
    (∀ (ext : Externals) (tables : List (List (GoString × Generic))),
      handleMapValue ext (.mapSlice tables) = .mapSlice tables) ∧
    lowercaseKeyMap (sampleExt []) (tablesKeyMap (ascii "String")) =
      [(ascii "arrayofstuff", .mapSlice [[(ascii "String", .str (ascii "what"))]])] ∧
    (sampleExt []).ToLower (ascii "String") ≠ ascii "String" ∧
    ¬ KeysLowerEntries (sampleExt [])
      (lowercaseKeyMap (sampleExt []) (tablesKeyMap (ascii "String"))) ∧
    lowercaseKeyMap (sampleExt []) (arrayKeyMap (ascii "String")) =
      [(ascii "arrayofstuff", .seq [.map [(ascii "string", .str (ascii "what"))]])] ∧
    KeysLowerEntries (sampleExt [])
      (lowercaseKeyMap (sampleExt []) (arrayKeyMap (ascii "String"))) := by
  have hne : (sampleExt []).ToLower (ascii "String") ≠ ascii "String" := by decide
  have h1 : lowercaseKeyMap (sampleExt []) (tablesKeyMap (ascii "String")) =
      [(ascii "arrayofstuff", .mapSlice [[(ascii "String", .str (ascii "what"))]])] := rfl
  have h2 : lowercaseKeyMap (sampleExt []) (arrayKeyMap (ascii "String")) =
      [(ascii "arrayofstuff", .seq [.map [(ascii "string", .str (ascii "what"))]])] := rfl
  refine ⟨fun ext tables => by simp [handleMapValue], h1, hne, ?_, h2, ?_⟩
  · rw [h1]
    simp only [KeysLowerEntries, KeysLower, KeysLowerTables]
    intro h
    exact hne h.2.1.1.1
  · rw [h2]
    simp only [KeysLowerEntries, KeysLower, KeysLowerList, and_true]
    exact ⟨by decide, by decide⟩

theorem mapGet_handleMap (ext : Externals) (m : List (GoString × Generic)) :
    ∀ (res : KeyMap) (key : GoString),
      mapGet (handleMap ext res m) key =
        match m.reverse.find? (fun p => decide (ext.ToLower p.1 = key)) with
        | some p => some (handleMapValue ext p.2)
        | none => mapGet res key := by
  induction m with
  | nil => intro res key; simp [handleMap]
  | cons p m ih =>
    intro res key
    obtain ⟨k, v⟩ := p
    simp only [handleMap, List.reverse_cons, List.find?_append, ih]
    cases hfind : m.reverse.find? (fun p => decide (ext.ToLower p.1 = key)) with
    | some q => simp
    | none =>
      by_cases h : ext.ToLower k = key <;> simp [mapGet_mapSet, h]

theorem pairwise_unique (ext : Externals) (m : List (GoString × Generic))
    (hpair : m.Pairwise (fun a b => ext.ToLower a.1 ≠ ext.ToLower b.1))
    (p q : GoString × Generic) (hp : p ∈ m) (hq : q ∈ m)
    (h : ext.ToLower p.1 = ext.ToLower q.1) : p = q := by
  induction m with
  | nil => cases hp
  | cons a m ih =>
    rw [List.pairwise_cons] at hpair
    rcases List.mem_cons.1 hp with hp1 | hp1 <;> rcases List.mem_cons.1 hq with hq1 | hq1
    · rw [hp1, hq1]
    · subst hp1; exact absurd h (hpair.1 q hq1)
    · subst hq1; exact absurd h.symm (hpair.1 p hp1)
    · exact ih hpair.2 hp1 hq1

mutual
theorem handleMapValue_caseEq (ext : Externals) :
    ∀ a b : Generic, Untyped a → CaseEq ext a b → handleMapValue ext a = handleMapValue ext b
  | .map m1, .map m2, hu, h => by
    simp only [Untyped] at hu
    simp only [CaseEq] at h
    simp only [handleMapValue]
    rw [handleMap_caseEq ext m1 m2 hu h []]
  | .seq s1, .seq s2, hu, h => by
    simp only [Untyped] at hu
    simp only [CaseEq] at h
    simp only [handleMapValue]
    rw [handleSlice_caseEq ext s1 s2 hu h]
  | .mapSlice _, _, hu, _ => by simp [Untyped] at hu
  | .null, b, _, h => by cases b <;> simp_all [CaseEq]
  | .bool _, b, _, h => by cases b <;> simp_all [CaseEq]
  | .num _, b, _, h => by cases b <;> simp_all [CaseEq]
  | .str _, b, _, h => by cases b <;> simp_all [CaseEq]
  | .map _, .null, _, h | .map _, .bool _, _, h | .map _, .num _, _, h | .map _, .str _, _, h
  | .map _, .seq _, _, h | .map _, .mapSlice _, _, h => by simp [CaseEq] at h
  | .seq _, .null, _, h | .seq _, .bool _, _, h | .seq _, .num _, _, h | .seq _, .str _, _, h
  | .seq _, .map _, _, h | .seq _, .mapSlice _, _, h => by simp [CaseEq] at h
theorem handleMap_caseEq (ext : Externals) :
    ∀ m1 m2 : List (GoString × Generic), UntypedEntries m1 → CaseEqEntries ext m1 m2 →
      ∀ res : KeyMap, handleMap ext res m1 = handleMap ext res m2
  | [], [], _, _, res => rfl
  | [], _ :: _, _, h, _ => by simp [CaseEqEntries] at h
  | _ :: _, [], _, h, _ => by simp [CaseEqEntries] at h
  | (k1, v1) :: r1, (k2, v2) :: r2, hu, h, res => by
    simp only [UntypedEntries] at hu
    simp only [CaseEqEntries] at h
    simp only [handleMap]
    rw [h.1, handleMapValue_caseEq ext v1 v2 hu.1 h.2.1, handleMap_caseEq ext r1 r2 hu.2 h.2.2]
theorem handleSlice_caseEq (ext : Externals) :
    ∀ s1 s2 : List Generic, UntypedList s1 → CaseEqList ext s1 s2 →
      handleSlice ext s1 = handleSlice ext s2
  | [], [], _, _ => rfl
  | [], _ :: _, _, h => by simp [CaseEqList] at h
  | _ :: _, [], _, h => by simp [CaseEqList] at h
  | v1 :: r1, v2 :: r2, hu, h => by
    simp only [UntypedList] at hu
    simp only [CaseEqList] at h
    simp only [handleSlice]
    rw [handleMapValue_caseEq ext v1 v2 hu.1 h.1, handleSlice_caseEq ext r1 r2 hu.2 h.2]
end

/-- What holds of the lookup. Binding against the normalized tree finds a raw value for a
field exactly when the decoded mapping has a key equal to the field name up to letter
case; when no two keys of the mapping are equal up to letter case, that raw value is the
value stored under that key as handleMapValue returns it; and two key maps built from
`map[string]interface{}` and `[]interface{}` only that differ only in the letter case of
their keys give the same outcome of processTags. -/
theorem lookup_of_untyped (ext : Externals) (u : Unmarshaller)
    (fieldDef : StructField) (m m2 : KeyMap) (v : Option GoValue)
    (hpair : m.Pairwise (fun a b => ext.ToLower a.1 ≠ ext.ToLower b.1)) :
    ((rawLookup ext u fieldDef (lowercaseKeyMap ext m)).isSome ↔
      ∃ p ∈ m, ext.ToLower p.1 = ext.ToLower (u.ExtractFieldName fieldDef)) ∧
    (∀ p ∈ m, ext.ToLower p.1 = ext.ToLower (u.ExtractFieldName fieldDef) →
      rawLookup ext u fieldDef (lowercaseKeyMap ext m) = some (handleMapValue ext p.2)) ∧
    (UntypedEntries m → CaseEqEntries ext m m2 →
      processTags ext u v (lowercaseKeyMap ext m) =
        processTags ext u v (lowercaseKeyMap ext m2)) := by
  have hget := mapGet_handleMap ext m [] (ext.ToLower (u.ExtractFieldName fieldDef))
  refine ⟨?_, ?_, ?_⟩
  · unfold rawLookup lowercaseKeyMap
    rw [hget]
    cases hfind : m.reverse.find?
        (fun p => decide (ext.ToLower p.1 = ext.ToLower (u.ExtractFieldName fieldDef))) with
    | some q =>
      have hq := List.find?_some hfind
      have hmem := List.mem_of_find?_eq_some hfind
      simp only [Option.isSome_some, true_iff]
      exact ⟨q, List.mem_reverse.1 hmem, by simpa using hq⟩
    | none =>
      simp only [mapGet, Option.isSome_none, Bool.false_eq_true, false_iff]
      rintro ⟨p, hp, hpk⟩
      have := List.find?_eq_none.1 hfind p (List.mem_reverse.2 hp)
      simp [hpk] at this
  · intro p hp hpk
    unfold rawLookup lowercaseKeyMap
    rw [hget]
    cases hfind : m.reverse.find?
        (fun p => decide (ext.ToLower p.1 = ext.ToLower (u.ExtractFieldName fieldDef))) with
    | some q =>
      have hq := List.find?_some hfind
      have hmem := List.mem_reverse.1 (List.mem_of_find?_eq_some hfind)
      have hqk : ext.ToLower q.1 = ext.ToLower (u.ExtractFieldName fieldDef) := by simpa using hq
      have : p = q := pairwise_unique ext m hpair p q hp hmem (hpk.trans hqk.symm)
      rw [this]
    | none =>
      have := List.find?_eq_none.1 hfind p (List.mem_reverse.2 hp)
      simp [hpk] at this
  · intro hu hcase
    unfold lowercaseKeyMap
    rw [handleMap_caseEq ext m m2 hu hcase []]

theorem lookup_of_untyped_witness :
    (arrayKeyMap (ascii "String")).Pairwise
      (fun a b => (sampleExt []).ToLower a.1 ≠ (sampleExt []).ToLower b.1) ∧
    UntypedEntries (arrayKeyMap (ascii "String")) ∧
    CaseEqEntries (sampleExt []) (arrayKeyMap (ascii "String")) (arrayKeyMap (ascii "string")) ∧
    processTags (sampleExt []) sampleTOML (some (.ptr (testArrayCfg (ascii "what"))))
        (lowercaseKeyMap (sampleExt []) (arrayKeyMap (ascii "String"))) =
      processTags (sampleExt []) sampleTOML (some (.ptr (testArrayCfg (ascii "what"))))
        (lowercaseKeyMap (sampleExt []) (arrayKeyMap (ascii "string"))) ∧
    processTags (sampleExt []) sampleTOML (some (.ptr (testArrayCfg (ascii "what"))))
        (lowercaseKeyMap (sampleExt []) (arrayKeyMap (ascii "String"))) =
      (some (.ptr (testArrayCfg (ascii "what"))), .ok ()) :=
  have hu : UntypedEntries (arrayKeyMap (ascii "String")) := by
    simp [arrayKeyMap, Untyped, UntypedList, UntypedEntries]
  have hc : CaseEqEntries (sampleExt []) (arrayKeyMap (ascii "String"))
      (arrayKeyMap (ascii "string")) := by
    simp only [arrayKeyMap, CaseEqEntries, CaseEq, CaseEqList, and_true, true_and]
    decide
  ⟨by decide, hu, hc,
    (lookup_of_untyped (sampleExt []) sampleTOML { Name := ascii "ArrayOfStuff", Tag := [] }
      (arrayKeyMap (ascii "String")) (arrayKeyMap (ascii "string"))
      (some (.ptr (testArrayCfg (ascii "what")))) (by decide)).2.2 hu hc,
    rfl⟩

/-- C7: field lookup is not case-insensitive inside an array of tables. The two key maps
that `toml.Decode` gives for `[[ArrayOfStuff]]` with the table line `string = "what"` and
with `String = "what"` differ only in the letter case of a key, and the typed element
holds "what" after either document; after lowercaseKeyMap the table still has the key
`String`, the lookup of the field `String` (name `string`) finds nothing in it, and
processTags overwrites the decoded "what" with the default "nested", while with the key
`string` the field keeps "what": the two outcomes differ. -/
theorem typed_slice_lookup_case_sensitive :
    CaseEqEntries (sampleExt []) (tablesKeyMap (ascii "string"))
      (tablesKeyMap (ascii "String")) ∧
    rawLookup (sampleExt []) sampleTOML (configField "String" "required,default=nested")
      [(ascii "string", .str (ascii "what"))] = some (.str (ascii "what")) ∧
    rawLookup (sampleExt []) sampleTOML (configField "String" "required,default=nested")
      [(ascii "String", .str (ascii "what"))] = none ∧
    processTags (sampleExt []) sampleTOML (some (.ptr (testArrayCfg (ascii "what"))))
        (lowercaseKeyMap (sampleExt []) (tablesKeyMap (ascii "string"))) =
      (some (.ptr (testArrayCfg (ascii "what"))), .ok ()) ∧
    processTags (sampleExt []) sampleTOML (some (.ptr (testArrayCfg (ascii "what"))))
        (lowercaseKeyMap (sampleExt []) (tablesKeyMap (ascii "String"))) =
      (some (.ptr (testArrayCfg (ascii "nested"))), .ok ()) ∧
    (processTags (sampleExt []) sampleTOML (some (.ptr (testArrayCfg (ascii "what"))))
        (lowercaseKeyMap (sampleExt []) (tablesKeyMap (ascii "string")))).1 ≠
      (processTags (sampleExt []) sampleTOML (some (.ptr (testArrayCfg (ascii "what"))))
        (lowercaseKeyMap (sampleExt []) (tablesKeyMap (ascii "String")))).1 := by
  have h1 : processTags (sampleExt []) sampleTOML (some (.ptr (testArrayCfg (ascii "what"))))
        (lowercaseKeyMap (sampleExt []) (tablesKeyMap (ascii "string"))) =
      (some (.ptr (testArrayCfg (ascii "what"))), .ok ()) := rfl
  have h2 : processTags (sampleExt []) sampleTOML (some (.ptr (testArrayCfg (ascii "what"))))
        (lowercaseKeyMap (sampleExt []) (tablesKeyMap (ascii "String"))) =
      (some (.ptr (testArrayCfg (ascii "nested"))), .ok ()) := rfl
  refine ⟨?_, rfl, rfl, h1, h2, ?_⟩
  · simp only [tablesKeyMap, CaseEqEntries, CaseEq, CaseEqTables, and_true, true_and]
    decide
  · rw [h1, h2]
    simp only [testArrayCfg, testNestedConfig, ne_eq, Option.some.injEq, GoValue.ptr.injEq,
      GoValue.struct.injEq, List.cons.injEq, Prod.mk.injEq, GoValue.slice.injEq,
      GoValue.str.injEq, true_and, and_true]
    decide

/-! ## Theorems: the field loop of processTags -/

theorem bindFields_nil (ext : Externals) (u : Unmarshaller) (addressable : Bool) (keyMap : KeyMap) :
    bindFields ext u addressable keyMap [] = ([], .ok ()) := by
  simp [bindFields]

/-- The loop over the fields runs the loop body on the first field and goes on with the
other fields when the body ends without error. -/
theorem bindFields_cons (ext : Externals) (u : Unmarshaller) (addressable : Bool)
    (keyMap : KeyMap) (fieldDef : StructField) (fieldVal : GoValue)
    (rest : List (StructField × GoValue)) :
    bindFields ext u addressable keyMap ((fieldDef, fieldVal) :: rest) =
      match bindField ext u addressable keyMap fieldDef fieldVal with
      | (fv, .ok ()) =>
        ((fieldDef, fv) :: (bindFields ext u addressable keyMap rest).1,
          (bindFields ext u addressable keyMap rest).2)
      | (fv, r) => ((fieldDef, fv) :: rest, r) := by
  rw [bindFields]
  unfold bindField
  cases hstep : fieldPrelude ext u addressable fieldDef fieldVal keyMap with
  | done fv r => cases r <;> simp
  | descend fieldCfg rawFieldVal => rfl

theorem bindFields_cons_ok (ext : Externals) (u : Unmarshaller) (addressable : Bool)
    (keyMap : KeyMap) (fieldDef : StructField) (fieldVal fv : GoValue)
    (rest : List (StructField × GoValue))
    (h : bindField ext u addressable keyMap fieldDef fieldVal = (fv, .ok ())) :
    bindFields ext u addressable keyMap ((fieldDef, fieldVal) :: rest) =
      ((fieldDef, fv) :: (bindFields ext u addressable keyMap rest).1,
        (bindFields ext u addressable keyMap rest).2) := by
  rw [bindFields_cons, h]

theorem bindFields_cons_stop (ext : Externals) (u : Unmarshaller) (addressable : Bool)
    (keyMap : KeyMap) (fieldDef : StructField) (fieldVal fv : GoValue) (r : Result Unit)
    (rest : List (StructField × GoValue))
    (h : bindField ext u addressable keyMap fieldDef fieldVal = (fv, r)) (hr : r ≠ .ok ()) :
    bindFields ext u addressable keyMap ((fieldDef, fieldVal) :: rest) =
      ((fieldDef, fv) :: rest, r) := by
  rw [bindFields_cons, h]
  cases r with
  | ok a => exact absurd rfl hr
  | error e => rfl
  | panic p => rfl

/-- Fields that bind without error hand the loop on to the fields after them. -/
theorem bindFields_append (ext : Externals) (u : Unmarshaller) (addressable : Bool)
    (keyMap : KeyMap) (pre rest : List (StructField × GoValue))
    (h : (bindFields ext u addressable keyMap pre).2 = .ok ()) :
    bindFields ext u addressable keyMap (pre ++ rest) =
      ((bindFields ext u addressable keyMap pre).1 ++
          (bindFields ext u addressable keyMap rest).1,
        (bindFields ext u addressable keyMap rest).2) := by
  induction pre with
  | nil => simp [bindFields_nil]
  | cons f pre ih =>
    obtain ⟨fd, fv⟩ := f
    rw [bindFields_cons] at h
    rw [List.cons_append, bindFields_cons, bindFields_cons]
    rcases hb : bindField ext u addressable keyMap fd fv with ⟨fv1, r⟩
    rw [hb] at h
    cases r with
    | ok a =>
      simp only [] at h
      simp only [ih h, List.cons_append]
    | error e => simp at h
    | panic p => simp at h

theorem bindFields_length (ext : Externals) (u : Unmarshaller) (addressable : Bool)
    (keyMap : KeyMap) (fields : List (StructField × GoValue)) :
    (bindFields ext u addressable keyMap fields).1.length = fields.length := by
  induction fields with
  | nil => simp [bindFields_nil]
  | cons f fields ih =>
    obtain ⟨fd, fv⟩ := f
    rw [bindFields_cons]
    rcases hb : bindField ext u addressable keyMap fd fv with ⟨fv1, r⟩
    cases r <;> simp [ih]

/-- The call `processTags(x.Addr().Interface(), ...)` of the recursion: `reflect.Indirect`
gives back `x`, addressable. -/
theorem processTags_ptr (ext : Externals) (u : Unmarshaller) (keyMap : KeyMap) (x : GoValue) :
    processTags ext u (some (.ptr x)) keyMap =
      (some (.ptr (bindValue ext u true keyMap x).1), (bindValue ext u true keyMap x).2) := rfl

theorem processTags_ptr_struct (ext : Externals) (u : Unmarshaller) (keyMap : KeyMap)
    (fields : List (StructField × GoValue)) :
    processTags ext u (some (.ptr (.struct fields))) keyMap =
      (some (.ptr (.struct (bindFields ext u true keyMap fields).1)),
        (bindFields ext u true keyMap fields).2) := by
  simp [processTags, bindValue]

/-- The outcome of processTags on a struct whose first fields bind without error, when
the loop body ends at the next field with an error or a panic. -/
theorem processTags_stop_at (ext : Externals) (u : Unmarshaller) (keyMap : KeyMap)
    (pre post : List (StructField × GoValue)) (fieldDef : StructField) (fieldVal fv : GoValue)
    (r : Result Unit)
    (hpre : (bindFields ext u true keyMap pre).2 = .ok ())
    (h : bindField ext u true keyMap fieldDef fieldVal = (fv, r)) (hr : r ≠ .ok ()) :
    processTags ext u (some (.ptr (.struct (pre ++ (fieldDef, fieldVal) :: post)))) keyMap =
      (some (.ptr (.struct ((bindFields ext u true keyMap pre).1 ++ (fieldDef, fv) :: post))),
        r) := by
  rw [processTags_ptr_struct, bindFields_append _ _ _ _ _ _ hpre,
    bindFields_cons_stop _ _ _ _ _ _ _ _ _ h hr]

/-! ## Theorems: required fields -/

theorem bindField_not_found (ext : Externals) (u : Unmarshaller) (addressable : Bool)
    (keyMap : KeyMap) (fieldDef : StructField) (fieldVal : GoValue) (fieldCfg : FieldConfig)
    (htag : parseStructTag (fieldDef.TagGet TagName) = .ok fieldCfg)
    (hreq : fieldCfg.Required = true) (hdef : fieldCfg.Default = [])
    (henv : envOverrideOf ext fieldCfg = [])
    (hraw : rawLookup ext u fieldDef keyMap = none) :
    bindField ext u addressable keyMap fieldDef fieldVal =
      (fieldVal, .error (ascii "required field " ++ fieldDef.Name ++ ascii " not found")) := by
  simp [bindField, fieldPrelude, htag, hreq, hdef, henv, hraw, rawIsNil]

theorem bindField_is_nil (ext : Externals) (u : Unmarshaller) (addressable : Bool)
    (keyMap : KeyMap) (fieldDef : StructField) (fieldVal : GoValue) (fieldCfg : FieldConfig)
    (htag : parseStructTag (fieldDef.TagGet TagName) = .ok fieldCfg)
    (hreq : fieldCfg.Required = true) (hdef : fieldCfg.Default = [])
    (henv : envOverrideOf ext fieldCfg = [])
    (hraw : rawLookup ext u fieldDef keyMap = some .null) :
    bindField ext u addressable keyMap fieldDef fieldVal =
      (fieldVal, .error (ascii "required field " ++ fieldDef.Name ++ ascii " is nil")) := by
  simp [bindField, fieldPrelude, htag, hreq, hdef, henv, hraw, rawIsNil]

/-- C8: required-field presence errors. For a field marked required that has no default
and no environment override, in a struct whose preceding fields bind without error,
processTags fails with "required field NAME not found" when the key of the field is
absent from the key map and with "required field NAME is nil" when the key is present
with null, whatever the kind and value of the field. -/
theorem required_presence (ext : Externals) (u : Unmarshaller) (keyMap : KeyMap)
    (pre post : List (StructField × GoValue)) (fieldDef : StructField) (fieldVal : GoValue)
    (fieldCfg : FieldConfig)
    (hpre : (bindFields ext u true keyMap pre).2 = .ok ())
    (htag : parseStructTag (fieldDef.TagGet TagName) = .ok fieldCfg)
    (hreq : fieldCfg.Required = true) (hdef : fieldCfg.Default = [])
    (henv : envOverrideOf ext fieldCfg = []) :
    (rawLookup ext u fieldDef keyMap = none →
      (processTags ext u (some (.ptr (.struct (pre ++ (fieldDef, fieldVal) :: post)))) keyMap).2 =
        .error (ascii "required field " ++ fieldDef.Name ++ ascii " not found")) ∧
    (rawLookup ext u fieldDef keyMap = some .null →
      (processTags ext u (some (.ptr (.struct (pre ++ (fieldDef, fieldVal) :: post)))) keyMap).2 =
        .error (ascii "required field " ++ fieldDef.Name ++ ascii " is nil")) := by
  refine ⟨?_, ?_⟩
  · intro hraw
    rw [processTags_stop_at ext u keyMap pre post fieldDef fieldVal fieldVal _ hpre
      (bindField_not_found ext u true keyMap fieldDef fieldVal fieldCfg htag hreq hdef henv hraw)
      (by simp)]
  · intro hraw
    rw [processTags_stop_at ext u keyMap pre post fieldDef fieldVal fieldVal _ hpre
      (bindField_is_nil ext u true keyMap fieldDef fieldVal fieldCfg htag hreq hdef henv hraw)
      (by simp)]

theorem required_presence_witness :
    (bindFields (sampleExt []) sampleJSON true [(ascii "bool", .bool false)]
        [(configField "Bool" "required", .bool false)]).2 = .ok () ∧
    parseStructTag ((configField "Int" "required").TagGet TagName) =
      .ok { Required := true, Default := [], Env := [], Defined := true } ∧
    (processTags (sampleExt []) sampleJSON
        (some (.ptr (.struct (testRequiredCfg false 0 [] false []))))
        [(ascii "bool", .bool false)]).2 =
      .error (ascii "required field Int not found") ∧
    (processTags (sampleExt []) sampleJSON
        (some (.ptr (.struct (testRequiredCfg false 0 [] false []))))
        [(ascii "bool", .bool false), (ascii "int", .null)]).2 =
      .error (ascii "required field Int is nil") :=
  ⟨by decide, by decide,
    (required_presence (sampleExt []) sampleJSON [(ascii "bool", .bool false)]
      [(configField "Bool" "required", .bool false)]
      [(configField "String" "required", .str []),
       (configField "Nested" "required", .struct [(configField "Bool" "required", .bool false)]),
       (configField "Array" "required", .slice .Int [])]
      (configField "Int" "required") (.int 0)
      { Required := true, Default := [], Env := [], Defined := true }
      (by decide) (by decide) rfl rfl rfl).1 rfl,
    (required_presence (sampleExt []) sampleJSON
      [(ascii "bool", .bool false), (ascii "int", .null)]
      [(configField "Bool" "required", .bool false)]
      [(configField "String" "required", .str []),
       (configField "Nested" "required", .struct [(configField "Bool" "required", .bool false)]),
       (configField "Array" "required", .slice .Int [])]
      (configField "Int" "required") (.int 0)
      { Required := true, Default := [], Env := [], Defined := true }
      (by decide) (by decide) rfl rfl rfl).2 rfl⟩

/-! ## Theorems: the loop body on one field -/

theorem rawIsNil_false_isSome (raw : Option Generic) (h : rawIsNil raw = false) :
    raw.isSome = true := by
  cases raw with
  | none => simp [rawIsNil] at h
  | some x => rfl

/-- With a non-null raw value nothing is applied and no presence check fails: the loop
body goes on with lines 84 to 123 on the unchanged field. -/
theorem fieldPrelude_present (ext : Externals) (u : Unmarshaller) (addressable : Bool)
    (keyMap : KeyMap) (fieldDef : StructField) (fieldVal : GoValue) (fieldCfg : FieldConfig)
    (htag : parseStructTag (fieldDef.TagGet TagName) = .ok fieldCfg)
    (hraw : rawIsNil (rawLookup ext u fieldDef keyMap) = false)
    (hkind : kindOf (derefValue fieldVal) ≠ .Struct) :
    fieldPrelude ext u addressable fieldDef fieldVal keyMap =
      .descend fieldCfg (rawLookup ext u fieldDef keyMap) := by
  simp [fieldPrelude, htag, hraw, hkind, rawIsNil_false_isSome _ hraw]

theorem bindField_present (ext : Externals) (u : Unmarshaller) (addressable : Bool)
    (keyMap : KeyMap) (fieldDef : StructField) (fieldVal : GoValue) (fieldCfg : FieldConfig)
    (htag : parseStructTag (fieldDef.TagGet TagName) = .ok fieldCfg)
    (hraw : rawIsNil (rawLookup ext u fieldDef keyMap) = false)
    (hkind : kindOf (derefValue fieldVal) ≠ .Struct) :
    bindField ext u addressable keyMap fieldDef fieldVal =
      bindDeref ext u fieldDef fieldCfg (rawLookup ext u fieldDef keyMap) addressable fieldVal := by
  simp [bindField, fieldPrelude_present ext u addressable keyMap fieldDef fieldVal fieldCfg htag
    hraw hkind]

/-- With a nil raw value and a non-empty effective literal, the literal is decoded into
the field and the iteration ends with the checks that follow a default. -/
theorem bindField_applied (ext : Externals) (u : Unmarshaller)
    (keyMap : KeyMap) (fieldDef : StructField) (fieldVal fv1 : GoValue) (fieldCfg : FieldConfig)
    (htag : parseStructTag (fieldDef.TagGet TagName) = .ok fieldCfg)
    (hraw : rawIsNil (rawLookup ext u fieldDef keyMap) = true)
    (hlit : effectiveLiteral ext fieldCfg ≠ [])
    (hkind : kindOf (derefValue fieldVal) ≠ .Struct)
    (hyaml : ext.yamlUnmarshal (effectiveLiteral ext fieldCfg) fieldVal = (fv1, none)) :
    bindField ext u true keyMap fieldDef fieldVal =
      (fv1, afterDefault fieldDef fieldCfg (kindOf (derefValue fieldVal))
        (derefAfter fieldVal fv1)) := by
  unfold effectiveLiteral at hlit hyaml
  by_cases henv : envOverrideOf ext fieldCfg = []
  · simp only [henv, ne_eq, not_true_eq_false, if_false] at hlit hyaml
    simp [bindField, fieldPrelude, htag, hraw, hkind, henv, hlit, applyLiteral, hyaml]
  · simp only [henv, ne_eq, not_false_eq_true, if_true] at hlit hyaml
    simp [bindField, fieldPrelude, htag, hraw, hkind, henv, applyLiteral, hyaml]

theorem bindDeref_of_str (ext : Externals) (u : Unmarshaller) (fieldDef : StructField)
    (fieldCfg : FieldConfig) (raw : Option Generic) (s : GoString) :
    ∀ (fieldVal : GoValue) (addressable : Bool), derefValue fieldVal = some (.str s) →
      bindDeref ext u fieldDef fieldCfg raw addressable fieldVal =
        (fieldVal, if fieldCfg.Required ∧ s.length = 0 then
          .error (ascii "required field " ++ fieldDef.Name ++ ascii " is empty") else .ok ())
  | .ptr p, _, h => by
    simp only [derefValue] at h
    simp only [bindDeref, bindDeref_of_str ext u fieldDef fieldCfg raw s p true h]
  | .str t, _, h => by
    simp only [derefValue, Option.some.injEq, GoValue.str.injEq] at h
    subst h
    simp only [bindDeref]
    split <;> rfl
  | .bool _, _, h | .int _, _, h | .uint _, _, h | .float _, _, h | .nilPtr _, _, h
  | .slice _ _, _, h | .struct _, _, h | .nilIface, _, h | .iface _, _, h => by
    simp [derefValue] at h

theorem bindDeref_of_slice (ext : Externals) (u : Unmarshaller) (fieldDef : StructField)
    (fieldCfg : FieldConfig) (raw : Option Generic) (k : Kind) (elems : List GoValue) :
    ∀ (fieldVal : GoValue) (addressable : Bool), derefValue fieldVal = some (.slice k elems) →
      (bindDeref ext u fieldDef fieldCfg raw addressable fieldVal).2 =
        if fieldCfg.Required ∧ elems.length = 0 then
          .error (ascii "required field " ++ fieldDef.Name ++ ascii " is empty")
        else if k ≠ .Struct then .ok ()
        else (bindElems ext u fieldDef raw 0 elems).2
  | .ptr p, _, h => by
    simp only [derefValue] at h
    simp only [bindDeref, bindDeref_of_slice ext u fieldDef fieldCfg raw k elems p true h]
  | .slice k2 elems2, _, h => by
    simp only [derefValue, Option.some.injEq, GoValue.slice.injEq] at h
    obtain ⟨h1, h2⟩ := h
    subst h1 h2
    simp only [bindDeref]
    split
    · rfl
    · split <;> rfl
  | .bool _, _, h | .int _, _, h | .uint _, _, h | .float _, _, h | .nilPtr _, _, h
  | .str _, _, h | .struct _, _, h | .nilIface, _, h | .iface _, _, h => by
    simp [derefValue] at h

/-- An error returned by the loop over the elements of a slice is an element error
wrapped with the name of the array field. -/
theorem bindElems_error (ext : Externals) (u : Unmarshaller) (fieldDef : StructField)
    (raw : Option Generic) (elems : List GoValue) :
    ∀ (i : Nat) (e : GoString), (bindElems ext u fieldDef raw i elems).2 = .error e →
      ∃ err, e = wrap err (ascii "error processing array field " ++ fieldDef.Name) := by
  induction elems with
  | nil => intro i e h; simp [bindElems] at h
  | cons elem rest ih =>
    intro i e h
    rw [bindElems] at h
    cases hidx : indexRaw raw i with
    | error err =>
      exfalso
      unfold indexRaw at hidx
      split at hidx <;> (try split at hidx) <;> simp at hidx
    | panic p => rw [hidx] at h; simp at h
    | ok next =>
      rw [hidx] at h
      simp only [] at h
      rcases hb : bindValue ext u true next elem with ⟨elem1, r⟩
      rw [hb] at h
      cases r with
      | ok a => exact ih (i + 1) e h
      | error err => simp only [Result.error.injEq] at h; exact ⟨err, h.symm⟩
      | panic p => simp at h

theorem wrap_array_ne_empty (err name : GoString) :
    wrap err (ascii "error processing array field " ++ name) ≠
      ascii "required field " ++ name ++ ascii " is empty" := by
  intro h
  have h1 := congrArg List.head? h
  simp [wrap, ascii] at h1

theorem valueLen_ok_cases (v : Option GoValue) (n : Nat) (h : valueLen v = .ok n) :
    (∃ s, v = some (.str s) ∧ s.length = n) ∨
    (∃ k elems, v = some (.slice k elems) ∧ elems.length = n) := by
  unfold valueLen at h
  split at h
  · rename_i s
    simp only [Result.ok.injEq] at h
    exact Or.inl ⟨s, rfl, h⟩
  · rename_i k elems
    simp only [Result.ok.injEq] at h
    exact Or.inr ⟨k, elems, rfl, h⟩
  · simp at h

/-! ## Theorems: the emptiness check -/

/-- The emptiness check on a field whose raw value is present and not null. -/
theorem bindField_empty_present (ext : Externals) (u : Unmarshaller) (addressable : Bool)
    (keyMap : KeyMap) (fieldDef : StructField) (fieldVal : GoValue) (fieldCfg : FieldConfig)
    (n : Nat)
    (htag : parseStructTag (fieldDef.TagGet TagName) = .ok fieldCfg)
    (hreq : fieldCfg.Required = true)
    (hraw : rawIsNil (rawLookup ext u fieldDef keyMap) = false)
    (hlen : valueLen (derefValue fieldVal) = .ok n) :
    (bindField ext u addressable keyMap fieldDef fieldVal).2 =
        .error (ascii "required field " ++ fieldDef.Name ++ ascii " is empty") ↔ n = 0 := by
  rcases valueLen_ok_cases _ n hlen with ⟨s, hs, hn⟩ | ⟨k, elems, hs, hn⟩
  · rw [bindField_present ext u addressable keyMap fieldDef fieldVal fieldCfg htag hraw
      (by rw [hs]; simp [kindOf, GoValue.Kind]),
      bindDeref_of_str ext u fieldDef fieldCfg _ s fieldVal addressable hs]
    by_cases h0 : n = 0
    · simp [hreq, hn, h0]
    · simp [hreq, hn, h0]
  · rw [bindField_present ext u addressable keyMap fieldDef fieldVal fieldCfg htag hraw
      (by rw [hs]; simp [kindOf, GoValue.Kind]),
      bindDeref_of_slice ext u fieldDef fieldCfg _ k elems fieldVal addressable hs]
    by_cases h0 : n = 0
    · simp [hreq, hn, h0]
    · simp only [hreq, hn, h0, and_false, if_false, iff_false]
      split
      · simp
      · intro h
        obtain ⟨err, herr⟩ := bindElems_error ext u fieldDef _ elems 0 _ h
        exact wrap_array_ne_empty err fieldDef.Name herr.symm

/-- The emptiness check after a default or env literal has been applied. -/
theorem afterDefault_empty (fieldDef : StructField) (fieldCfg : FieldConfig) (kind : Kind)
    (d : Option GoValue) (n : Nat) (hreq : fieldCfg.Required = true)
    (hkind : kind = .String ∨ kind = .Slice) (hlen : valueLen d = .ok n) :
    afterDefault fieldDef fieldCfg kind d =
        .error (ascii "required field " ++ fieldDef.Name ++ ascii " is empty") ↔ n = 0 := by
  rcases hkind with hk | hk <;> subst hk
  · by_cases h0 : n = 0 <;> simp [afterDefault, hlen, hreq, h0]
  · by_cases h0 : n = 0
    · simp [afterDefault, hlen, hreq, h0]
    · simp only [afterDefault, hlen, hreq, h0, and_false, if_false, iff_false]
      simp only [reduceCtorEq, if_false, if_true]
      split
      · simp
      · split <;> simp

/-- The emptiness check where the code makes it. For a required field, in a struct
whose preceding fields bind without error: when the raw value is present and not null
and the dereferenced field has a length n (a string or a sequence), the loop body fails
with "required field NAME is empty" exactly when n is 0; when the raw value is absent or
null, a non-empty default or env literal is decoded into the field, and `derefFieldVal`
as computed before the decoding is a string or a sequence (so the field is not a nil
pointer), it fails with that error exactly when the storage `derefFieldVal` refers to
after the decoding has length 0; and in both cases length 0 makes processTags return
that error. -/
theorem required_empty (ext : Externals) (u : Unmarshaller) (keyMap : KeyMap)
    (pre post : List (StructField × GoValue)) (fieldDef : StructField)
    (fieldVal fv1 : GoValue) (fieldCfg : FieldConfig) (n : Nat)
    (hpre : (bindFields ext u true keyMap pre).2 = .ok ())
    (htag : parseStructTag (fieldDef.TagGet TagName) = .ok fieldCfg)
    (hreq : fieldCfg.Required = true) :
    (rawIsNil (rawLookup ext u fieldDef keyMap) = false →
      valueLen (derefValue fieldVal) = .ok n →
      ((bindField ext u true keyMap fieldDef fieldVal).2 =
          .error (ascii "required field " ++ fieldDef.Name ++ ascii " is empty") ↔ n = 0) ∧
      (n = 0 →
        (processTags ext u (some (.ptr (.struct (pre ++ (fieldDef, fieldVal) :: post))))
            keyMap).2 =
          .error (ascii "required field " ++ fieldDef.Name ++ ascii " is empty"))) ∧
    (rawIsNil (rawLookup ext u fieldDef keyMap) = true →
      effectiveLiteral ext fieldCfg ≠ [] →
      ext.yamlUnmarshal (effectiveLiteral ext fieldCfg) fieldVal = (fv1, none) →
      kindOf (derefValue fieldVal) = .String ∨ kindOf (derefValue fieldVal) = .Slice →
      valueLen (derefAfter fieldVal fv1) = .ok n →
      ((bindField ext u true keyMap fieldDef fieldVal).2 =
          .error (ascii "required field " ++ fieldDef.Name ++ ascii " is empty") ↔ n = 0) ∧
      (n = 0 →
        (processTags ext u (some (.ptr (.struct (pre ++ (fieldDef, fieldVal) :: post))))
            keyMap).2 =
          .error (ascii "required field " ++ fieldDef.Name ++ ascii " is empty"))) := by
  refine ⟨?_, ?_⟩
  · intro hraw hlen
    have hiff := bindField_empty_present ext u true keyMap fieldDef fieldVal fieldCfg n htag
      hreq hraw hlen
    refine ⟨hiff, fun h0 => ?_⟩
    have hb := hiff.2 h0
    have hb2 : bindField ext u true keyMap fieldDef fieldVal =
        ((bindField ext u true keyMap fieldDef fieldVal).1,
          .error (ascii "required field " ++ fieldDef.Name ++ ascii " is empty")) :=
      Prod.ext rfl hb
    rw [processTags_stop_at ext u keyMap pre post fieldDef fieldVal
      (bindField ext u true keyMap fieldDef fieldVal).1
      (.error (ascii "required field " ++ fieldDef.Name ++ ascii " is empty")) hpre hb2
      (by simp)]
  · intro hraw hlit hyaml hkind hlen
    have hk : kindOf (derefValue fieldVal) ≠ .Struct := by
      rcases hkind with h | h <;> rw [h] <;> simp
    have hbf := bindField_applied ext u keyMap fieldDef fieldVal fv1 fieldCfg htag hraw hlit hk
      hyaml
    have hiff := afterDefault_empty fieldDef fieldCfg _ _ n hreq hkind hlen
    refine ⟨by rw [hbf]; exact hiff, fun h0 => ?_⟩
    rw [processTags_stop_at ext u keyMap pre post fieldDef fieldVal fv1
      (.error (ascii "required field " ++ fieldDef.Name ++ ascii " is empty")) hpre
      (hbf.trans (Prod.ext rfl (hiff.2 h0))) (by simp)]

theorem required_empty_witness :
    (processTags (sampleExt []) sampleJSON
        (some (.ptr (.struct (testRequiredCfg false 0 [] false []))))
        [(ascii "bool", .bool false), (ascii "int", .num 0), (ascii "string", .str [])]).2 =
      .error (ascii "required field String is empty") ∧
    (sampleExt []).yamlUnmarshal [34, 34] (.str (ascii "old")) = (.str [], none) ∧
    (processTags (sampleExt []) sampleJSON
        (some (.ptr (.struct [(configField "S" "required,default=\"\"", .str (ascii "old"))])))
        []).2 =
      .error (ascii "required field S is empty") :=
  ⟨((required_empty (sampleExt []) sampleJSON
      [(ascii "bool", .bool false), (ascii "int", .num 0), (ascii "string", .str [])]
      [(configField "Bool" "required", .bool false), (configField "Int" "required", .int 0)]
      [(configField "Nested" "required", .struct [(configField "Bool" "required", .bool false)]),
       (configField "Array" "required", .slice .Int [])]
      (configField "String" "required") (.str []) (.str [])
      { Required := true, Default := [], Env := [], Defined := true } 0
      (by decide) (by decide) rfl).1 rfl rfl).2 rfl,
   rfl,
   ((required_empty (sampleExt []) sampleJSON [] [] []
      (configField "S" "required,default=\"\"") (.str (ascii "old")) (.str [])
      { Required := true, Default := [34, 34], Env := [], Defined := true } 0
      (by decide) (by decide) rfl).2 rfl (by decide) rfl (Or.inl rfl) rfl).2 rfl⟩

/-- C9: the emptiness check is not made on a field that is a nil pointer when a default
or env literal is applied. `derefFieldValKind` is computed at lines 51 to 56, before the
literal is decoded into the field at lines 64 and 69; for a nil pointer it is the kind
of the zero `reflect.Value`, so the checks of lines 84 to 95 are skipped. For every
field that is a nil pointer, required or not, absent from the key map or null there,
with a non-empty default or env literal that the decoder accepts, the loop body and
processTags return no error, whatever the decoder has put into the field (a pointer to
an empty string or to an empty sequence included). -/
theorem required_empty_nil_pointer (ext : Externals) (u : Unmarshaller) (keyMap : KeyMap)
    (fieldDef : StructField) (fieldCfg : FieldConfig) (elem : Kind) (fv1 : GoValue)
    (htag : parseStructTag (fieldDef.TagGet TagName) = .ok fieldCfg)
    (hraw : rawIsNil (rawLookup ext u fieldDef keyMap) = true)
    (hlit : effectiveLiteral ext fieldCfg ≠ [])
    (hyaml : ext.yamlUnmarshal (effectiveLiteral ext fieldCfg) (.nilPtr elem) = (fv1, none)) :
    bindField ext u true keyMap fieldDef (.nilPtr elem) = (fv1, .ok ()) ∧
    processTags ext u (some (.ptr (.struct [(fieldDef, .nilPtr elem)]))) keyMap =
      (some (.ptr (.struct [(fieldDef, fv1)])), .ok ()) := by
  have hk : kindOf (derefValue (.nilPtr elem)) ≠ .Struct := by simp [derefValue, kindOf]
  have hb : bindField ext u true keyMap fieldDef (.nilPtr elem) = (fv1, .ok ()) := by
    rw [bindField_applied ext u keyMap fieldDef (.nilPtr elem) fv1 fieldCfg htag hraw hlit hk
      hyaml]
    simp [derefValue, kindOf, derefAfter, afterDefault]
  refine ⟨hb, ?_⟩
  have hf : bindFields ext u true keyMap [(fieldDef, .nilPtr elem)] =
      ([(fieldDef, fv1)], .ok ()) := by
    rw [bindFields_cons_ok ext u true keyMap fieldDef (.nilPtr elem) fv1 [] hb]
    simp [bindFields_nil]
  simp [processTags, bindValue, hf]

theorem required_empty_nil_pointer_witness :
    parseStructTag ((configField "P" "required,default=\"\"").TagGet TagName) =
      .ok { Required := true, Default := [34, 34], Env := [], Defined := true } ∧
    (sampleExt []).yamlUnmarshal [34, 34] (.nilPtr .String) = (.ptr (.str []), none) ∧
    (bindField (sampleExt []) sampleJSON true [] (configField "P" "required,default=\"\"")
        (.nilPtr .String) = (.ptr (.str []), .ok ()) ∧
      processTags (sampleExt []) sampleJSON
          (some (.ptr (.struct [(configField "P" "required,default=\"\"", .nilPtr .String)])))
          [] =
        (some (.ptr (.struct [(configField "P" "required,default=\"\"", .ptr (.str []))])),
          .ok ())) ∧
    (processTags (sampleExt []) sampleJSON
        (some (.ptr (.struct [(configField "P" "required,default=\"\"", .str [])]))) []).2 =
      .error (ascii "required field P is empty") :=
  ⟨by decide, rfl,
    required_empty_nil_pointer (sampleExt []) sampleJSON [] (configField "P" "required,default=\"\"")
      { Required := true, Default := [34, 34], Env := [], Defined := true } .String
      (.ptr (.str [])) (by decide) rfl (by decide) rfl,
    by decide⟩

/-! ## Theorems: defaults -/

/-- Where the loop stores the field it has just processed. -/
theorem bindFields_get_at (ext : Externals) (u : Unmarshaller) (addressable : Bool)
    (keyMap : KeyMap) (pre post : List (StructField × GoValue)) (fieldDef : StructField)
    (fieldVal : GoValue) (hpre : (bindFields ext u addressable keyMap pre).2 = .ok ()) :
    (bindFields ext u addressable keyMap (pre ++ (fieldDef, fieldVal) :: post)).1.get?
        pre.length =
      some (fieldDef, (bindField ext u addressable keyMap fieldDef fieldVal).1) := by
  rw [bindFields_append _ _ _ _ _ _ hpre]
  have hlen := bindFields_length ext u addressable keyMap pre
  rw [show pre.length = (bindFields ext u addressable keyMap pre).1.length + 0 by omega]
  simp only [List.get?_eq_getElem?, List.getElem?_append_right (Nat.le_add_right _ _),
    Nat.add_sub_cancel_left]
  rw [bindFields_cons]
  rcases hb : bindField ext u addressable keyMap fieldDef fieldVal with ⟨fv, r⟩
  cases r <;> simp

/-- Lines 84 to 123 leave a field unchanged unless it is a struct or a slice of structs
(behind any pointers). -/
theorem bindDeref_fst (ext : Externals) (u : Unmarshaller) (fieldDef : StructField)
    (fieldCfg : FieldConfig) (raw : Option Generic) :
    ∀ (fieldVal : GoValue) (addressable : Bool), kindOf (derefValue fieldVal) ≠ .Struct →
      elemKindOf (derefValue fieldVal) ≠ .Struct →
      (bindDeref ext u fieldDef fieldCfg raw addressable fieldVal).1 = fieldVal
  | .ptr p, _, h1, h2 => by
    simp only [derefValue] at h1 h2
    simp only [bindDeref, bindDeref_fst ext u fieldDef fieldCfg raw p true h1 h2]
  | .str t, _, _, _ => by simp only [bindDeref]; split <;> rfl
  | .slice k elems, _, _, h2 => by
    simp only [derefValue, elemKindOf] at h2
    simp only [bindDeref, h2, ne_eq, not_false_eq_true, if_true]
    split <;> rfl
  | .struct _, _, h1, _ => by simp [derefValue, kindOf, GoValue.Kind] at h1
  | .bool _, _, _, _ | .int _, _, _, _ | .uint _, _, _, _ | .float _, _, _, _
  | .nilPtr _, _, _, _ | .nilIface, _, _, _ | .iface _, _, _, _ => by simp [bindDeref]

/-- C10 (as stated, refuted): a field of slice kind with a non-empty default literal whose
key is present with a non-null value does not keep its value when its elements are
structs: the default of the element field is applied. -/
theorem default_applied_counterexample :
    kindOf (derefValue (.slice .Struct [.struct [(configField "String" "default=nested",
      .str [])]])) = .Slice ∧
    parseStructTag ((configField "Items" "default=[]").TagGet TagName) =
      .ok { Required := false, Default := ascii "[]", Env := [], Defined := true } ∧
    rawLookup (sampleExt []) sampleJSON (configField "Items" "default=[]")
      [(ascii "items", .seq [.map []])] = some (.seq [.map []]) ∧
    processTags (sampleExt []) sampleJSON
      (some (.ptr (.struct [(configField "Items" "default=[]",
        .slice .Struct [.struct [(configField "String" "default=nested", .str [])]])])))
      [(ascii "items", .seq [.map []])] =
    (some (.ptr (.struct [(configField "Items" "default=[]",
        .slice .Struct [.struct [(configField "String" "default=nested",
          .str (ascii "nested"))]])])), .ok ()) := by
  refine ⟨rfl, by decide, rfl, rfl⟩

/-- C10 (amended): a default is applied exactly when the input lacks the value. For a
field of non-structure kind with a non-empty default literal d, in a struct whose
preceding fields bind without error: if the key is absent or null, no env override
applies and d decodes without error, processTags leaves in the field the value decoded
from d; if the key is present with a non-null value, the loop body does nothing but the
checks and recursion of lines 84 to 123 (no literal is decoded), and a field that is not
a sequence of structures keeps the value it had before the call. -/
theorem default_applied (ext : Externals) (u : Unmarshaller) (keyMap : KeyMap)
    (pre post : List (StructField × GoValue)) (fieldDef : StructField)
    (fieldVal fv1 : GoValue) (fieldCfg : FieldConfig)
    (hpre : (bindFields ext u true keyMap pre).2 = .ok ())
    (htag : parseStructTag (fieldDef.TagGet TagName) = .ok fieldCfg)
    (hdef : fieldCfg.Default ≠ [])
    (hkind : kindOf (derefValue fieldVal) ≠ .Struct) :
    (rawIsNil (rawLookup ext u fieldDef keyMap) = true → envOverrideOf ext fieldCfg = [] →
      ext.yamlUnmarshal fieldCfg.Default fieldVal = (fv1, none) →
      ∃ fields1,
        (processTags ext u (some (.ptr (.struct (pre ++ (fieldDef, fieldVal) :: post))))
          keyMap).1 = some (.ptr (.struct fields1)) ∧
        fields1.get? pre.length = some (fieldDef, fv1)) ∧
    (rawIsNil (rawLookup ext u fieldDef keyMap) = false →
      bindField ext u true keyMap fieldDef fieldVal =
        bindDeref ext u fieldDef fieldCfg (rawLookup ext u fieldDef keyMap) true fieldVal ∧
      (elemKindOf (derefValue fieldVal) ≠ .Struct →
        ∃ fields1,
          (processTags ext u (some (.ptr (.struct (pre ++ (fieldDef, fieldVal) :: post))))
            keyMap).1 = some (.ptr (.struct fields1)) ∧
          fields1.get? pre.length = some (fieldDef, fieldVal))) := by
  refine ⟨?_, ?_⟩
  · intro hraw henv hyaml
    refine ⟨_, by rw [processTags_ptr_struct], ?_⟩
    rw [bindFields_get_at ext u true keyMap pre post fieldDef fieldVal hpre]
    have hlit : effectiveLiteral ext fieldCfg = fieldCfg.Default := by
      simp [effectiveLiteral, henv]
    rw [bindField_applied ext u keyMap fieldDef fieldVal fv1 fieldCfg htag hraw
      (by rw [hlit]; exact hdef) hkind (by rw [hlit]; exact hyaml)]
  · intro hraw
    have hb := bindField_present ext u true keyMap fieldDef fieldVal fieldCfg htag hraw hkind
    refine ⟨hb, fun helem => ⟨_, by rw [processTags_ptr_struct], ?_⟩⟩
    rw [bindFields_get_at ext u true keyMap pre post fieldDef fieldVal hpre, hb,
      bindDeref_fst ext u fieldDef fieldCfg _ fieldVal true hkind helem]

theorem default_applied_witness :
    (∃ fields1,
      (processTags (sampleExt []) sampleJSON
        (some (.ptr (.struct ([(configField "Bool" "default=true", .bool false),
          (configField "PtrBool" "default=true", .nilPtr .Bool)] ++
          (configField "Int" "default=9", .int 0) :: [])))) []).1 =
        some (.ptr (.struct fields1)) ∧
      fields1.get? 2 = some (configField "Int" "default=9", .int 9)) ∧
    (∃ fields1,
      (processTags (sampleExt []) sampleJSON
        (some (.ptr (.struct ([(configField "Bool" "default=true", .bool false)] ++
          (configField "PtrBool" "default=true", .nilPtr .Bool) ::
          [(configField "Int" "default=9", .int 0)])))) []).1 =
        some (.ptr (.struct fields1)) ∧
      fields1.get? 1 = some (configField "PtrBool" "default=true", .ptr (.bool true))) ∧
    (∃ fields1,
      (processTags (sampleExt [(ascii "CONFIGURER_TEST_ENV_VAR", ascii "x")]) sampleJSON
        (some (.ptr (.struct ([] ++
          (configField "String" "default=set from default,env=CONFIGURER_TEST_ENV_VAR",
            .str (ascii "set in config")) :: []))))
        [(ascii "string", .str (ascii "set in config"))]).1 =
        some (.ptr (.struct fields1)) ∧
      fields1.get? 0 =
        some (configField "String" "default=set from default,env=CONFIGURER_TEST_ENV_VAR",
          .str (ascii "set in config"))) :=
  ⟨(default_applied (sampleExt []) sampleJSON []
      [(configField "Bool" "default=true", .bool false),
        (configField "PtrBool" "default=true", .nilPtr .Bool)] []
      (configField "Int" "default=9") (.int 0) (.int 9)
      { Required := false, Default := ascii "9", Env := [], Defined := true }
      (by decide) (by decide) (by decide) (by decide)).1 rfl rfl rfl,
   (default_applied (sampleExt []) sampleJSON []
      [(configField "Bool" "default=true", .bool false)]
      [(configField "Int" "default=9", .int 0)]
      (configField "PtrBool" "default=true") (.nilPtr .Bool) (.ptr (.bool true))
      { Required := false, Default := ascii "true", Env := [], Defined := true }
      (by decide) (by decide) (by decide) (by decide)).1 rfl rfl rfl,
   ((default_applied (sampleExt [(ascii "CONFIGURER_TEST_ENV_VAR", ascii "x")]) sampleJSON
      [(ascii "string", .str (ascii "set in config"))] [] []
      (configField "String" "default=set from default,env=CONFIGURER_TEST_ENV_VAR")
      (.str (ascii "set in config")) (.str [])
      { Required := false, Default := ascii "set from default",
        Env := ascii "CONFIGURER_TEST_ENV_VAR", Defined := true }
      (by decide) (by decide) (by decide) (by decide)).2 rfl).2 (by decide)⟩

/-! ## Theorems: environment overrides -/

/-- The field in which a literal has been decoded holds the decoded value after the call. -/
theorem processTags_field_applied (ext : Externals) (u : Unmarshaller) (keyMap : KeyMap)
    (pre post : List (StructField × GoValue)) (fieldDef : StructField)
    (fieldVal fv1 : GoValue) (fieldCfg : FieldConfig)
    (hpre : (bindFields ext u true keyMap pre).2 = .ok ())
    (htag : parseStructTag (fieldDef.TagGet TagName) = .ok fieldCfg)
    (hraw : rawIsNil (rawLookup ext u fieldDef keyMap) = true)
    (hlit : effectiveLiteral ext fieldCfg ≠ [])
    (hkind : kindOf (derefValue fieldVal) ≠ .Struct)
    (hyaml : ext.yamlUnmarshal (effectiveLiteral ext fieldCfg) fieldVal = (fv1, none)) :
    ∃ fields1,
      (processTags ext u (some (.ptr (.struct (pre ++ (fieldDef, fieldVal) :: post))))
        keyMap).1 = some (.ptr (.struct fields1)) ∧
      fields1.get? pre.length = some (fieldDef, fv1) := by
  refine ⟨_, by rw [processTags_ptr_struct], ?_⟩
  rw [bindFields_get_at ext u true keyMap pre post fieldDef fieldVal hpre,
    bindField_applied ext u keyMap fieldDef fieldVal fv1 fieldCfg htag hraw hlit hkind hyaml]

theorem envOverrideOf_lookup (ext : Externals) (fieldCfg : FieldConfig) (val : GoString)
    (hname : fieldCfg.Env ≠ []) (hlookup : ext.LookupEnv fieldCfg.Env = some val) :
    envOverrideOf ext fieldCfg = val := by
  simp [envOverrideOf, hname, hlookup]

/-- C11 (as stated, refuted): with the variable defined as the empty string and the key
absent, the field is assigned the static default, not the value of the variable. -/
theorem env_override_counterexample :
    (sampleExt [(ascii "E", [])]).LookupEnv (ascii "E") = some [] ∧
    parseStructTag ((configField "String" "default=fallback,env=E").TagGet TagName) =
      .ok { Required := false, Default := ascii "fallback", Env := ascii "E", Defined := true } ∧
    processTags (sampleExt [(ascii "E", [])]) sampleJSON
      (some (.ptr (.struct [(configField "String" "default=fallback,env=E", .str [])]))) [] =
    (some (.ptr (.struct [(configField "String" "default=fallback,env=E",
      .str (ascii "fallback"))])), .ok ()) := by
  refine ⟨rfl, by decide, rfl⟩

/-- C11 (amended): the environment override beats the static default when its value is
not empty. For a field of non-structure kind whose directive names the variable E, whose
key is absent or null, in a struct whose preceding fields bind without error: when E is
defined with a non-empty value that decodes without error, the field holds the value
decoded from E after the call (the static default plays no part); when E is defined as
the empty string, a non-empty static default that decodes without error is what the
field holds after the call. -/
theorem env_override_beats_default (ext : Externals) (u : Unmarshaller) (keyMap : KeyMap)
    (pre post : List (StructField × GoValue)) (fieldDef : StructField)
    (fieldVal fv1 : GoValue) (fieldCfg : FieldConfig) (val : GoString)
    (hpre : (bindFields ext u true keyMap pre).2 = .ok ())
    (htag : parseStructTag (fieldDef.TagGet TagName) = .ok fieldCfg)
    (hname : fieldCfg.Env ≠ [])
    (hlookup : ext.LookupEnv fieldCfg.Env = some val)
    (hkind : kindOf (derefValue fieldVal) ≠ .Struct)
    (hraw : rawIsNil (rawLookup ext u fieldDef keyMap) = true) :
    (val ≠ [] → ext.yamlUnmarshal val fieldVal = (fv1, none) →
      ∃ fields1,
        (processTags ext u (some (.ptr (.struct (pre ++ (fieldDef, fieldVal) :: post))))
          keyMap).1 = some (.ptr (.struct fields1)) ∧
        fields1.get? pre.length = some (fieldDef, fv1)) ∧
    (val = [] → fieldCfg.Default ≠ [] →
      ext.yamlUnmarshal fieldCfg.Default fieldVal = (fv1, none) →
      ∃ fields1,
        (processTags ext u (some (.ptr (.struct (pre ++ (fieldDef, fieldVal) :: post))))
          keyMap).1 = some (.ptr (.struct fields1)) ∧
        fields1.get? pre.length = some (fieldDef, fv1)) := by
  have henv := envOverrideOf_lookup ext fieldCfg val hname hlookup
  refine ⟨?_, ?_⟩
  · intro hval hyaml
    have hlit : effectiveLiteral ext fieldCfg = val := by
      simp [effectiveLiteral, henv, hval]
    exact processTags_field_applied ext u keyMap pre post fieldDef fieldVal fv1 fieldCfg hpre
      htag hraw (by rw [hlit]; exact hval) hkind (by rw [hlit]; exact hyaml)
  · intro hval hdef hyaml
    have hlit : effectiveLiteral ext fieldCfg = fieldCfg.Default := by
      simp [effectiveLiteral, henv, hval]
    exact processTags_field_applied ext u keyMap pre post fieldDef fieldVal fv1 fieldCfg hpre
      htag hraw (by rw [hlit]; exact hdef) hkind (by rw [hlit]; exact hyaml)

theorem env_override_beats_default_witness :
    (∃ fields1,
      (processTags (sampleExt [(ascii "E", ascii "fromenv")]) sampleJSON
        (some (.ptr (.struct ([] ++
          (configField "String" "default=fallback,env=E", .str []) :: [])))) []).1 =
        some (.ptr (.struct fields1)) ∧
      fields1.get? 0 =
        some (configField "String" "default=fallback,env=E", .str (ascii "fromenv"))) ∧
    (∃ fields1,
      (processTags (sampleExt [(ascii "E", [])]) sampleJSON
        (some (.ptr (.struct ([] ++
          (configField "String" "default=fallback,env=E", .str []) :: [])))) []).1 =
        some (.ptr (.struct fields1)) ∧
      fields1.get? 0 =
        some (configField "String" "default=fallback,env=E", .str (ascii "fallback"))) :=
  ⟨(env_override_beats_default (sampleExt [(ascii "E", ascii "fromenv")]) sampleJSON [] [] []
      (configField "String" "default=fallback,env=E") (.str []) (.str (ascii "fromenv"))
      { Required := false, Default := ascii "fallback", Env := ascii "E", Defined := true }
      (ascii "fromenv") (by decide) (by decide) (by decide) rfl (by decide) rfl).1
      (by decide) rfl,
   (env_override_beats_default (sampleExt [(ascii "E", [])]) sampleJSON [] [] []
      (configField "String" "default=fallback,env=E") (.str []) (.str (ascii "fallback"))
      { Required := false, Default := ascii "fallback", Env := ascii "E", Defined := true }
      [] (by decide) (by decide) (by decide) rfl (by decide) rfl).2 rfl (by decide) rfl⟩

/-! ## Theorems: defaults on structure fields -/

theorem bindField_struct_default (ext : Externals) (u : Unmarshaller) (addressable : Bool)
    (keyMap : KeyMap) (fieldDef : StructField) (fieldVal : GoValue) (fieldCfg : FieldConfig)
    (htag : parseStructTag (fieldDef.TagGet TagName) = .ok fieldCfg)
    (hkind : kindOf (derefValue fieldVal) = .Struct)
    (hdef : fieldCfg.Default ≠ [] ∨ envOverrideOf ext fieldCfg ≠ []) :
    bindField ext u addressable keyMap fieldDef fieldVal =
      (fieldVal, .error (ascii "struct field " ++ fieldDef.Name ++
        ascii " cannot have a default defined")) := by
  have hd : envOverrideOf ext fieldCfg ≠ [] ∨ fieldCfg.Default ≠ [] := hdef.symm
  simp only [bindField, fieldPrelude, htag]
  rw [if_pos ⟨hd, hkind⟩]

/-- C12 (as stated, refuted): a struct field whose directive names an environment
variable that is not set is bound without error; and for a nil pointer to a struct
with a non-empty default the guard does not fire (the outcome is not its error). -/
theorem struct_default_counterexample :
    parseStructTag ((configField "Nested" "env=HOME").TagGet TagName) =
      .ok { Required := false, Default := [], Env := ascii "HOME", Defined := true } ∧
    (sampleExt []).LookupEnv (ascii "HOME") = none ∧
    (processTags (sampleExt []) sampleJSON
      (some (.ptr (.struct [(configField "Nested" "env=HOME",
        .struct [(configField "Bool" "", .bool false)])]))) []).2 = .ok () ∧
    parseStructTag ((configField "P" "default=x").TagGet TagName) =
      .ok { Required := false, Default := ascii "x", Env := [], Defined := true } ∧
    (processTags (sampleExt []) sampleJSON
      (some (.ptr (.struct [(configField "P" "default=x", .nilPtr .Struct)])))
      [(ascii "p", .map [])]).2 = .ok () ∧
    (processTags (sampleExt []) sampleJSON
      (some (.ptr (.struct [(configField "P" "default=x", .nilPtr .Struct)]))) []).2 ≠
      .error (ascii "struct field P cannot have a default defined") := by
  refine ⟨by decide, rfl, by decide, by decide, by decide, by decide⟩

/-- C12 (amended): defaults and env overrides are forbidden on structure fields. For a
field whose value, behind its non-nil pointers, is a struct, in a struct whose preceding
fields bind without error: if the directive carries a non-empty default, or names an
environment variable whose value is not empty, processTags fails with "struct field
NAME cannot have a default defined", whatever the key map contains. -/
theorem struct_default_forbidden (ext : Externals) (u : Unmarshaller) (keyMap : KeyMap)
    (pre post : List (StructField × GoValue)) (fieldDef : StructField) (fieldVal : GoValue)
    (fields : List (StructField × GoValue)) (fieldCfg : FieldConfig)
    (hpre : (bindFields ext u true keyMap pre).2 = .ok ())
    (htag : parseStructTag (fieldDef.TagGet TagName) = .ok fieldCfg)
    (hderef : derefValue fieldVal = some (.struct fields))
    (hdef : fieldCfg.Default ≠ [] ∨ envOverrideOf ext fieldCfg ≠ []) :
    (processTags ext u (some (.ptr (.struct (pre ++ (fieldDef, fieldVal) :: post)))) keyMap).2 =
      .error (ascii "struct field " ++ fieldDef.Name ++ ascii " cannot have a default defined") := by
  rw [processTags_stop_at ext u keyMap pre post fieldDef fieldVal fieldVal _ hpre
    (bindField_struct_default ext u true keyMap fieldDef fieldVal fieldCfg htag
      (by rw [hderef]; rfl) hdef) (by simp)]

theorem struct_default_forbidden_witness :
    (processTags (sampleExt [(ascii "HOME", ascii "x")]) sampleJSON
      (some (.ptr (.struct ([(configField "Bool" "", .bool false)] ++
        (configField "Nested" "env=HOME",
          .ptr (.struct [(configField "Bool" "", .bool false)])) :: []))))
      [(ascii "nested", .map [])]).2 =
      .error (ascii "struct field Nested cannot have a default defined") :=
  struct_default_forbidden (sampleExt [(ascii "HOME", ascii "x")]) sampleJSON
    [(ascii "nested", .map [])] [(configField "Bool" "", .bool false)] []
    (configField "Nested" "env=HOME") (.ptr (.struct [(configField "Bool" "", .bool false)]))
    [(configField "Bool" "", .bool false)]
    { Required := false, Default := [], Env := ascii "HOME", Defined := true }
    (by decide) (by decide) rfl (Or.inr (by decide))

/-! ## Theorems: nested structures -/

/-- Lines 112 to 118 on a struct (behind any pointers) whose raw value is nil: the
nested struct is bound against an empty key map and its error is wrapped. -/
theorem bindDeref_of_struct_nil (ext : Externals) (u : Unmarshaller) (fieldDef : StructField)
    (fieldCfg : FieldConfig) (raw : Option Generic) (fields : List (StructField × GoValue))
    (hraw : rawIsNil raw = true) :
    ∀ (fieldVal : GoValue), derefValue fieldVal = some (.struct fields) →
      (bindDeref ext u fieldDef fieldCfg raw true fieldVal).2 =
        (match (bindFields ext u true [] fields).2 with
          | .error err => .error (wrap err (ascii "error processing field " ++ fieldDef.Name))
          | other => other) ∧
      derefValue (bindDeref ext u fieldDef fieldCfg raw true fieldVal).1 =
        some (.struct (bindFields ext u true [] fields).1)
  | .ptr p, h => by
    simp only [derefValue] at h
    simp only [bindDeref, derefValue]
    exact bindDeref_of_struct_nil ext u fieldDef fieldCfg raw fields hraw p h
  | .struct f, h => by
    simp only [derefValue, Option.some.injEq, GoValue.struct.injEq] at h
    subst h
    cases raw with
    | none => simp [bindDeref, derefValue]
    | some g =>
      cases g with
      | null => simp [bindDeref, derefValue]
      | bool _ => simp [rawIsNil] at hraw
      | num _ => simp [rawIsNil] at hraw
      | str _ => simp [rawIsNil] at hraw
      | map _ => simp [rawIsNil] at hraw
      | seq _ => simp [rawIsNil] at hraw
      | mapSlice _ => simp [rawIsNil] at hraw
  | .bool _, h | .int _, h | .uint _, h | .float _, h | .nilPtr _, h
  | .slice _ _, h | .str _, h | .nilIface, h | .iface _, h => by
    simp [derefValue] at h

/-- Without default and env override, a field that is not required goes on to lines 84
to 123 whatever its raw value is. -/
theorem bindField_plain (ext : Externals) (u : Unmarshaller) (addressable : Bool)
    (keyMap : KeyMap) (fieldDef : StructField) (fieldVal : GoValue) (fieldCfg : FieldConfig)
    (htag : parseStructTag (fieldDef.TagGet TagName) = .ok fieldCfg)
    (hreq : fieldCfg.Required = false) (hdef : fieldCfg.Default = [])
    (henv : envOverrideOf ext fieldCfg = []) :
    bindField ext u addressable keyMap fieldDef fieldVal =
      bindDeref ext u fieldDef fieldCfg (rawLookup ext u fieldDef keyMap) addressable fieldVal := by
  simp [bindField, fieldPrelude, htag, hreq, hdef, henv]

/-- C13 (as stated, refuted): a non-required struct field with a default whose key is
absent is rejected by the guard of line 57, although processTags on the nested struct
with an empty key map succeeds. -/
theorem absent_struct_counterexample :
    parseStructTag ((configField "Nested" "default=x").TagGet TagName) =
      .ok { Required := false, Default := ascii "x", Env := [], Defined := true } ∧
    (processTags (sampleExt []) sampleJSON
      (some (.ptr (.struct [(configField "Nested" "default=x",
        .struct [(configField "Bool" "", .bool false)])]))) []).2 =
      .error (ascii "struct field Nested cannot have a default defined") ∧
    (processTags (sampleExt []) sampleJSON
      (some (.ptr (.struct [(configField "Bool" "", .bool false)]))) []).2 = .ok () := by
  refine ⟨by decide, by decide, by decide⟩

/-- C13 (amended): absent nested structures are still bound. For a non-required field
without default and env override whose value, behind its non-nil pointers, is a struct
and whose key is absent or null, in a struct whose preceding fields bind without error:
the loop body ends as processTags on the nested struct with an empty key map ends, an
error being wrapped with "error processing field NAME"; the nested struct is left as
that call leaves it (sub-field defaults applied); and an error of the nested call makes
processTags return the wrapped error. -/
theorem absent_struct_bound (ext : Externals) (u : Unmarshaller) (keyMap : KeyMap)
    (pre post : List (StructField × GoValue)) (fieldDef : StructField) (fieldVal : GoValue)
    (fields : List (StructField × GoValue)) (fieldCfg : FieldConfig)
    (hpre : (bindFields ext u true keyMap pre).2 = .ok ())
    (htag : parseStructTag (fieldDef.TagGet TagName) = .ok fieldCfg)
    (hreq : fieldCfg.Required = false) (hdef : fieldCfg.Default = [])
    (henv : envOverrideOf ext fieldCfg = [])
    (hderef : derefValue fieldVal = some (.struct fields))
    (hraw : rawIsNil (rawLookup ext u fieldDef keyMap) = true) :
    (bindField ext u true keyMap fieldDef fieldVal).2 =
      (match (processTags ext u (some (.ptr (.struct fields))) []).2 with
        | .error err =>
          .error (ascii "error processing field " ++ fieldDef.Name ++ ascii ": " ++ err)
        | other => other) ∧
    (∃ fields1,
      (processTags ext u (some (.ptr (.struct fields))) []).1 = some (.ptr (.struct fields1)) ∧
      derefValue (bindField ext u true keyMap fieldDef fieldVal).1 = some (.struct fields1)) ∧
    (∀ err, (processTags ext u (some (.ptr (.struct fields))) []).2 = .error err →
      (processTags ext u (some (.ptr (.struct (pre ++ (fieldDef, fieldVal) :: post))))
        keyMap).2 =
        .error (ascii "error processing field " ++ fieldDef.Name ++ ascii ": " ++ err)) := by
  have hb := bindField_plain ext u true keyMap fieldDef fieldVal fieldCfg htag hreq hdef henv
  obtain ⟨h2, h1⟩ := bindDeref_of_struct_nil ext u fieldDef fieldCfg _ fields hraw fieldVal hderef
  rw [← hb] at h1 h2
  have hres : (bindField ext u true keyMap fieldDef fieldVal).2 =
      (match (processTags ext u (some (.ptr (.struct fields))) []).2 with
        | .error err =>
          .error (ascii "error processing field " ++ fieldDef.Name ++ ascii ": " ++ err)
        | other => other) := by
    rw [h2, processTags_ptr_struct]
    cases (bindFields ext u true [] fields).2 <;> simp [wrap]
  refine ⟨hres, ⟨_, by rw [processTags_ptr_struct], h1⟩, ?_⟩
  intro err herr
  rw [herr] at hres
  rw [processTags_stop_at ext u keyMap pre post fieldDef fieldVal
    (bindField ext u true keyMap fieldDef fieldVal).1
    (.error (ascii "error processing field " ++ fieldDef.Name ++ ascii ": " ++ err)) hpre
    (Prod.ext rfl hres) (by simp)]

theorem absent_struct_bound_witness :
    (processTags (sampleExt []) sampleJSON
      (some (.ptr (.struct ([(configField "Int" "default=9", .int 0)] ++
        (configField "Nested" "", .struct [(configField "Bool" "required", .bool false)])
          :: [])))) []).2 =
      .error (ascii "error processing field Nested: required field Bool not found") ∧
    (∃ fields1,
      (processTags (sampleExt []) sampleJSON
        (some (.ptr (.struct [(configField "Bool" "default=true", .bool false)]))) []).1 =
        some (.ptr (.struct fields1)) ∧
      derefValue (bindField (sampleExt []) sampleJSON true []
        (configField "Nested" "") (.struct [(configField "Bool" "default=true", .bool false)])).1 =
        some (.struct fields1)) ∧
    derefValue (bindField (sampleExt []) sampleJSON true []
        (configField "Nested" "") (.struct [(configField "Bool" "default=true", .bool false)])).1 =
      some (.struct [(configField "Bool" "default=true", .bool true)]) :=
  ⟨(absent_struct_bound (sampleExt []) sampleJSON [] [(configField "Int" "default=9", .int 0)] []
      (configField "Nested" "") (.struct [(configField "Bool" "required", .bool false)])
      [(configField "Bool" "required", .bool false)]
      { Required := false, Default := [], Env := [], Defined := false }
      (by decide) (by decide) rfl rfl rfl rfl rfl).2.2
      (ascii "required field Bool not found") (by decide),
   (absent_struct_bound (sampleExt []) sampleJSON [] [] []
      (configField "Nested" "") (.struct [(configField "Bool" "default=true", .bool false)])
      [(configField "Bool" "default=true", .bool false)]
      { Required := false, Default := [], Env := [], Defined := false }
      (by decide) (by decide) rfl rfl rfl rfl rfl).2.1,
   rfl⟩

/-! ## Theorems: sequences of structures -/

theorem indexRaw_seq_at (pre : List Generic) (m : KeyMap) (rest : List Generic) :
    indexRaw (some (.seq (pre ++ Generic.map m :: rest))) pre.length = .ok m := by
  have h : (pre ++ Generic.map m :: rest).get? pre.length = some (Generic.map m) := by
    rw [List.get?_eq_getElem?, List.getElem?_append_right (le_refl _)]
    simp
  simp only [indexRaw, h]

/-- The loop over the elements, run from index `pre.length` on a raw sequence whose
entries from that index on are the mappings `maps`: it succeeds exactly when every
element binds without error against the entry of its index, it returns the wrapped
error of the first element that fails, and on success it leaves every element as its
own binding leaves it. -/
theorem bindElems_maps (ext : Externals) (u : Unmarshaller) (fieldDef : StructField) :
    ∀ (elems : List GoValue) (pre : List Generic) (maps : List KeyMap),
      maps.length = elems.length →
      ((bindElems ext u fieldDef (some (.seq (pre ++ maps.map Generic.map))) pre.length
          elems).2 = .ok () ↔
        ∀ i e m, elems.get? i = some e → maps.get? i = some m →
          (bindValue ext u true m e).2 = .ok ()) ∧
      (∀ i e m err, elems.get? i = some e → maps.get? i = some m →
        (∀ j e2 m2, j < i → elems.get? j = some e2 → maps.get? j = some m2 →
          (bindValue ext u true m2 e2).2 = .ok ()) →
        (bindValue ext u true m e).2 = .error err →
        (bindElems ext u fieldDef (some (.seq (pre ++ maps.map Generic.map))) pre.length
          elems).2 = .error (wrap err (ascii "error processing array field " ++ fieldDef.Name))) ∧
      ((bindElems ext u fieldDef (some (.seq (pre ++ maps.map Generic.map))) pre.length
          elems).2 = .ok () →
        (bindElems ext u fieldDef (some (.seq (pre ++ maps.map Generic.map))) pre.length
          elems).1 = List.zipWith (fun e m => (bindValue ext u true m e).1) elems maps) := by
  intro elems
  induction elems with
  | nil =>
    intro pre maps hlen
    have hm : maps = [] := List.length_eq_zero.1 hlen
    subst hm
    refine ⟨?_, ?_, ?_⟩
    · simp [bindElems]
    · intro i e m err he; simp at he
    · intro _; simp [bindElems]
  | cons e es ih =>
    intro pre maps hlen
    cases maps with
    | nil => simp at hlen
    | cons m ms =>
      have hlen2 : ms.length = es.length := by simpa using hlen
      have hraw : pre ++ (m :: ms).map Generic.map =
          (pre ++ [Generic.map m]) ++ ms.map Generic.map := by simp
      have hidx := indexRaw_seq_at pre m (ms.map Generic.map)
      have hstep : bindElems ext u fieldDef (some (.seq (pre ++ (m :: ms).map Generic.map)))
          pre.length (e :: es) =
          match bindValue ext u true m e with
          | (elem1, .ok ()) =>
            (elem1 :: (bindElems ext u fieldDef
                (some (.seq ((pre ++ [Generic.map m]) ++ ms.map Generic.map)))
                (pre ++ [Generic.map m]).length es).1,
              (bindElems ext u fieldDef
                (some (.seq ((pre ++ [Generic.map m]) ++ ms.map Generic.map)))
                (pre ++ [Generic.map m]).length es).2)
          | (elem1, .error err) =>
            (elem1 :: es,
              .error (wrap err (ascii "error processing array field " ++ fieldDef.Name)))
          | (elem1, .panic p) => (elem1 :: es, .panic p) := by
        rw [bindElems]
        simp only [List.map_cons] at hidx ⊢
        rw [hidx]
        simp only [List.length_append, List.length_singleton, List.append_assoc,
          List.singleton_append]
      obtain ⟨ih1, ih2, ih3⟩ := ih (pre ++ [Generic.map m]) ms hlen2
      rw [hstep]
      rcases hb : bindValue ext u true m e with ⟨e1, r⟩
      cases r with
      | ok a =>
        refine ⟨?_, ?_, ?_⟩
        · simp only []
          rw [ih1]
          constructor
          · intro h i e2 m2 he hm
            cases i with
            | zero =>
              simp only [List.get?_cons_zero, Option.some.injEq] at he hm
              subst he hm
              rw [hb]
            | succ i => exact h i e2 m2 (by simpa using he) (by simpa using hm)
          · intro h i e2 m2 he hm
            exact h (i + 1) e2 m2 (by simpa using he) (by simpa using hm)
        · intro i e2 m2 err he hm hprev herr
          cases i with
          | zero =>
            simp only [List.get?_cons_zero, Option.some.injEq] at he hm
            subst he hm
            rw [hb] at herr
            cases herr
          | succ i =>
            simp only []
            refine ih2 i e2 m2 err (by simpa using he) (by simpa using hm) ?_ herr
            intro j e3 m3 hj he3 hm3
            exact hprev (j + 1) e3 m3 (by omega) (by simpa using he3) (by simpa using hm3)
        · simp only []
          intro hok
          rw [ih3 hok]
          simp [hb]
      | error err0 =>
        refine ⟨?_, ?_, ?_⟩
        · simp only [reduceCtorEq, false_iff, not_forall]
          exact ⟨0, e, m, rfl, rfl, by rw [hb]; simp⟩
        · intro i e2 m2 err he hm hprev herr
          cases i with
          | zero =>
            simp only [List.get?_cons_zero, Option.some.injEq] at he hm
            subst he hm
            rw [hb] at herr
            simp only [Result.error.injEq] at herr
            rw [herr]
          | succ i =>
            have := hprev 0 e m (by omega) rfl rfl
            rw [hb] at this
            cases this
        · intro hok; cases hok
      | panic p =>
        refine ⟨?_, ?_, ?_⟩
        · simp only [reduceCtorEq, false_iff, not_forall]
          exact ⟨0, e, m, rfl, rfl, by rw [hb]; simp⟩
        · intro i e2 m2 err he hm hprev herr
          cases i with
          | zero =>
            simp only [List.get?_cons_zero, Option.some.injEq] at he hm
            subst he hm
            rw [hb] at herr
            cases herr
          | succ i =>
            have := hprev 0 e m (by omega) rfl rfl
            rw [hb] at this
            cases this
        · intro hok; cases hok

/-- Lines 91 to 108 on a slice of structs (behind any pointers) that passes the
emptiness check: the outcome and the elements are those of the loop over the elements. -/
theorem bindDeref_of_slice_struct (ext : Externals) (u : Unmarshaller) (fieldDef : StructField)
    (fieldCfg : FieldConfig) (raw : Option Generic) (elems : List GoValue)
    (hne : ¬ (fieldCfg.Required = true ∧ elems.length = 0)) :
    ∀ (fieldVal : GoValue) (addressable : Bool),
      derefValue fieldVal = some (.slice .Struct elems) →
      (bindDeref ext u fieldDef fieldCfg raw addressable fieldVal).2 =
        (bindElems ext u fieldDef raw 0 elems).2 ∧
      derefValue (bindDeref ext u fieldDef fieldCfg raw addressable fieldVal).1 =
        some (.slice .Struct (bindElems ext u fieldDef raw 0 elems).1)
  | .ptr p, _, h => by
    simp only [derefValue] at h
    simp only [bindDeref, derefValue]
    exact bindDeref_of_slice_struct ext u fieldDef fieldCfg raw elems hne p true h
  | .slice k2 elems2, _, h => by
    simp only [derefValue, Option.some.injEq, GoValue.slice.injEq] at h
    obtain ⟨h1, h2⟩ := h
    subst h1 h2
    simp only [bindDeref]
    rw [if_neg hne]
    simp [derefValue]
  | .bool _, _, h | .int _, _, h | .uint _, _, h | .float _, _, h | .nilPtr _, _, h
  | .str _, _, h | .struct _, _, h | .nilIface, _, h | .iface _, _, h => by
    simp [derefValue] at h

/-- C14 (as stated, refuted): a required field holding an empty sequence of structs, whose
raw value is the empty sequence, fails with "is empty" although no element binding
fails; and a field whose directive is malformed fails although its only element binds
without error. -/
theorem slice_elements_counterexample :
    (processTags (sampleExt []) sampleJSON
      (some (.ptr (.struct [(configField "Items" "required", .slice .Struct [])])))
      [(ascii "items", .seq [])]).2 = .error (ascii "required field Items is empty") ∧
    (processTags (sampleExt []) sampleJSON
      (some (.ptr (.struct [(configField "Bool" "", .bool false)]))) []).2 = .ok () ∧
    (processTags (sampleExt []) sampleJSON
      (some (.ptr (.struct [(configField "Items" "=",
        .slice .Struct [.struct [(configField "Bool" "", .bool false)]])])))
      [(ascii "items", .seq [.map []])]).2 =
      .error (ascii "invalid configure struct tag: mal-formed tag: expected a label") := by
  refine ⟨by decide, by decide, by decide⟩

/-- C14 (amended): sequences of structures are bound element by element. For a field with
a well-formed directive whose value, behind its non-nil pointers, is a sequence of n
elements and which is not both required and empty, in a struct whose preceding fields
bind without error: when the element type is a struct and the raw value is a sequence
of n mappings, the loop body succeeds exactly when processTags succeeds on every
element i against raw entry i; the error of the first failing element is returned
wrapped with "error processing array field NAME"; on success every element is left
as its own binding leaves it. When the element type is not a struct and the raw value
is present, nothing is recursed into: the field is unchanged and the loop goes on. -/
theorem slice_elements_bound (ext : Externals) (u : Unmarshaller) (keyMap : KeyMap)
    (pre post : List (StructField × GoValue)) (fieldDef : StructField) (fieldVal : GoValue)
    (fieldCfg : FieldConfig) (k : Kind) (elems : List GoValue) (maps : List KeyMap)
    (hpre : (bindFields ext u true keyMap pre).2 = .ok ())
    (htag : parseStructTag (fieldDef.TagGet TagName) = .ok fieldCfg)
    (hderef : derefValue fieldVal = some (.slice k elems))
    (hne : ¬ (fieldCfg.Required = true ∧ elems.length = 0)) :
    (k = .Struct → rawLookup ext u fieldDef keyMap = some (.seq (maps.map Generic.map)) →
      maps.length = elems.length →
      ((bindField ext u true keyMap fieldDef fieldVal).2 = .ok () ↔
        ∀ i e m, elems.get? i = some e → maps.get? i = some m →
          (processTags ext u (some (.ptr e)) m).2 = .ok ()) ∧
      (∀ i e m err, elems.get? i = some e → maps.get? i = some m →
        (∀ j e2 m2, j < i → elems.get? j = some e2 → maps.get? j = some m2 →
          (processTags ext u (some (.ptr e2)) m2).2 = .ok ()) →
        (processTags ext u (some (.ptr e)) m).2 = .error err →
        (processTags ext u (some (.ptr (.struct (pre ++ (fieldDef, fieldVal) :: post))))
          keyMap).2 =
          .error (ascii "error processing array field " ++ fieldDef.Name ++ ascii ": " ++ err)) ∧
      ((bindField ext u true keyMap fieldDef fieldVal).2 = .ok () →
        derefValue (bindField ext u true keyMap fieldDef fieldVal).1 =
          some (.slice .Struct
            (List.zipWith (fun e m => (bindValue ext u true m e).1) elems maps)))) ∧
    (k ≠ .Struct → rawIsNil (rawLookup ext u fieldDef keyMap) = false →
      bindField ext u true keyMap fieldDef fieldVal = (fieldVal, .ok ())) := by
  have hkind : kindOf (derefValue fieldVal) ≠ .Struct := by rw [hderef]; simp [kindOf, GoValue.Kind]
  refine ⟨?_, ?_⟩
  · intro hk hraw hlen
    subst hk
    have hnil : rawIsNil (rawLookup ext u fieldDef keyMap) = false := by rw [hraw]; rfl
    have hb := bindField_present ext u true keyMap fieldDef fieldVal fieldCfg htag hnil hkind
    obtain ⟨hd2, hd1⟩ := bindDeref_of_slice_struct ext u fieldDef fieldCfg
      (rawLookup ext u fieldDef keyMap) elems hne fieldVal true hderef
    rw [← hb] at hd1 hd2
    obtain ⟨h1, h2, h3⟩ := bindElems_maps ext u fieldDef elems [] maps hlen
    simp only [List.nil_append, List.length_nil] at h1 h2 h3
    rw [← hraw, ← hd2] at h1 h2 h3
    refine ⟨?_, ?_, ?_⟩
    · simpa only [processTags_ptr] using h1
    · intro i e m err he hm hprev herr
      have hres := h2 i e m err he hm
        (fun j e2 m2 hj he2 hm2 => by
          have := hprev j e2 m2 hj he2 hm2
          simpa only [processTags_ptr] using this)
        (by simpa only [processTags_ptr] using herr)
      rw [processTags_stop_at ext u keyMap pre post fieldDef fieldVal
        (bindField ext u true keyMap fieldDef fieldVal).1
        (.error (ascii "error processing array field " ++ fieldDef.Name ++ ascii ": " ++ err))
        hpre (Prod.ext rfl (by rw [hres]; simp [wrap])) (by simp)]
    · intro hok
      rw [hd1, h3 hok]
  · intro hk hnil
    have hb := bindField_present ext u true keyMap fieldDef fieldVal fieldCfg htag hnil hkind
    have h2 := bindDeref_of_slice ext u fieldDef fieldCfg (rawLookup ext u fieldDef keyMap) k
      elems fieldVal true hderef
    have h1 := bindDeref_fst ext u fieldDef fieldCfg (rawLookup ext u fieldDef keyMap) fieldVal
      true hkind (by rw [hderef]; simpa [elemKindOf] using hk)
    rw [hb]
    refine Prod.ext h1 ?_
    rw [h2, if_neg hne, if_pos hk]

theorem slice_elements_bound_witness :
    (processTags (sampleExt []) sampleJSON
      (some (.ptr (.struct ([] ++
        ({ Name := ascii "ArrayOfStuff", Tag := [] },
          .slice .Struct [testNestedConfig [] false, testNestedConfig [] true])
        :: []))))
      [(ascii "arrayofstuff",
        .seq [.map [(ascii "bool", .bool false)], .map [(ascii "string", .str [])]])]).2 =
      .error (ascii "error processing array field ArrayOfStuff: required field String is empty") ∧
    derefValue (bindField (sampleExt []) sampleJSON true
      [(ascii "arrayofstuff",
        .seq [.map [(ascii "bool", .bool false)],
          .map [(ascii "string", .str (ascii "what")), (ascii "bool", .bool true)]])]
      { Name := ascii "ArrayOfStuff", Tag := [] }
      (.slice .Struct [testNestedConfig [] false, testNestedConfig (ascii "what") true])).1 =
      some (.slice .Struct
        [testNestedConfig (ascii "nested") false, testNestedConfig (ascii "what") true]) ∧
    bindField (sampleExt []) sampleJSON true [(ascii "arrayofnums", .seq [.num 1])]
      { Name := ascii "ArrayOfNums", Tag := [] } (.slice .Int [.int 1]) =
      (.slice .Int [.int 1], .ok ()) :=
  ⟨((slice_elements_bound (sampleExt []) sampleJSON
      [(ascii "arrayofstuff",
        .seq [.map [(ascii "bool", .bool false)], .map [(ascii "string", .str [])]])]
      [] [] { Name := ascii "ArrayOfStuff", Tag := [] }
      (.slice .Struct [testNestedConfig [] false, testNestedConfig [] true])
      { Required := false, Default := [], Env := [], Defined := false } .Struct
      [testNestedConfig [] false, testNestedConfig [] true]
      [[(ascii "bool", .bool false)], [(ascii "string", .str [])]]
      (by decide) (by decide) rfl (by decide)).1 rfl rfl rfl).2.1 1
      (testNestedConfig [] true) [(ascii "string", .str [])]
      (ascii "required field String is empty") rfl rfl
      (by
        intro j e2 m2 hj he hm
        have hj0 : j = 0 := by omega
        subst hj0
        simp only [List.get?_cons_zero, Option.some.injEq] at he hm
        subst he hm
        decide)
      (by decide),
   ((slice_elements_bound (sampleExt []) sampleJSON
      [(ascii "arrayofstuff",
        .seq [.map [(ascii "bool", .bool false)],
          .map [(ascii "string", .str (ascii "what")), (ascii "bool", .bool true)]])]
      [] [] { Name := ascii "ArrayOfStuff", Tag := [] }
      (.slice .Struct [testNestedConfig [] false, testNestedConfig (ascii "what") true])
      { Required := false, Default := [], Env := [], Defined := false } .Struct
      [testNestedConfig [] false, testNestedConfig (ascii "what") true]
      [[(ascii "bool", .bool false)],
        [(ascii "string", .str (ascii "what")), (ascii "bool", .bool true)]]
      (by decide) (by decide) rfl (by decide)).1 rfl rfl rfl).2.2 (by decide),
   (slice_elements_bound (sampleExt []) sampleJSON [(ascii "arrayofnums", .seq [.num 1])]
      [] [] { Name := ascii "ArrayOfNums", Tag := [] } (.slice .Int [.int 1])
      { Required := false, Default := [], Env := [], Defined := false } .Int [.int 1] []
      (by decide) (by decide) rfl (by decide)).2 (by decide) rfl⟩

/-! ## Theorems: fail-fast -/

/-- The loop succeeds exactly when the loop body succeeds on every field. -/
theorem bindFields_ok_iff (ext : Externals) (u : Unmarshaller) (addressable : Bool)
    (keyMap : KeyMap) (fields : List (StructField × GoValue)) :
    (bindFields ext u addressable keyMap fields).2 = .ok () ↔
      ∀ p ∈ fields, (bindField ext u addressable keyMap p.1 p.2).2 = .ok () := by
  induction fields with
  | nil => simp [bindFields_nil]
  | cons f fields ih =>
    obtain ⟨fd, fv⟩ := f
    rw [bindFields_cons]
    rcases hb : bindField ext u addressable keyMap fd fv with ⟨fv1, r⟩
    cases r with
    | ok a => simp [ih, hb]
    | error e => simp [hb]
    | panic p => simp [hb]

/-- When the loop fails, it fails at the first field on which the loop body fails: the
outcome is the outcome of that field, the fields after it are untouched. -/
theorem bindFields_fail_split (ext : Externals) (u : Unmarshaller) (addressable : Bool)
    (keyMap : KeyMap) (fields : List (StructField × GoValue))
    (hfail : (bindFields ext u addressable keyMap fields).2 ≠ .ok ()) :
    ∃ pre fd fv post, fields = pre ++ (fd, fv) :: post ∧
      (∀ p ∈ pre, (bindField ext u addressable keyMap p.1 p.2).2 = .ok ()) ∧
      (bindField ext u addressable keyMap fd fv).2 ≠ .ok () ∧
      bindFields ext u addressable keyMap fields =
        ((bindFields ext u addressable keyMap pre).1 ++
            (fd, (bindField ext u addressable keyMap fd fv).1) :: post,
          (bindField ext u addressable keyMap fd fv).2) := by
  induction fields with
  | nil => simp [bindFields_nil] at hfail
  | cons f fields ih =>
    obtain ⟨fd, fv⟩ := f
    by_cases hb : (bindField ext u addressable keyMap fd fv).2 = .ok ()
    · have hb2 : bindField ext u addressable keyMap fd fv =
          ((bindField ext u addressable keyMap fd fv).1, .ok ()) := Prod.ext rfl hb
      have hcons := bindFields_cons_ok ext u addressable keyMap fd fv _ fields hb2
      rw [hcons] at hfail
      obtain ⟨pre, fd2, fv2, post, hsplit, hpre, hfd, hres⟩ := ih hfail
      refine ⟨(fd, fv) :: pre, fd2, fv2, post, by simp [hsplit], ?_, hfd, ?_⟩
      · intro p hp
        rcases List.mem_cons.1 hp with h | h
        · rw [h]; exact hb
        · exact hpre p h
      · have hpre2 := bindFields_cons_ok ext u addressable keyMap fd fv _ pre hb2
        rw [hcons, hres, hpre2]
        simp
    · refine ⟨[], fd, fv, fields, rfl, by simp, hb, ?_⟩
      rw [bindFields_cons_stop ext u addressable keyMap fd fv
        (bindField ext u addressable keyMap fd fv).1
        (bindField ext u addressable keyMap fd fv).2 fields rfl hb]
      simp [bindFields_nil]

/-- C15: fail-fast in declaration order. When processTags fails on a struct, the struct
splits into fields that all bind without error, a first field on which the loop body
fails, and the fields after it; the returned outcome is the outcome of that field, and
the fields declared after it hold after the call the values they had before it. -/
theorem fail_fast (ext : Externals) (u : Unmarshaller) (keyMap : KeyMap)
    (fields : List (StructField × GoValue))
    (hfail : (processTags ext u (some (.ptr (.struct fields))) keyMap).2 ≠ .ok ()) :
    ∃ pre fd fv post, fields = pre ++ (fd, fv) :: post ∧
      (∀ p ∈ pre, (bindField ext u true keyMap p.1 p.2).2 = .ok ()) ∧
      (bindField ext u true keyMap fd fv).2 ≠ .ok () ∧
      processTags ext u (some (.ptr (.struct fields))) keyMap =
        (some (.ptr (.struct ((bindFields ext u true keyMap pre).1 ++
            (fd, (bindField ext u true keyMap fd fv).1) :: post))),
          (bindField ext u true keyMap fd fv).2) := by
  rw [processTags_ptr_struct] at hfail
  obtain ⟨pre, fd, fv, post, hsplit, hpre, hfd, hres⟩ :=
    bindFields_fail_split ext u true keyMap fields hfail
  exact ⟨pre, fd, fv, post, hsplit, hpre, hfd, by rw [processTags_ptr_struct, hres]⟩

theorem fail_fast_witness :
    (processTags (sampleExt []) sampleJSON
      (some (.ptr (.struct (testRequiredCfg false 0 [] false []))))
      [(ascii "bool", .bool false)]).2 ≠ .ok () ∧
    processTags (sampleExt []) sampleJSON
      (some (.ptr (.struct (testRequiredCfg false 0 [] false []))))
      [(ascii "bool", .bool false)] =
      (some (.ptr (.struct (testRequiredCfg false 0 [] false []))),
        .error (ascii "required field Int not found")) ∧
    ∃ pre fd fv post, testRequiredCfg false 0 [] false [] = pre ++ (fd, fv) :: post ∧
      (∀ p ∈ pre, (bindField (sampleExt []) sampleJSON true [(ascii "bool", .bool false)]
        p.1 p.2).2 = .ok ()) ∧
      (bindField (sampleExt []) sampleJSON true [(ascii "bool", .bool false)] fd fv).2 ≠ .ok () ∧
      processTags (sampleExt []) sampleJSON
        (some (.ptr (.struct (testRequiredCfg false 0 [] false []))))
        [(ascii "bool", .bool false)] =
        (some (.ptr (.struct
          ((bindFields (sampleExt []) sampleJSON true [(ascii "bool", .bool false)] pre).1 ++
            (fd, (bindField (sampleExt []) sampleJSON true [(ascii "bool", .bool false)]
              fd fv).1) :: post))),
          (bindField (sampleExt []) sampleJSON true [(ascii "bool", .bool false)] fd fv).2) :=
  ⟨by decide, rfl,
    fail_fast (sampleExt []) sampleJSON [(ascii "bool", .bool false)]
      (testRequiredCfg false 0 [] false []) (by decide)⟩

/-! ## Theorems: the message of a malformed directive -/

/-- The loop body on a field whose directive is rejected by parseTag: the returned
message is built from the parse error alone, the name of the field is not used. -/
theorem bindField_malformed (ext : Externals) (u : Unmarshaller) (addressable : Bool)
    (keyMap : KeyMap) (fieldDef : StructField) (fieldVal : GoValue) (e : GoString)
    (hne : fieldDef.TagGet TagName ≠ [])
    (hparse : parseTag (fieldDef.TagGet TagName) = .error e) :
    bindField ext u addressable keyMap fieldDef fieldVal =
      (fieldVal, .error (ascii "invalid configure struct tag: mal-formed tag: " ++ e)) := by
  have h : parseStructTag (fieldDef.TagGet TagName) = .error (wrap e (ascii "mal-formed tag")) := by
    simp [parseStructTag, hne, hparse]
  simp only [bindField, fieldPrelude, h]
  rfl

/-- C16 (the code at the failing input): a field `Port` with the malformed directive "="
makes processTags return a message in which the name Port does not occur; inside a
nested struct only the name of the enclosing field occurs. -/
theorem malformed_tag_unnamed :
    (processTags (sampleExt []) sampleJSON
      (some (.ptr (.struct [(configField "Port" "=", .int 0)]))) []).2 =
      .error (ascii "invalid configure struct tag: mal-formed tag: expected a label") ∧
    ¬ (ascii "Port" <:+: ascii "invalid configure struct tag: mal-formed tag: expected a label") ∧
    (processTags (sampleExt []) sampleJSON
      (some (.ptr (.struct [({ Name := ascii "Inner", Tag := [] },
        .struct [(configField "Port" "=", .int 0)])]))) []).2 =
      .error (ascii
        "error processing field Inner: invalid configure struct tag: mal-formed tag: expected a label") ∧
    (processTags (sampleExt []) sampleJSON
      (some (.ptr (.struct [(configField "Port" "required", .int 0)]))) []).2 =
      .error (ascii "required field Port not found") := by
  refine ⟨by decide, by decide, by decide, by decide⟩

/-! ## Theorems: the destination of processTags -/

theorem bindValue_not_struct (ext : Externals) (u : Unmarshaller) (addressable : Bool)
    (keyMap : KeyMap) (x : GoValue) (h : kindOf (interfaceElem (some x)) ≠ .Struct) :
    bindValue ext u addressable keyMap x =
      (x, .error (ascii "can only process structs, but got " ++
        kindString (kindOf (interfaceElem (some x))))) := by
  cases x with
  | struct fields => simp [interfaceElem, kindOf, GoValue.Kind] at h
  | iface dyn =>
    cases dyn <;>
      first
        | (simp [interfaceElem, kindOf, GoValue.Kind] at h; done)
        | simp [bindValue, interfaceElem, kindOf, GoValue.Kind]
  | nilIface => simp [bindValue, interfaceElem, kindOf]
  | bool _ => simp [bindValue, interfaceElem, kindOf]
  | int _ => simp [bindValue, interfaceElem, kindOf]
  | uint _ => simp [bindValue, interfaceElem, kindOf]
  | float _ => simp [bindValue, interfaceElem, kindOf]
  | str _ => simp [bindValue, interfaceElem, kindOf]
  | nilPtr _ => simp [bindValue, interfaceElem, kindOf]
  | ptr _ => simp [bindValue, interfaceElem, kindOf]
  | slice _ _ => simp [bindValue, interfaceElem, kindOf]

theorem bindValue_struct (ext : Externals) (u : Unmarshaller) (addressable : Bool)
    (keyMap : KeyMap) (x : GoValue) (h : kindOf (interfaceElem (some x)) = .Struct) :
    ∃ fields addr, interfaceElem (some x) = some (.struct fields) ∧
      (bindValue ext u addressable keyMap x).2 = (bindFields ext u addr keyMap fields).2 := by
  cases x with
  | struct fields => exact ⟨fields, addressable, rfl, by simp [bindValue]⟩
  | iface dyn =>
    cases dyn with
    | struct fields => exact ⟨fields, false, rfl, by simp [bindValue]⟩
    | bool _ => simp [interfaceElem, kindOf, GoValue.Kind] at h
    | int _ => simp [interfaceElem, kindOf, GoValue.Kind] at h
    | uint _ => simp [interfaceElem, kindOf, GoValue.Kind] at h
    | float _ => simp [interfaceElem, kindOf, GoValue.Kind] at h
    | str _ => simp [interfaceElem, kindOf, GoValue.Kind] at h
    | nilPtr _ => simp [interfaceElem, kindOf, GoValue.Kind] at h
    | ptr _ => simp [interfaceElem, kindOf, GoValue.Kind] at h
    | slice _ _ => simp [interfaceElem, kindOf, GoValue.Kind] at h
    | nilIface => simp [interfaceElem, kindOf, GoValue.Kind] at h
    | iface _ => simp [interfaceElem, kindOf, GoValue.Kind] at h
  | nilIface => simp [interfaceElem, kindOf] at h
  | bool _ => simp [interfaceElem, kindOf, GoValue.Kind] at h
  | int _ => simp [interfaceElem, kindOf, GoValue.Kind] at h
  | uint _ => simp [interfaceElem, kindOf, GoValue.Kind] at h
  | float _ => simp [interfaceElem, kindOf, GoValue.Kind] at h
  | str _ => simp [interfaceElem, kindOf, GoValue.Kind] at h
  | nilPtr _ => simp [interfaceElem, kindOf, GoValue.Kind] at h
  | ptr _ => simp [interfaceElem, kindOf, GoValue.Kind] at h
  | slice _ _ => simp [interfaceElem, kindOf, GoValue.Kind] at h

/-- C17 (as stated, refuted): for a pointer to a pointer to a struct processTags fails with
"can only process structs, but got ptr", while for the single pointer it binds the
fields (here the required field is reported). -/
theorem destination_counterexample :
    processTags (sampleExt []) sampleJSON
      (some (.ptr (.ptr (.struct [(configField "Bool" "required", .bool false)])))) [] =
      (some (.ptr (.ptr (.struct [(configField "Bool" "required", .bool false)]))),
        .error (ascii "can only process structs, but got ptr")) ∧
    (processTags (sampleExt []) sampleJSON
      (some (.ptr (.struct [(configField "Bool" "required", .bool false)]))) []).2 =
      .error (ascii "required field Bool not found") := by
  refine ⟨rfl, by decide⟩

/-- C17 (amended): destination type precondition. Let the kind of the destination be the
kind found after following at most one pointer (reflect.Indirect) and then unwrapping an
interface value. processTags binds the fields of the struct found there when that kind
is struct; for every other destination it returns "can only process structs, but got
KIND" naming that kind and leaves the destination untouched. A pointer to a struct and a
struct are accepted; a pointer to a pointer has kind ptr, nil and a nil pointer have
kind invalid. -/
theorem destination_precondition (ext : Externals) (u : Unmarshaller) (v : Option GoValue)
    (keyMap : KeyMap) :
    (cfgKindOf v ≠ .Struct →
      processTags ext u v keyMap =
        (v, .error (ascii "can only process structs, but got " ++ kindString (cfgKindOf v)))) ∧
    (cfgKindOf v = .Struct →
      ∃ fields addr, interfaceElem (indirectOf v) = some (.struct fields) ∧
        (processTags ext u v keyMap).2 = (bindFields ext u addr keyMap fields).2) ∧
    (∀ fields, cfgKindOf (some (.ptr (.struct fields))) = .Struct) ∧
    (∀ fields, cfgKindOf (some (.struct fields)) = .Struct) ∧
    (∀ fields, cfgKindOf (some (.ptr (.iface (.struct fields)))) = .Struct) ∧
    (∀ x, cfgKindOf (some (.ptr (.ptr x))) = .Ptr) ∧
    (∀ x, cfgKindOf (some (.ptr (.iface (.ptr x)))) = .Ptr) ∧
    cfgKindOf none = .Invalid ∧
    (∀ k, cfgKindOf (some (.nilPtr k)) = .Invalid) := by
  refine ⟨?_, ?_, fun _ => rfl, fun _ => rfl, fun _ => rfl, fun _ => rfl, fun _ => rfl, rfl,
    fun _ => rfl⟩
  · intro h
    cases v with
    | none => rfl
    | some x =>
      cases x with
      | ptr y =>
        have hy : kindOf (interfaceElem (some y)) ≠ .Struct := h
        simp only [processTags, bindValue_not_struct ext u true keyMap y hy]
        rfl
      | nilPtr k => rfl
      | struct fields => exact absurd rfl h
      | bool b => rfl
      | int b => rfl
      | uint b => rfl
      | float b => rfl
      | str b => rfl
      | slice k b => rfl
      | nilIface => rfl
      | iface d =>
        have hd := bindValue_not_struct ext u false keyMap (.iface d) h
        simp only [processTags, hd]
        rfl
  · intro h
    cases v with
    | none => simp [cfgKindOf, indirectOf, interfaceElem, kindOf, GoValue.Kind] at h
    | some x =>
      cases x with
      | ptr y =>
        obtain ⟨fields, addr, h1, h2⟩ := bindValue_struct ext u true keyMap y h
        exact ⟨fields, addr, h1, by rw [processTags_ptr, h2]⟩
      | nilPtr k => simp [cfgKindOf, indirectOf, interfaceElem, kindOf, GoValue.Kind] at h
      | struct fields =>
        exact ⟨fields, false, rfl, by simp [processTags, bindValue]⟩
      | bool b => simp [cfgKindOf, indirectOf, interfaceElem, kindOf, GoValue.Kind] at h
      | int b => simp [cfgKindOf, indirectOf, interfaceElem, kindOf, GoValue.Kind] at h
      | uint b => simp [cfgKindOf, indirectOf, interfaceElem, kindOf, GoValue.Kind] at h
      | float b => simp [cfgKindOf, indirectOf, interfaceElem, kindOf, GoValue.Kind] at h
      | str b => simp [cfgKindOf, indirectOf, interfaceElem, kindOf, GoValue.Kind] at h
      | slice k b => simp [cfgKindOf, indirectOf, interfaceElem, kindOf, GoValue.Kind] at h
      | nilIface => simp [cfgKindOf, indirectOf, interfaceElem, kindOf, GoValue.Kind] at h
      | iface d =>
        obtain ⟨fields, addr, h1, h2⟩ := bindValue_struct ext u false keyMap (.iface d) h
        exact ⟨fields, addr, h1, by simp only [processTags]; exact h2⟩

theorem destination_precondition_witness :
    processTags (sampleExt []) sampleJSON (some (.int 3)) [] =
      (some (.int 3), .error (ascii "can only process structs, but got int")) ∧
    processTags (sampleExt []) sampleJSON none [] =
      (none, .error (ascii "can only process structs, but got invalid")) ∧
    (∃ fields addr,
      interfaceElem (indirectOf
        (some (.ptr (.struct [(configField "Bool" "required", .bool false)])))) =
        some (.struct fields) ∧
      (processTags (sampleExt []) sampleJSON
        (some (.ptr (.struct [(configField "Bool" "required", .bool false)]))) []).2 =
        (bindFields (sampleExt []) sampleJSON addr [] fields).2) :=
  ⟨(destination_precondition (sampleExt []) sampleJSON (some (.int 3)) []).1 (by decide),
   (destination_precondition (sampleExt []) sampleJSON none []).1 (by decide),
   (destination_precondition (sampleExt []) sampleJSON
      (some (.ptr (.struct [(configField "Bool" "required", .bool false)]))) []).2.1 rfl⟩

/-! ## Theorems: the decoder of default and env literals -/

theorem fieldPrelude_names (ext : Externals) (u u2 : Unmarshaller)
    (h : u.ExtractFieldName = u2.ExtractFieldName) (addressable : Bool)
    (fieldDef : StructField) (fieldVal : GoValue) (keyMap : KeyMap) :
    fieldPrelude ext u addressable fieldDef fieldVal keyMap =
      fieldPrelude ext u2 addressable fieldDef fieldVal keyMap := by
  simp only [fieldPrelude, rawLookup, h]

mutual
theorem bindValue_names (ext : Externals) (u u2 : Unmarshaller)
    (h : u.ExtractFieldName = u2.ExtractFieldName) (addressable : Bool) (keyMap : KeyMap) :
    ∀ v : GoValue, bindValue ext u addressable keyMap v = bindValue ext u2 addressable keyMap v
  | .struct fields => by
    simp only [bindValue, bindFields_names ext u u2 h addressable keyMap fields]
  | .iface (.struct fields) => by
    simp only [bindValue, bindFields_names ext u u2 h false keyMap fields]
  | .iface (.bool _) | .iface (.int _) | .iface (.uint _) | .iface (.float _)
  | .iface (.str _) | .iface (.nilPtr _) | .iface (.ptr _) | .iface (.slice _ _)
  | .iface .nilIface | .iface (.iface _) => by simp only [bindValue]
  | .nilIface | .bool _ | .int _ | .uint _ | .float _ | .str _ | .nilPtr _ | .ptr _
  | .slice _ _ => by simp only [bindValue]
theorem bindFields_names (ext : Externals) (u u2 : Unmarshaller)
    (h : u.ExtractFieldName = u2.ExtractFieldName) (addressable : Bool) (keyMap : KeyMap) :
    ∀ fields : List (StructField × GoValue),
      bindFields ext u addressable keyMap fields = bindFields ext u2 addressable keyMap fields
  | [] => by simp only [bindFields]
  | (fieldDef, fieldVal) :: rest => by
    rw [bindFields, bindFields, fieldPrelude_names ext u u2 h,
      bindFields_names ext u u2 h addressable keyMap rest]
    cases fieldPrelude ext u2 addressable fieldDef fieldVal keyMap with
    | done fv r => cases r <;> rfl
    | descend fieldCfg rawFieldVal =>
      simp only [bindDeref_names ext u u2 h fieldDef fieldCfg rawFieldVal addressable fieldVal]
theorem bindDeref_names (ext : Externals) (u u2 : Unmarshaller)
    (h : u.ExtractFieldName = u2.ExtractFieldName) (fieldDef : StructField)
    (fieldCfg : FieldConfig) (rawFieldVal : Option Generic) :
    ∀ (addressable : Bool) (v : GoValue),
      bindDeref ext u fieldDef fieldCfg rawFieldVal addressable v =
        bindDeref ext u2 fieldDef fieldCfg rawFieldVal addressable v
  | _, .ptr p => by
    simp only [bindDeref, bindDeref_names ext u u2 h fieldDef fieldCfg rawFieldVal true p]
  | _, .slice k elems => by
    simp only [bindDeref, bindElems_names ext u u2 h fieldDef rawFieldVal 0 elems]
  | _, .struct fields => by
    simp only [bindDeref, bindFields_names ext u u2 h true [] fields]
    cases rawFieldVal with
    | none => rfl
    | some g =>
      cases g with
      | map m => simp only [bindFields_names ext u u2 h true m fields]
      | null => rfl
      | bool _ => rfl
      | num _ => rfl
      | str _ => rfl
      | seq _ => rfl
      | mapSlice _ => rfl
  | _, .str _ | _, .bool _ | _, .int _ | _, .uint _ | _, .float _ | _, .nilPtr _
  | _, .nilIface | _, .iface _ => by simp only [bindDeref]
theorem bindElems_names (ext : Externals) (u u2 : Unmarshaller)
    (h : u.ExtractFieldName = u2.ExtractFieldName) (fieldDef : StructField)
    (rawFieldVal : Option Generic) :
    ∀ (i : Nat) (elems : List GoValue),
      bindElems ext u fieldDef rawFieldVal i elems = bindElems ext u2 fieldDef rawFieldVal i elems
  | _, [] => by simp only [bindElems]
  | i, elem :: rest => by
    rw [bindElems, bindElems]
    cases indexRaw rawFieldVal i with
    | error e => rfl
    | panic p => rfl
    | ok next =>
      simp only [bindValue_names ext u u2 h true next elem,
        bindElems_names ext u u2 h fieldDef rawFieldVal (i + 1) rest]
end

/-- C18 (as stated, refuted): with the JSON unmarshaller, whose own Unmarshal rejects the
bare word `honkus`, the default `honkus` is still decoded into the field: the literal
goes through yaml.Unmarshal. -/
theorem literal_decoder_counterexample :
    bareWordJSON.Unmarshal (ascii "honkus") (some (.ptr (.str []))) =
      (some (.ptr (.str [])),
        some (ascii "invalid character looking for beginning of value")) ∧
    processTags (sampleExt []) bareWordJSON
      (some (.ptr (.struct [(configField "String" "default=honkus", .str [])]))) [] =
      (some (.ptr (.struct [(configField "String" "default=honkus", .str (ascii "honkus"))])),
        .ok ()) := by
  refine ⟨rfl, rfl⟩

/-- C18 (amended): default and env literals are decoded by yaml.Unmarshal, whichever
unmarshaller is passed. processTags uses its unmarshaller only to name the fields: two
unmarshallers with the same ExtractFieldName give the same outcome on every destination
and key map; and a field in which a literal is applied holds after the call the value
that yaml.Unmarshal returned for the literal. -/
theorem literal_decoder (ext : Externals) (u : Unmarshaller) (keyMap : KeyMap) :
    (∀ (u2 : Unmarshaller) (v : Option GoValue),
      u.ExtractFieldName = u2.ExtractFieldName →
      processTags ext u v keyMap = processTags ext u2 v keyMap) ∧
    (∀ (pre post : List (StructField × GoValue)) (fieldDef : StructField)
      (fieldVal fv1 : GoValue) (fieldCfg : FieldConfig),
      (bindFields ext u true keyMap pre).2 = .ok () →
      parseStructTag (fieldDef.TagGet TagName) = .ok fieldCfg →
      rawIsNil (rawLookup ext u fieldDef keyMap) = true →
      effectiveLiteral ext fieldCfg ≠ [] →
      kindOf (derefValue fieldVal) ≠ .Struct →
      ext.yamlUnmarshal (effectiveLiteral ext fieldCfg) fieldVal = (fv1, none) →
      ∃ fields1,
        (processTags ext u (some (.ptr (.struct (pre ++ (fieldDef, fieldVal) :: post))))
          keyMap).1 = some (.ptr (.struct fields1)) ∧
        fields1.get? pre.length = some (fieldDef, fv1)) := by
  refine ⟨?_, ?_⟩
  · intro u2 v h
    cases v with
    | none => rfl
    | some x =>
      cases x <;> simp only [processTags, bindValue_names ext u u2 h]
  · intro pre post fieldDef fieldVal fv1 fieldCfg hpre htag hraw hlit hkind hyaml
    exact processTags_field_applied ext u keyMap pre post fieldDef fieldVal fv1 fieldCfg hpre
      htag hraw hlit hkind hyaml

theorem literal_decoder_witness :
    processTags (sampleExt []) bareWordJSON
      (some (.ptr (.struct [(configField "String" "default=honkus", .str [])]))) [] =
      processTags (sampleExt []) sampleJSON
        (some (.ptr (.struct [(configField "String" "default=honkus", .str [])]))) [] ∧
    (∃ fields1,
      (processTags (sampleExt []) bareWordJSON
        (some (.ptr (.struct ([] ++ (configField "String" "default=honkus", .str []) :: []))))
        []).1 = some (.ptr (.struct fields1)) ∧
      fields1.get? 0 = some (configField "String" "default=honkus", .str (ascii "honkus"))) :=
  ⟨(literal_decoder (sampleExt []) bareWordJSON []).1 sampleJSON
      (some (.ptr (.struct [(configField "String" "default=honkus", .str [])]))) rfl,
   (literal_decoder (sampleExt []) bareWordJSON []).2 [] []
      (configField "String" "default=honkus") (.str []) (.str (ascii "honkus"))
      { Required := false, Default := ascii "honkus", Env := [], Defined := true }
      (by decide) (by decide) rfl (by decide) (by decide) rfl⟩

/-! ## Theorems: shape mismatches -/

/-- A default or env literal that leaves elements in a slice of structs is followed by a
panic: the raw value is nil there, and line 104 indexes it. -/
theorem bindField_default_elements_panic (ext : Externals) (u : Unmarshaller) (keyMap : KeyMap)
    (fieldDef : StructField) (fieldVal fv1 : GoValue) (fieldCfg : FieldConfig)
    (elems : List GoValue)
    (htag : parseStructTag (fieldDef.TagGet TagName) = .ok fieldCfg)
    (hraw : rawIsNil (rawLookup ext u fieldDef keyMap) = true)
    (hlit : effectiveLiteral ext fieldCfg ≠ [])
    (hkind : kindOf (derefValue fieldVal) = .Slice)
    (hyaml : ext.yamlUnmarshal (effectiveLiteral ext fieldCfg) fieldVal = (fv1, none))
    (hafter : derefAfter fieldVal fv1 = some (.slice .Struct elems))
    (hne : elems ≠ []) :
    bindField ext u true keyMap fieldDef fieldVal =
      (fv1, .panic (ascii "reflect: call of reflect.Value.Index on zero Value")) := by
  rw [bindField_applied ext u keyMap fieldDef fieldVal fv1 fieldCfg htag hraw hlit
    (by rw [hkind]; decide) hyaml, hkind, hafter]
  have hlen : 0 < elems.length := List.length_pos.2 hne
  have hlen0 : elems.length ≠ 0 := by omega
  simp [afterDefault, valueLen, elemKindOf, hlen, hlen0]

/-- C19 (the code at failing inputs): processTags panics, and returns no error, when a
slice of structs holds an element while its key is absent, when the raw sequence is
shorter than the typed one, when a raw entry is not a mapping, and when the raw value of
a struct field is not a mapping. -/
theorem shape_mismatch_panics :
    (processTags (sampleExt []) sampleJSON
      (some (.ptr (.struct [({ Name := ascii "Items", Tag := [] },
        .slice .Struct [testNestedConfig (ascii "a") false])]))) []).2 =
      .panic (ascii "reflect: call of reflect.Value.Index on zero Value") ∧
    (processTags (sampleExt []) sampleJSON
      (some (.ptr (.struct [({ Name := ascii "Items", Tag := [] },
        .slice .Struct [testNestedConfig (ascii "a") false])])))
      [(ascii "items", .seq [])]).2 =
      .panic (ascii "reflect: slice index out of range") ∧
    (processTags (sampleExt []) sampleJSON
      (some (.ptr (.struct [({ Name := ascii "Items", Tag := [] },
        .slice .Struct [testNestedConfig (ascii "a") false])])))
      [(ascii "items", .seq [.num 1])]).2 =
      .panic (ascii "interface conversion: interface {} is not map[string]interface {}") ∧
    (processTags (sampleExt []) sampleJSON
      (some (.ptr (.struct [({ Name := ascii "Nested", Tag := [] },
        testNestedConfig (ascii "a") false)])))
      [(ascii "nested", .str (ascii "oops"))]).2 =
      .panic (ascii "interface conversion: interface {} is not map[string]interface {}") := by
  refine ⟨by decide, by decide, by decide, by decide⟩

/-! ## Theorems: ordinary characters -/

theorem esc_plain (s : GoString) (h : ∀ b ∈ s, ¬ (b = 61 ∨ b = 44 ∨ b = 92)) : esc s = s := by
  induction s with
  | nil => rfl
  | cons b s ih =>
    have hb := h b (List.mem_cons_self _ _)
    simp only [esc, hb, if_false]
    rw [ih (fun c hc => h c (List.mem_cons_of_mem _ hc))]

/-- An ASCII string without '=', ',' and backslash is one literal-run token, and parseTag
returns the one-entry mapping from it to the empty string. -/
theorem Tokenize_plain_ascii (s : GoString) (hne : s ≠ []) (hascii : IsAscii s)
    (h : ∀ b ∈ s, ¬ (b = 61 ∨ b = 44 ∨ b = 92)) :
    (tagTokenizer.mk false).Tokenize s = [tChar s, tEof] ∧
    parseTag s = .ok (some [(s, [])]) := by
  have htok : (tagTokenizer.mk false).Tokenize s = [tChar s, tEof] := by
    have := tokenizeLoop_esc_nil s hascii hne []
    rw [esc_plain s h, List.append_nil, tokenizeLoop_end] at this
    exact this
  refine ⟨htok, ?_⟩
  have hitems : (tagTokenizer.mk false).Tokenize s = renderItems [(s, none)] := by
    rw [htok]; rfl
  rw [parseTag_of_items s hne [(s, none)] (by simp) hitems]
  simp [tuplesToMap, itemTuple, mapSet]

/-- C20 (the code at the failing input): the two bytes of "é" (195, 169) contain none of
'=', ',' and backslash, yet the literal-run token does not carry them: each byte is
converted as a code point, which gives four bytes; parseTag returns that text as the
label. The ASCII string of the test passes through unchanged. -/
theorem non_ascii_mangled :
    (tagTokenizer.mk false).Tokenize [195, 169] = [tChar [195, 131, 194, 169], tEof] ∧
    (tagTokenizer.mk false).Tokenize [195, 169] ≠ [tChar [195, 169], tEof] ∧
    parseTag [195, 169] = .ok (some [([195, 131, 194, 169], [])]) ∧
    parseTag [195, 169] ≠ .ok (some [([195, 169], [])]) ∧
    (tagTokenizer.mk false).Tokenize (ascii "cab12309u(&*^") =
      [tChar (ascii "cab12309u(&*^"), tEof] := by
  refine ⟨by decide, by decide, by decide, by decide, by decide⟩

/-! ## Theorems: field names in error messages -/

theorem name_infix_mid (a name b : GoString) : name <:+: a ++ name ++ b :=
  List.infix_append a name b

theorem name_infix_wrap (err a name : GoString) : name <:+: wrap err (a ++ name) := by
  unfold wrap
  rw [List.append_assoc]
  exact List.infix_append a name (ascii ": " ++ err)

/-- An error returned by lines 84 to 123 contains the declared name of the field. -/
theorem bindDeref_error_names_field (ext : Externals) (u : Unmarshaller)
    (fieldDef : StructField) (fieldCfg : FieldConfig) (raw : Option Generic) (e : GoString) :
    ∀ (addressable : Bool) (v : GoValue),
      (bindDeref ext u fieldDef fieldCfg raw addressable v).2 = .error e →
      fieldDef.Name <:+: e
  | _, .ptr p, h => by
    simp only [bindDeref] at h
    exact bindDeref_error_names_field ext u fieldDef fieldCfg raw e true p h
  | _, .str s, h => by
    simp only [bindDeref] at h
    split at h
    · simp only [Result.error.injEq] at h
      rw [← h]
      exact name_infix_mid _ _ _
    · cases h
  | _, .slice k elems, h => by
    simp only [bindDeref] at h
    split at h
    · simp only [Result.error.injEq] at h
      rw [← h]
      exact name_infix_mid _ _ _
    · split at h
      · cases h
      · obtain ⟨err, herr⟩ := bindElems_error ext u fieldDef raw elems 0 e h
        rw [herr]
        exact name_infix_wrap _ _ _
  | addressable, .struct fields, h => by
    simp only [bindDeref] at h
    split at h
    · cases h
    · split at h
      all_goals first
        | cases h
        | (simp only [] at h
           split at h
           · simp only [Result.error.injEq] at h
             rw [← h]
             exact name_infix_wrap _ _ _
           · rename_i hother
             exact absurd h (hother e))
  | _, .bool _, h | _, .int _, h | _, .uint _, h | _, .float _, h | _, .nilPtr _, h
  | _, .nilIface, h | _, .iface _, h => by
    simp [bindDeref] at h

theorem afterDefault_error_names_field (fieldDef : StructField) (fieldCfg : FieldConfig)
    (kind : Kind) (d : Option GoValue) (e : GoString)
    (h : afterDefault fieldDef fieldCfg kind d = .error e) : fieldDef.Name <:+: e := by
  have hlen : ∀ err, valueLen d ≠ .error err := by
    intro err hv
    unfold valueLen at hv
    split at hv <;> cases hv
  unfold afterDefault at h
  split at h
  · split at h
    · split at h
      · simp only [Result.error.injEq] at h
        rw [← h]
        exact name_infix_mid _ _ _
      · cases h
    · rename_i err hv
      exact absurd hv (hlen err)
    · cases h
  · split at h
    · split at h
      · split at h
        · simp only [Result.error.injEq] at h
          rw [← h]
          exact name_infix_mid _ _ _
        · split at h
          · cases h
          · split at h <;> cases h
      · rename_i err hv
        exact absurd hv (hlen err)
      · cases h
    · cases h

theorem applyLiteral_error_names_field (ext : Externals) (addressable : Bool)
    (fieldDef : StructField) (fieldCfg : FieldConfig) (fieldVal : GoValue)
    (lit a : GoString) (fv : GoValue) (e : GoString)
    (h : applyLiteral ext addressable fieldDef fieldCfg fieldVal lit (a ++ fieldDef.Name) =
      .done fv (.error e)) : fieldDef.Name <:+: e := by
  unfold applyLiteral at h
  split at h
  · cases h
  · split at h
    · simp only [FieldStep.done.injEq, Result.error.injEq] at h
      rw [← h.2]
      exact name_infix_wrap _ _ _
    · simp only [FieldStep.done.injEq] at h
      exact afterDefault_error_names_field _ _ _ _ e h.2

/-- Every error that the loop body returns for a field whose directive parses contains
the declared name of the field (an error from inside a nested struct or a sequence
element follows that name, wrapped). Only the malformed-directive path lacks it. -/
theorem bindField_error_names_field (ext : Externals) (u : Unmarshaller) (addressable : Bool)
    (keyMap : KeyMap) (fieldDef : StructField) (fieldVal : GoValue) (fieldCfg : FieldConfig)
    (e : GoString)
    (htag : parseStructTag (fieldDef.TagGet TagName) = .ok fieldCfg)
    (h : (bindField ext u addressable keyMap fieldDef fieldVal).2 = .error e) :
    fieldDef.Name <:+: e := by
  unfold bindField at h
  cases hstep : fieldPrelude ext u addressable fieldDef fieldVal keyMap with
  | descend cfg raw =>
    rw [hstep] at h
    exact bindDeref_error_names_field ext u fieldDef cfg raw e addressable fieldVal h
  | done fv r =>
    rw [hstep] at h
    simp only [] at h
    subst h
    simp only [fieldPrelude, htag] at hstep
    split at hstep
    · simp only [FieldStep.done.injEq, Result.error.injEq] at hstep
      rw [← hstep.2]
      exact name_infix_mid _ _ _
    · split at hstep
      · have := applyLiteral_error_names_field ext addressable fieldDef fieldCfg fieldVal
          (envOverrideOf ext fieldCfg)
          (ascii "couldn't unmarshal env var " ++ fieldCfg.Env ++ ascii " into field ") fv e hstep
        exact this
      · split at hstep
        · exact applyLiteral_error_names_field ext addressable fieldDef fieldCfg fieldVal
            fieldCfg.Default (ascii "couldn't unmarshal default value for field ") fv e hstep
        · split at hstep
          · simp only [FieldStep.done.injEq, Result.error.injEq] at hstep
            rw [← hstep.2]
            exact name_infix_mid _ _ _
          · split at hstep
            · simp only [FieldStep.done.injEq, Result.error.injEq] at hstep
              rw [← hstep.2]
              exact name_infix_mid _ _ _
            · cases hstep

/-! ## Theorems: a backslash before an ordinary character -/

theorem tokenizeLoop_eq_run (s : GoString) :
    ∀ (t : tagTokenizer) (tokens : List token) (r : GoString),
      tokenizeLoop t tokens (s ++ r) =
        tokenizeLoop (tokenizeRun t tokens s).1 (tokenizeRun t tokens s).2 r := by
  induction s with
  | nil => intro t tokens r; rfl
  | cons chr rest ih =>
    intro t tokens r
    simp only [List.cons_append, tokenizeLoop, tokenizeRun]
    rcases hstep : t.step chr with ⟨t1, _ | tok⟩
    · exact ih t1 tokens r
    · exact ih t1 _ r

theorem tokenizeRun_append (s : GoString) :
    ∀ (t : tagTokenizer) (tokens : List token) (r : GoString),
      tokenizeRun t tokens (s ++ r) =
        tokenizeRun (tokenizeRun t tokens s).1 (tokenizeRun t tokens s).2 r := by
  induction s with
  | nil => intro t tokens r; rfl
  | cons chr rest ih =>
    intro t tokens r
    simp only [List.cons_append, tokenizeRun]
    rcases hstep : t.step chr with ⟨t1, _ | tok⟩
    · exact ih t1 tokens r
    · exact ih t1 _ r

/-- The escape flag after one byte: a backslash flips it, every other byte clears it. -/
theorem step_escaping (t : tagTokenizer) (chr : Nat) :
    (t.step chr).1.escaping = if chr = 92 then !t.escaping else false := by
  cases t with
  | mk e =>
    cases e <;>
      simp only [tagTokenizer.step, tagTokenizer.assign, tagTokenizer.sep, tagTokenizer.escape,
        tagTokenizer.char] <;>
      split_ifs <;> simp_all

theorem tokenizeRun_snoc_escaping (t : tagTokenizer) (tokens : List token) (s : GoString)
    (chr : Nat) :
    (tokenizeRun t tokens (s ++ [chr])).1.escaping =
      if chr = 92 then !(tokenizeRun t tokens s).1.escaping else false := by
  rw [tokenizeRun_append]
  generalize (tokenizeRun t tokens s).1 = t0
  generalize (tokenizeRun t tokens s).2 = toks0
  have h := step_escaping t0 chr
  simp only [tokenizeRun]
  rcases hstep : t0.step chr with ⟨t1, _ | tok⟩ <;> rw [hstep] at h <;> exact h

theorem trailingBackslashes_snoc (s : GoString) (chr : Nat) :
    trailingBackslashes (s ++ [chr]) = if chr = 92 then trailingBackslashes s + 1 else 0 := by
  unfold trailingBackslashes
  rw [List.reverse_append]
  by_cases h : chr = 92 <;> simp [List.takeWhile, h]

theorem pendingEscape_nil : pendingEscape [] = false := by decide

theorem pendingEscape_snoc (s : GoString) (chr : Nat) :
    pendingEscape (s ++ [chr]) = if chr = 92 then !pendingEscape s else false := by
  unfold pendingEscape
  rw [trailingBackslashes_snoc]
  by_cases h : chr = 92
  · simp only [h, if_true]
    rcases Nat.mod_two_eq_zero_or_one (trailingBackslashes s) with h2 | h2 <;>
      simp [Nat.add_mod, h2]
  · simp [h]

/-- The escape flag of a fresh tokenizer after a prefix is set exactly when the
prefix has an unpaired trailing backslash. -/
theorem tokenizeRun_escaping (tokens : List token) (s : GoString) :
    (tokenizeRun (tagTokenizer.mk false) tokens s).1.escaping = pendingEscape s := by
  induction s using List.reverseRecOn with
  | nil => rfl
  | append_singleton s chr ih =>
    rw [tokenizeRun_snoc_escaping, pendingEscape_snoc, ih]

/-- With no escape pending, a backslash and an ordinary byte give the same tokenizer
and the same token list as the byte alone. -/
theorem tokenizeLoop_backslash_ordinary (tokens : List token) (c : Nat) (q : GoString)
    (hc : c ≠ 61 ∧ c ≠ 44 ∧ c ≠ 92) :
    tokenizeLoop (tagTokenizer.mk false) tokens (92 :: c :: q) =
      tokenizeLoop (tagTokenizer.mk false) tokens (c :: q) := by
  simp [tokenizeLoop, tagTokenizer.step, tagTokenizer.escape, tagTokenizer.char, hc.1, hc.2.1,
    hc.2.2]

/-- C21: a backslash before an ordinary byte `c` (not '=', ',' or a backslash) has
no effect when the prefix `p` has no unpaired trailing backslash: both strings give
the same tokens and the same result of parseTag. A character of several bytes is
covered through its first byte, the other bytes being the start of `q`. -/
theorem backslash_ordinary (p q : GoString) (c : Nat) (hc : c ≠ 61 ∧ c ≠ 44 ∧ c ≠ 92)
    (hp : pendingEscape p = false) :
    (tagTokenizer.mk false).Tokenize (p ++ 92 :: c :: q) =
        (tagTokenizer.mk false).Tokenize (p ++ c :: q) ∧
      parseTag (p ++ 92 :: c :: q) = parseTag (p ++ c :: q) := by
  have htok : (tagTokenizer.mk false).Tokenize (p ++ 92 :: c :: q) =
      (tagTokenizer.mk false).Tokenize (p ++ c :: q) := by
    unfold tagTokenizer.Tokenize
    rw [tokenizeLoop_eq_run p _ _ (92 :: c :: q), tokenizeLoop_eq_run p _ _ (c :: q)]
    have hesc := tokenizeRun_escaping [] p
    rw [hp] at hesc
    have ht : (tokenizeRun (tagTokenizer.mk false) [] p).1 = tagTokenizer.mk false := by
      cases h : (tokenizeRun (tagTokenizer.mk false) [] p).1 with
      | mk e => rw [h] at hesc; simp only at hesc; rw [hesc]
    rw [ht]
    exact tokenizeLoop_backslash_ordinary _ c q hc
  refine ⟨htok, ?_⟩
  rw [parseTag_of_ne _ (by simp), parseTag_of_ne _ (by simp), htok]

theorem backslash_ordinary_witness :
    pendingEscape (ascii "a\\\\") = false ∧
      (tagTokenizer.mk false).Tokenize (ascii "a\\\\" ++ 92 :: 120 :: ascii "=1") =
        (tagTokenizer.mk false).Tokenize (ascii "a\\\\" ++ 120 :: ascii "=1") ∧
      parseTag (ascii "a\\\\" ++ 92 :: 120 :: ascii "=1") =
        parseTag (ascii "a\\\\" ++ 120 :: ascii "=1") :=
  ⟨by decide, backslash_ordinary (ascii "a\\\\") (ascii "=1") 120 (by decide) (by decide)⟩

/-! ## Theorems: outcomes of the parser on tokenizer output -/

theorem setLastValue_ne_nil (tuples : List (GoString × GoString)) (val : GoString)
    (h : tuples ≠ []) : ∃ tuples1, setLastValue tuples val = some tuples1 ∧ tuples1 ≠ [] := by
  rcases List.eq_nil_or_concat tuples with h0 | ⟨pre, l, h0⟩
  · exact absurd h0 h
  · rw [List.concat_eq_append] at h0
    subst h0
    exact ⟨pre ++ [(l.1, val)], by simp [setLastValue], by simp⟩

/-- The parser does not panic on a stream that has its only end token in last place,
from a state 0 to 3 in which the pairs are non-empty unless a label is awaited. -/
theorem parseLoop_no_panic (body : List token) :
    ∀ (state : Int) (tuples : List (GoString × GoString)),
      (state = 0 ∨ ((state = 1 ∨ state = 2 ∨ state = 3) ∧ tuples ≠ [])) →
      (∀ tk ∈ body, tk.typ ≠ eofToken) →
      ∀ p, parseLoop state tuples (body ++ [tEof]) ≠ .panic p := by
  induction body with
  | nil =>
    intro state tuples hst _ p
    rcases hst with h | ⟨h | h | h, _⟩ <;> subst h <;>
      simp [parseLoop, tEof, eofToken, charToken, sepToken, assignToken]
  | cons tk rest ih =>
    intro state tuples hst hbody p
    have hrest : ∀ x ∈ rest, x.typ ≠ eofToken := fun x hx => hbody x (List.mem_cons_of_mem _ hx)
    have htk : tk.typ ≠ eofToken := hbody tk (List.mem_cons_self _ _)
    rw [List.cons_append]
    rcases hst with h | ⟨h | h | h, hne⟩ <;> subst h
    · by_cases hc : tk.typ = charToken
      · simp only [parseLoop, hc, ne_eq, not_true_eq_false, if_false, if_true]
        exact ih 1 _ (Or.inr ⟨Or.inl rfl, by simp⟩) hrest p
      · simp [parseLoop, hc]
    · simp only [parseLoop, if_true, one_ne_zero, if_false, htk]
      split_ifs
      · exact ih 0 _ (Or.inl rfl) hrest p
      · exact ih 2 _ (Or.inr ⟨Or.inr (Or.inl rfl), hne⟩) hrest p
      · simp
    · by_cases hc : tk.typ = charToken
      · obtain ⟨tuples1, hset, hne1⟩ := setLastValue_ne_nil tuples tk.val hne
        simp only [parseLoop, hc, if_true, hset]
        simp only [show (2 : Int) ≠ 0 by decide, show (2 : Int) ≠ 1 by decide, if_false]
        exact ih 3 _ (Or.inr ⟨Or.inr (Or.inr rfl), hne1⟩) hrest p
      · simp [parseLoop, hc]
    · simp only [parseLoop, show (3 : Int) ≠ 0 by decide, show (3 : Int) ≠ 1 by decide,
        show (3 : Int) ≠ 2 by decide, if_false, if_true, htk]
      split_ifs
      · exact ih 0 _ (Or.inl rfl) hrest p
      · simp

theorem wfTok_not_eof (tk : token) (h : WfTok tk) : tk.typ ≠ eofToken := by
  rcases h with h | h | ⟨v, h⟩ <;> subst h <;>
    simp [tAssign, tSep, tChar, assignToken, sepToken, charToken, eofToken]

/-- Every error of the parser is one of its three messages. -/
theorem parseLoop_error_cases (ts : List token) :
    ∀ (state : Int) (tuples : List (GoString × GoString)) (e : GoString),
      parseLoop state tuples ts = .error e →
      e = ascii "expected a label" ∨ e = ascii "expected an assignment or a separator" ∨
        e = ascii "expected EOF or a separator" := by
  induction ts with
  | nil => intro state tuples e h; simp [parseLoop] at h
  | cons tk rest ih =>
    intro state tuples e h
    simp only [parseLoop] at h
    split_ifs at h
    all_goals first
      | exact ih _ _ e h
      | (injection h with h; subst h; simp)
      | skip
    · split at h
      · exact ih _ _ e h
      · simp at h

/-- C22: parseTag never panics. The tokens of every input end with the end token
and have no other end token, the parser does not panic on any such stream (neither
on an unknown state nor on the index of the last pair), and every call returns a
mapping or an error. -/
theorem parseTag_never_panics (s : GoString) :
    (∃ body, (tagTokenizer.mk false).Tokenize s = body ++ [tEof] ∧
        ∀ tk ∈ body, tk.typ ≠ eofToken) ∧
      (∀ body : List token, (∀ tk ∈ body, tk.typ ≠ eofToken) →
        ∀ p, parseLoop 0 [] (body ++ [tEof]) ≠ .panic p) ∧
      (∀ p, parseTag s ≠ .panic p) ∧
      ((∃ m, parseTag s = .ok m) ∨ ∃ e, parseTag s = .error e) := by
  obtain ⟨body, hbody, hwf⟩ := Tokenize_shape s
  have hne : ∀ tk ∈ body, tk.typ ≠ eofToken := fun tk htk => wfTok_not_eof tk (hwf tk htk)
  have hloop : ∀ body : List token, (∀ tk ∈ body, tk.typ ≠ eofToken) →
      ∀ p, parseLoop 0 [] (body ++ [tEof]) ≠ .panic p :=
    fun b hb p => parseLoop_no_panic b 0 [] (Or.inl rfl) hb p
  have hpanic : ∀ p, parseTag s ≠ .panic p := by
    intro p
    by_cases hs : s = []
    · subst hs; simp [parseTag_nil]
    · rw [parseTag_of_ne s hs, hbody]
      have h := hloop body hne
      cases hr : parseLoop 0 [] (body ++ [tEof]) with
      | ok tuples => simp
      | error e => simp
      | panic p1 => exact absurd hr (h p1)
  refine ⟨⟨body, hbody, hne⟩, hloop, hpanic, ?_⟩
  cases hr : parseTag s with
  | ok m => exact Or.inl ⟨m, rfl⟩
  | error e => exact Or.inr ⟨e, rfl⟩
  | panic p => exact absurd hr (hpanic p)

/-! ## Theorems: literal-run tokens are never adjacent -/

theorem noCharPair_pushToken (tokens : List token) (tok : token) (h : NoCharPair tokens) :
    NoCharPair (pushToken tokens tok) := by
  unfold NoCharPair at h ⊢
  rcases List.eq_nil_or_concat tokens with h0 | ⟨pre, l, h0⟩
  · subst h0; simp [pushToken_nil]
  · rw [List.concat_eq_append] at h0
    subst h0
    rw [pushToken_snoc]
    rw [List.chain'_append] at h
    obtain ⟨hpre, -, hlast⟩ := h
    split
    · rw [List.chain'_append]
      refine ⟨hpre, List.chain'_singleton _, ?_⟩
      intro x hx y hy
      simp only [List.head?_cons, Option.mem_def, Option.some.injEq] at hy
      subst hy
      exact hlast x hx l (by simp)
    · rename_i hc
      rw [List.chain'_append]
      refine ⟨hpre, ?_, ?_⟩
      · rw [List.chain'_cons]
        exact ⟨hc, List.chain'_singleton _⟩
      · intro x hx y hy
        simp only [List.head?_cons, Option.mem_def, Option.some.injEq] at hy
        subst hy
        exact hlast x hx l (by simp)

theorem noCharPair_snoc_end (tokens : List token) (t : tagTokenizer) (h : NoCharPair tokens) :
    NoCharPair (tokens ++ [t.end]) := by
  unfold NoCharPair at h ⊢
  rw [List.chain'_append]
  refine ⟨h, List.chain'_singleton _, ?_⟩
  intro x _ y hy
  simp only [List.head?_cons, Option.mem_def, Option.some.injEq] at hy
  subst hy
  simp [tagTokenizer.end, eofToken, charToken]

theorem noCharPair_tokenizeLoop (s : GoString) :
    ∀ (t : tagTokenizer) (tokens : List token), NoCharPair tokens →
      NoCharPair (tokenizeLoop t tokens s) := by
  induction s with
  | nil => intro t tokens h; exact noCharPair_snoc_end tokens t h
  | cons chr rest ih =>
    intro t tokens h
    simp only [tokenizeLoop]
    rcases hstep : t.step chr with ⟨t1, _ | tok⟩
    · exact ih t1 tokens h
    · exact ih t1 _ (noCharPair_pushToken tokens tok h)

theorem noCharPair_Tokenize (s : GoString) : NoCharPair ((tagTokenizer.mk false).Tokenize s) :=
  noCharPair_tokenizeLoop s _ [] List.chain'_nil

/-- The type of a token is one of the four constants. -/
theorem wfTok_typ (tk : token) (h : WfTok tk ∨ tk = tEof) :
    tk.typ = assignToken ∨ tk.typ = sepToken ∨ tk.typ = charToken ∨ tk.typ = eofToken := by
  rcases h with (h | h | ⟨v, h⟩) | h <;> subst h <;>
    simp [tAssign, tSep, tChar, tEof, assignToken, sepToken, charToken, eofToken]

/-- On a stream without adjacent literal-run tokens the parser, when it is not in
state 1 before a literal-run token, never reports a missing assignment or separator. -/
theorem parseLoop_not_assign_sep (ts : List token) :
    ∀ (state : Int) (tuples : List (GoString × GoString)), NoCharPair ts →
      (∀ tk ∈ ts, tk.typ = assignToken ∨ tk.typ = sepToken ∨ tk.typ = charToken ∨
        tk.typ = eofToken) →
      (state = 1 → ∀ tk ∈ ts.head?, tk.typ ≠ charToken) →
      parseLoop state tuples ts ≠ .error (ascii "expected an assignment or a separator") := by
  induction ts with
  | nil => intro state tuples _ _ _; simp [parseLoop]
  | cons tk rest ih =>
    intro state tuples hch hty hst
    have hrest : NoCharPair rest := List.Chain'.tail hch
    have htyr : ∀ x ∈ rest, x.typ = assignToken ∨ x.typ = sepToken ∨ x.typ = charToken ∨
        x.typ = eofToken := fun x hx => hty x (List.mem_cons_of_mem _ hx)
    have hnext : tk.typ = charToken → ∀ x ∈ rest.head?, x.typ ≠ charToken := by
      intro hc x hx hxc
      unfold NoCharPair at hch
      rw [List.chain'_cons'] at hch
      exact hch.1 x hx ⟨hc, hxc⟩
    by_cases h0 : state = 0
    · subst h0
      by_cases hc : tk.typ = charToken
      · simp only [parseLoop, hc, ne_eq, not_true_eq_false, if_false, if_true]
        exact ih 1 _ hrest htyr (fun _ => hnext hc)
      · simp only [parseLoop, ne_eq, hc, not_false_eq_true, if_true]
        decide
    by_cases h1 : state = 1
    · subst h1
      have hnc : tk.typ ≠ charToken := hst rfl tk (by simp)
      simp only [parseLoop, one_ne_zero, if_false, if_true]
      split_ifs with hsep has heof
      · exact ih 0 _ hrest htyr (fun h => absurd h (by decide))
      · exact ih 2 _ hrest htyr (fun h => absurd h (by decide))
      · exact ih (-1) _ hrest htyr (fun h => absurd h (by decide))
      · rcases hty tk (List.mem_cons_self _ _) with h | h | h | h
        · exact absurd h has
        · exact absurd h hsep
        · exact absurd h hnc
        · exact absurd h heof
    by_cases h2 : state = 2
    · subst h2
      simp only [parseLoop, show (2 : Int) ≠ 0 by decide, show (2 : Int) ≠ 1 by decide,
        if_false, if_true]
      split_ifs with hc
      · split
        · exact ih 3 _ hrest htyr (fun h => absurd h (by decide))
        · simp
      · decide
    by_cases h3 : state = 3
    · subst h3
      simp only [parseLoop, show (3 : Int) ≠ 0 by decide, show (3 : Int) ≠ 1 by decide,
        show (3 : Int) ≠ 2 by decide, if_false, if_true]
      split_ifs
      · exact ih (-1) _ hrest htyr (fun h => absurd h (by decide))
      · exact ih 0 _ hrest htyr (fun h => absurd h (by decide))
      · decide
    simp [parseLoop, h0, h1, h2, h3]

/-- C23: the error "expected an assignment or a separator" is unreachable. The
tokens of every input have no literal-run token directly followed by another one, so
parseTag succeeds or fails with "expected a label" or "expected EOF or a separator",
and never with "expected an assignment or a separator"; the parser alone does report
that error on two adjacent literal-run tokens. -/
theorem assign_or_sep_error_unreachable (s : GoString) :
    NoCharPair ((tagTokenizer.mk false).Tokenize s) ∧
      ((∃ m, parseTag s = .ok m) ∨ parseTag s = .error (ascii "expected a label") ∨
        parseTag s = .error (ascii "expected EOF or a separator")) ∧
      parseTag s ≠ .error (ascii "expected an assignment or a separator") ∧
      (∀ v w : GoString, parseLoop 0 [] [tChar v, tChar w, tEof] =
        .error (ascii "expected an assignment or a separator")) := by
  have hpair := noCharPair_Tokenize s
  obtain ⟨body, hbody, hwf⟩ := Tokenize_shape s
  have hty : ∀ tk ∈ (tagTokenizer.mk false).Tokenize s,
      tk.typ = assignToken ∨ tk.typ = sepToken ∨ tk.typ = charToken ∨ tk.typ = eofToken := by
    intro tk htk
    rw [hbody] at htk
    rcases List.mem_append.1 htk with h | h
    · exact wfTok_typ tk (Or.inl (hwf tk h))
    · exact wfTok_typ tk (Or.inr (by simpa using h))
  have hnot := parseLoop_not_assign_sep _ 0 [] hpair hty (fun h => absurd h (by decide))
  have hpanic : ∀ p, parseLoop 0 [] ((tagTokenizer.mk false).Tokenize s) ≠ .panic p := by
    intro p
    rw [hbody]
    exact parseLoop_no_panic body 0 [] (Or.inl rfl)
      (fun tk htk => wfTok_not_eof tk (hwf tk htk)) p
  have hcases : (∃ m, parseTag s = .ok m) ∨ parseTag s = .error (ascii "expected a label") ∨
      parseTag s = .error (ascii "expected EOF or a separator") := by
    by_cases hs : s = []
    · subst hs; exact Or.inl ⟨none, rfl⟩
    · rw [parseTag_of_ne s hs]
      cases hr : parseLoop 0 [] ((tagTokenizer.mk false).Tokenize s) with
      | ok tuples => exact Or.inl ⟨_, rfl⟩
      | error e =>
        rcases parseLoop_error_cases _ 0 [] e hr with h | h | h
        · subst h; exact Or.inr (Or.inl rfl)
        · subst h; exact absurd hr hnot
        · subst h; exact Or.inr (Or.inr rfl)
      | panic p => exact absurd hr (hpanic p)
  refine ⟨hpair, hcases, ?_, ?_⟩
  · rcases hcases with ⟨m, h⟩ | h | h <;> rw [h]
    · simp
    · decide
    · decide
  · intro v w
    simp [parseLoop, tChar, charToken, sepToken, assignToken, eofToken]


end Configurer
